import Mathlib

/-!
# rdkssa: command tokenizer and attribute dispatch engine

Shallow embedding of `ssa_top/ssa_oss/cli/ssacli.c` (`parseProvCmds`,
`callProvider`, `processCmd`, `climain`), of `ssa_top/ssa_oss/ssa_common/ssaCommon.c`
(`attributeHandlerHelper`, `rdkssaHandleAPIHelper`, `rdkssaAttrCheck`,
`rdkssaExecvPipeOutput`) and of the Mount provider
`ssa_top/ssa_oss/ssa_common/providers/Mount/generic/rdkssaMountProvider.c`
(`rdkssaMount`, its handlers and `mountWriteKeyCallback`).

Conventions of the embedding:

* a C string is the list of its characters before the terminating NUL
  (`Str`), one element for each C `char`; a pointer that may be `NULL` is an
  `Option`;
* a pointer into a string is the offset from the start of that string;
* `rdkssaStatus_t` is a C `int`, modelled as `Int`;
* allocation (`calloc`, `malloc`) is assumed to succeed;
* a handler is a function from the state it can touch and the string it is
  given to the new state and a status; every handler call is also recorded
  in a call log (table index, string passed);
* the command processing returns, with its status, the list of what it did
  on the way (provider selected, tokenizer called, wrapper called);
* a byte is a `Nat`; files, standard input and the results of `pipe`, `fork`,
  `write` and `waitpid` are parameters of a run, and `rdkssaMount` returns,
  with its status, the handler calls, the parameter record and the calls of
  the child-process channel it made.
-/

namespace Rdkssa

/-- A C string: its characters before the terminating NUL. -/
abbrev Str := List Char

/-! ## Constants of `rdkssa.h` -/

abbrev rdkssaStatus_t := Int

def rdkssaOK : rdkssaStatus_t := 0
def rdkssaGeneralFailure : rdkssaStatus_t := -1
def rdkssaBadPointer : rdkssaStatus_t := -2
def rdkssaAttributeNotFound : rdkssaStatus_t := -3
def rdkssaSyntaxError : rdkssaStatus_t := -4
def rdkssaBadLength : rdkssaStatus_t := -5
def rdkssaValidityError : rdkssaStatus_t := -6
def rdkssaNYIError : rdkssaStatus_t := -100

def MAX_SUPPORTED_ATTRIBUTES : Nat := 32
def MIN_ATTRIBUTE_NAME_LENGTH : Nat := 2
def MAX_ATTRIBUTE_NAME_LENGTH : Nat := 2048
def VALUE_DELIM : Char := '='
def ATTRIB_DELIM : Char := ','
def COMMAND_HEAD : Char := '{'
def COMMAND_TAIL : Char := '}'

/-! ## C library functions used by the code -/

/-- The C `strchr(s, c)` for `c` other than NUL: offset of the first
occurrence of `c` in `s`, `none` for `NULL`. -/
def strchr : Str → Char → Option Nat
  | [], _ => none
  | x :: xs, c => if x = c then some 0 else (strchr xs c).map (· + 1)

/-- The C `strnlen(s, n)`. -/
def strnlen (s : Str) (n : Nat) : Nat := min s.length n

/-- The test `strncmp(a, b, n) == 0`: the two strings agree on their first
`n` characters, terminator included when it comes earlier. -/
def strncmpEq (a b : Str) (n : Nat) : Bool := a.take n == b.take n

/-! ## `parseProvCmds` (ssacli.c) -/

/-- The delimiter search at the head of the loop body: the first `,` of the
rest of the input, else the first `}`. -/
def findDelim (str : Str) : Option Nat :=
  match strchr str ATTRIB_DELIM with
  | some d => some d
  | none => strchr str COMMAND_TAIL

/-- The `do { ... } while ( *delim != COMMAND_TAIL && strIx < MAX_SUPPORTED_ATTRIBUTES )`
loop of `parseProvCmds`. `str` is the cursor (the rest of the input), `strIx`
the number of tokens stored, `newVector` the tokens stored so far. `none` is
`goto theCleaners`; otherwise the final `strIx` and vector are returned. The
first argument bounds the number of passes; the loop condition stops the loop
before `MAX_SUPPORTED_ATTRIBUTES - strIx` passes are exceeded. -/
def parseLoop : Nat → Str → Nat → List Str → Option (Nat × List Str)
  | 0, _, _, _ => none
  | fuel + 1, str, strIx, newVector =>
    match findDelim str with
    | none => none
    | some delim =>
      if (strchr str VALUE_DELIM).map (· + 1) = some delim then none
      else
        let attrlen := delim
        let newVector := newVector ++ [str.take attrlen]
        let strIx := strIx + 1
        if str[delim]? ≠ some COMMAND_TAIL ∧ strIx < MAX_SUPPORTED_ATTRIBUTES then
          parseLoop fuel (str.drop (delim + 1)) strIx newVector
        else
          some (strIx, newVector)

/-- The tokenizer `parseProvCmds`: the vector of tokens, or `none` for the
`NULL` result. -/
def parseProvCmds (provCmds : Option Str) : Option (List Str) :=
  match provCmds with
  | none => none
  | some s =>
    match parseLoop MAX_SUPPORTED_ATTRIBUTES s 0 [] with
    | none => none
    | some (strIx, newVector) =>
      if strIx ≥ MAX_SUPPORTED_ATTRIBUTES then none else some newVector

/-! ## `attributeHandlerHelper` (ssaCommon.c) -/

/-- The handler type `AttributeHandlerFuncPtr`: from the state the handler can
touch (the blob and whatever else it reaches) and the string it is given, to
the new state and the status it returns. -/
abbrev AttributeHandlerFuncPtr (β : Type) := β → Str → β × rdkssaStatus_t

/-- One entry of an attribute table, `AttributeHandlerStruct`; both members
may be `NULL`. A table is the list of the entries of the C array, which ends
with an entry whose name is `NULL`; the end of the list is read as such an
entry. -/
structure AttributeHandlerStruct (β : Type) where
  attributeNameStr : Option Str
  attributeOperation : Option (AttributeHandlerFuncPtr β)

/-- What a dispatch leaves behind: the state, the status returned, and the
handler calls made, in order, each as the table index of the entry called and
the string passed to its handler. -/
structure Dispatch (β : Type) where
  blob : β
  status : rdkssaStatus_t
  calls : List (Nat × Str)
  deriving DecidableEq

/-- The table scan of `attributeHandlerHelper`, from index `iAttributIterator`
on, the second list being the entries from that index. `attributeName` is the
token, `eq` the offset of its first `=` if any, `attrPtr` the name compared
(the token, or the copy of its part before the `=`). -/
def attributeLoop {β : Type} (apiBlobPtr : β) (attributeName : Str) (eq : Option Nat)
    (attrPtr : Str) : Nat → List (AttributeHandlerStruct β) → Dispatch β
  | _, [] => ⟨apiBlobPtr, rdkssaAttributeNotFound, []⟩
  | iAttributIterator, entry :: rest =>
    if iAttributIterator < MAX_SUPPORTED_ATTRIBUTES then
      match entry.attributeNameStr with
      | none => ⟨apiBlobPtr, rdkssaAttributeNotFound, []⟩
      | some attributeNameStr =>
        match entry.attributeOperation with
        | none => attributeLoop apiBlobPtr attributeName eq attrPtr (iAttributIterator + 1) rest
        | some attributeOperation =>
          if strncmpEq attributeNameStr attrPtr MAX_ATTRIBUTE_NAME_LENGTH then
            let attrPtr := match eq with
              | some k => attributeName.drop (k + 1)
              | none => attrPtr
            let iRet := attributeOperation apiBlobPtr attrPtr
            ⟨iRet.1, iRet.2, [(iAttributIterator, attrPtr)]⟩
          else
            attributeLoop apiBlobPtr attributeName eq attrPtr (iAttributIterator + 1) rest
    else ⟨apiBlobPtr, rdkssaAttributeNotFound, []⟩

/-- The single-token dispatch `attributeHandlerHelper`. -/
def attributeHandlerHelper {β : Type} (apiBlobPtr : β) (attributeName : Option Str)
    (attributeTable : Option (List (AttributeHandlerStruct β))) : Dispatch β :=
  match attributeName, attributeTable with
  | some attributeName, some attributeTable =>
    let inputAtrbNameLength := strnlen attributeName (MAX_ATTRIBUTE_NAME_LENGTH + 1)
    if inputAtrbNameLength > MAX_ATTRIBUTE_NAME_LENGTH ∨
        inputAtrbNameLength < MIN_ATTRIBUTE_NAME_LENGTH then
      ⟨apiBlobPtr, rdkssaGeneralFailure, []⟩
    else
      match strchr attributeName VALUE_DELIM with
      | some copyLen =>
        if copyLen = 0 then ⟨apiBlobPtr, rdkssaSyntaxError, []⟩
        else
          attributeLoop apiBlobPtr attributeName (some copyLen) (attributeName.take copyLen)
            0 attributeTable
      | none => attributeLoop apiBlobPtr attributeName none attributeName 0 attributeTable
  | _, _ => ⟨apiBlobPtr, rdkssaBadPointer, []⟩

/-! ## Notions used to state the properties -/

/-- The name portion of a token: the text before its first `=`, the whole
token when it has none. -/
def nameOf (token : Str) : Str := token.takeWhile (fun c => c != VALUE_DELIM)

/-- The value portion of a token: the text after its first `=`, the whole
token when it has none. -/
def valueOf (token : Str) : Str :=
  if VALUE_DELIM ∈ token then (token.dropWhile (fun c => c != VALUE_DELIM)).drop 1 else token

/-- A sample handler for concrete instances, after the handlers of the unit
tests: handler number `num` records its number and the string it is given in
the state, and returns the status `st`. -/
def tagHandler (num : Nat) (st : rdkssaStatus_t) : AttributeHandlerFuncPtr (List (Nat × Str)) :=
  fun blob v => (blob ++ [(num, v)], st)

/-- A table entry with a name and a sample handler. -/
def tagEntry (name : Str) (num : Nat) (st : rdkssaStatus_t) :
    AttributeHandlerStruct (List (Nat × Str)) :=
  ⟨some name, some (tagHandler num st)⟩

/-- The table `utAttTable` of the unit test of `attributeHandlerHelper`. -/
def utAttTable : List (AttributeHandlerStruct (List (Nat × Str))) :=
  [tagEntry "red".toList 1 rdkssaOK, tagEntry "blue".toList 2 rdkssaOK,
   tagEntry "green".toList 3 rdkssaOK, ⟨none, none⟩]

/-- The table `utAttTable2` of the unit test of `attributeHandlerHelper`. -/
def utAttTable2 : List (AttributeHandlerStruct (List (Nat × Str))) :=
  [tagEntry "red".toList 1 rdkssaOK, tagEntry "red1".toList 2 rdkssaOK,
   tagEntry "blue1".toList 3 rdkssaOK, tagEntry "blue".toList 4 rdkssaOK, ⟨none, none⟩]

/-- A table with two entries of the same name, the second failing. -/
def twiceRedTable : List (AttributeHandlerStruct (List (Nat × Str))) :=
  [tagEntry "red".toList 1 rdkssaOK, tagEntry "red".toList 2 rdkssaGeneralFailure, ⟨none, none⟩]

/-- A table whose only entry has the empty name. -/
def emptyNameTable : List (AttributeHandlerStruct (List (Nat × Str))) :=
  [tagEntry [] 1 rdkssaOK, ⟨none, none⟩]

/-- A table of 33 entries: 32 named `blue`, then one named `red`. -/
def longTable : List (AttributeHandlerStruct (List (Nat × Str))) :=
  List.replicate 32 (tagEntry "blue".toList 1 rdkssaOK) ++
    [tagEntry "red".toList 2 rdkssaOK, ⟨none, none⟩]

/-- A name of `n` characters `z`. -/
def zName (n : Nat) : Str := List.replicate n 'z'

/-- A table whose first name has 2049 characters and whose second name is
the first 2048 of them. -/
def overlongTable : List (AttributeHandlerStruct (List (Nat × Str))) :=
  [tagEntry (zName 2049) 1 rdkssaOK, tagEntry (zName 2048) 2 rdkssaOK, ⟨none, none⟩]

/-- The number of comma-separated segments of a string. -/
def segmentCount (s : Str) : Nat := List.count ATTRIB_DELIM s + 1

/-- The command of the tokenizer's unit test. -/
def utCommand : Str := "\x7bVAR1=VAL1,VAR2=VAL2,VAR3=VAL3\x7d".toList

/-- The tokens the unit test expects for `utCommand`. -/
def utTokens : List Str := ["\x7bVAR1=VAL1".toList, "VAR2=VAL2".toList, "VAR3=VAL3".toList]

/-- An input of `n + 1` well-formed segments `A=b`, the last closed by `}`. -/
def segmentsInput (n : Nat) : Str := (List.replicate n "A=b,".toList).flatten ++ "A=b\x7d".toList


/-- The comparison the table scan makes between a table name and the name of
the token: the two agree on their first `MAX_ATTRIBUTE_NAME_LENGTH`
characters. Between names no longer than that it is equality. -/
def namesMatch (tableName tokenName : Str) : Prop :=
  tableName.take MAX_ATTRIBUTE_NAME_LENGTH = tokenName.take MAX_ATTRIBUTE_NAME_LENGTH

instance (a b : Str) : Decidable (namesMatch a b) := by
  unfold namesMatch
  infer_instance

/-- A token that passes the length screen of `attributeHandlerHelper`. -/
def validLength (token : Str) : Prop :=
  MIN_ATTRIBUTE_NAME_LENGTH ≤ token.length ∧ token.length ≤ MAX_ATTRIBUTE_NAME_LENGTH

instance (t : Str) : Decidable (validLength t) := by
  unfold validLength
  infer_instance

/-- The entries of a table: those before the first entry whose name is
`NULL`. -/
def tableEntries {β : Type} (table : List (AttributeHandlerStruct β)) :
    List (AttributeHandlerStruct β) :=
  table.takeWhile (fun e => e.attributeNameStr.isSome)
/-! ## `rdkssaAttrCheck` and `rdkssaHandleAPIHelper` (ssaCommon.c) -/

def MAX_ATTRIBUTE_VALUE_LENGTH : Nat := 2048

/-- The string `RDKSSA_BADCHARS` of `rdkssa.h`; character 92 is the
backslash. -/
def RDKSSA_BADCHARS : Str :=
  ['{', '}', '@', Char.ofNat 92, '&', '|', '*', '<', '>', '[', ']', '(', ')', '$', ';']

/-- The C `strpbrk(s, accept)`: offset of the first character of `s` that
occurs in `accept`, `none` for `NULL`. -/
def strpbrk : Str → Str → Option Nat
  | [], _ => none
  | x :: xs, accept => if x ∈ accept then some 0 else (strpbrk xs accept).map (· + 1)

/-- The value check `rdkssaAttrCheck`: the string itself when it is valid,
`none` for `NULL`. -/
def rdkssaAttrCheck (valueStr : Option Str) : Option Str :=
  match valueStr with
  | none => none
  | some s =>
    if s = [] then none
    else if strnlen s (MAX_ATTRIBUTE_VALUE_LENGTH + 1) > MAX_ATTRIBUTE_VALUE_LENGTH then none
    else if strpbrk s RDKSSA_BADCHARS ≠ none then none
    else some s

/-- The loop of `rdkssaHandleAPIHelper` from index `i` on, the list being the
tokens from that index up to the `NULL` that ends the array; `iRetAtr` is the
status so far. The calls of the tokens dispatched are logged in order. -/
def handleLoop {β : Type} (attributeTable : Option (List (AttributeHandlerStruct β))) :
    Nat → β → rdkssaStatus_t → List Str → Dispatch β
  | _, apiBlobPtr, iRetAtr, [] => ⟨apiBlobPtr, iRetAtr, []⟩
  | i, apiBlobPtr, iRetAtr, attr :: rest =>
    if i < MAX_SUPPORTED_ATTRIBUTES then
      let r := attributeHandlerHelper apiBlobPtr (some attr) attributeTable
      if r.status ≠ rdkssaOK then r
      else
        let r2 := handleLoop attributeTable (i + 1) r.blob r.status rest
        ⟨r2.blob, r2.status, r.calls ++ r2.calls⟩
    else ⟨apiBlobPtr, iRetAtr, []⟩

/-- The batch dispatch `rdkssaHandleAPIHelper`. The attribute array is the
list of its strings before the terminating `NULL`. -/
def rdkssaHandleAPIHelper {β : Type} (apiBlobPtr : β) (attributes : Option (List Str))
    (attributeTable : Option (List (AttributeHandlerStruct β))) : Dispatch β :=
  match attributeTable, attributes with
  | some attributeTable, some attributes =>
    handleLoop (some attributeTable) 0 apiBlobPtr rdkssaAttributeNotFound attributes
  | _, _ => ⟨apiBlobPtr, rdkssaBadPointer, []⟩

/-! ## `processCmd` and `callProvider` (ssacli.c) -/

def rdkssaProviderNotFound : rdkssaStatus_t := -12

/-- What the command processing does on its way, in order: the provider
wrapper it selects, the call of the tokenizer, the call of the wrapper, the
call of `rdkssaMount`. -/
inductive CliEvent where
  | selected (provname : Str)
  | tokenizer (provCmds : Str)
  | wrapper (provname : Str) (apiName : Str) (apiVector : List Str)
  | mount (apiAttributes : List Str)
  deriving DecidableEq, Repr

/-- A provider wrapper, `provWrapperFunc`: from the API name and the
attribute vector to a status and what it did. -/
abbrev provWrapperFunc := Str → List Str → rdkssaStatus_t × List CliEvent

def callCAProvider : provWrapperFunc := fun _ _ => (rdkssaNYIError, [])

def callStorProvider : provWrapperFunc := fun _ _ => (rdkssaNYIError, [])

def callIdentProvider : provWrapperFunc := fun _ _ => (rdkssaNYIError, [])

/-- The wrapper `callMountProvider`; `rdkssaMount` is the Mount API called
with a `NULL` blob, of which only the status is used here. -/
def callMountProvider (rdkssaMount : List Str → rdkssaStatus_t) : provWrapperFunc :=
  fun apiName apiVector =>
    if apiName = "MOUNT".toList then (rdkssaMount apiVector, [CliEvent.mount apiVector])
    else (rdkssaNYIError, [])

/-- The table `providerWrapperTable`, without its `NULL` entry. -/
def providerWrapperTable (rdkssaMount : List Str → rdkssaStatus_t) :
    List (Str × provWrapperFunc) :=
  [("STOR".toList, callStorProvider), ("CA".toList, callCAProvider),
   ("IDENT".toList, callIdentProvider), ("MOUNT".toList, callMountProvider rdkssaMount)]

/-- The function `callProvider`. -/
def callProvider (rdkssaMount : List Str → rdkssaStatus_t) (theProv : Str)
    (provCmds : Option Str) : rdkssaStatus_t × List CliEvent :=
  match provCmds with
  | none => (rdkssaBadPointer, [])
  | some provCmds =>
    match (providerWrapperTable rdkssaMount).find? (fun p => p.1 = theProv) with
    | none => (rdkssaProviderNotFound, [])
    | some (provname, selectedProvider) =>
      match parseProvCmds (some provCmds) with
      | none => (rdkssaSyntaxError, [CliEvent.selected provname, CliEvent.tokenizer provCmds])
      | some [] =>
        (rdkssaBadPointer, [CliEvent.selected provname, CliEvent.tokenizer provCmds])
      | some (cmd :: provAttributex) =>
        if strnlen cmd (MAX_ATTRIBUTE_NAME_LENGTH + 1) > MAX_ATTRIBUTE_NAME_LENGTH then
          (rdkssaSyntaxError, [CliEvent.selected provname, CliEvent.tokenizer provCmds])
        else
          let r := selectedProvider cmd provAttributex
          (r.1, [CliEvent.selected provname, CliEvent.tokenizer provCmds,
            CliEvent.wrapper provname cmd provAttributex] ++ r.2)

/-- The value `handleError` returns when it returns (no exit asked for, or
no error); its messages are not modelled. -/
def handleError (err : rdkssaStatus_t) : rdkssaStatus_t := err

/-- The function `processCmd`. The provider name is the text after the `{`
up to the first `=` or the end of the string; with a `=` the command remainder
is the text after it, without one it is the provider name itself. -/
def processCmd (rdkssaMount : List Str → rdkssaStatus_t) (cmdStr : Option Str) :
    rdkssaStatus_t × List CliEvent :=
  match cmdStr with
  | none => (rdkssaBadPointer, [])
  | some cmdStr =>
    if MAX_ATTRIBUTE_NAME_LENGTH < strnlen cmdStr (MAX_ATTRIBUTE_NAME_LENGTH + 1) then
      (rdkssaBadLength, [])
    else
      match cmdStr with
      | [] => (handleError rdkssaSyntaxError, [])
      | c :: charp =>
        if c ≠ COMMAND_HEAD then (handleError rdkssaSyntaxError, [])
        else
          match strchr charp VALUE_DELIM with
          | some k => callProvider rdkssaMount (charp.take k) (some (charp.drop (k + 1)))
          | none => callProvider rdkssaMount charp (some charp)

/-! ## Notions used to state the properties of the later functions -/

/-- A value `rdkssaAttrCheck` is claimed to accept: non-null, non-empty, at
most `MAX_ATTRIBUTE_VALUE_LENGTH` characters, none of them in
`RDKSSA_BADCHARS`. -/
def validValue (v : Option Str) : Prop :=
  match v with
  | none => False
  | some s => s ≠ [] ∧ s.length ≤ MAX_ATTRIBUTE_VALUE_LENGTH ∧ ∀ c ∈ s, c ∉ RDKSSA_BADCHARS

instance (v : Option Str) : Decidable (validValue v) := by
  cases v with
  | none => exact isFalse (fun h => h)
  | some s =>
    unfold validValue
    infer_instance

/-- The provider keywords of the registry. -/
def providerKeywords : List Str :=
  ["STOR".toList, "CA".toList, "IDENT".toList, "MOUNT".toList]

/-- The state reached by dispatching the tokens one after the other, each
with `attributeHandlerHelper`. -/
def stateAfter {β : Type} (table : List (AttributeHandlerStruct β)) : β → List Str → β
  | b, [] => b
  | b, a :: rest => stateAfter table (attributeHandlerHelper b (some a) (some table)).blob rest

/-- The handler calls made by dispatching the tokens one after the other. -/
def callsAfter {β : Type} (table : List (AttributeHandlerStruct β)) :
    β → List Str → List (Nat × Str)
  | _, [] => []
  | b, a :: rest =>
    (attributeHandlerHelper b (some a) (some table)).calls ++
      callsAfter table (attributeHandlerHelper b (some a) (some table)).blob rest

/-- Every token of the list is dispatched with status `rdkssaOK`, each from
the state its predecessors leave. -/
def allOK {β : Type} (table : List (AttributeHandlerStruct β)) : β → List Str → Prop
  | _, [] => True
  | b, a :: rest =>
    (attributeHandlerHelper b (some a) (some table)).status = rdkssaOK ∧
      allOK table (attributeHandlerHelper b (some a) (some table)).blob rest

instance {β : Type} (table : List (AttributeHandlerStruct β)) (b : β) (l : List Str) :
    Decidable (allOK table b l) := by
  induction l generalizing b with
  | nil => exact isTrue trivial
  | cons a rest ih =>
    unfold allOK
    exact instDecidableAnd

/-- Every token of the list matched a table entry, and the handler called for
it succeeded: token after token, some entry of the table has a handler and a
name matching the name portion of the token, and that handler, given the
value portion in the state reached so far, returns `rdkssaOK`. -/
def everyTokenServed {β : Type} (table : List (AttributeHandlerStruct β)) :
    β → List Str → Prop
  | _, [] => True
  | b, t :: rest =>
    ∃ (j : Nat) (e : AttributeHandlerStruct β) (nm : Str) (h : AttributeHandlerFuncPtr β),
      table[j]? = some e ∧ e.attributeNameStr = some nm ∧ e.attributeOperation = some h ∧
      namesMatch nm (nameOf t) ∧ (h b (valueOf t)).2 = rdkssaOK ∧
      everyTokenServed table (h b (valueOf t)).1 rest

/-- A list of 32 tokens `red=1` followed by the token `niy` and the token
`blue=2`. -/
def thirtyTwoThenUnknown : List Str :=
  List.replicate 32 "red=1".toList ++ ["niy".toList, "blue=2".toList]

/-- A list of 32 tokens `blue=1` followed by the token `bogus=2`. -/
def thirtyTwoThenBogus : List Str :=
  List.replicate 32 "blue=1".toList ++ ["bogus=2".toList]

/-- The table `utHndTable` of the unit test of `rdkssaHandleAPIHelper`. -/
def utHndTable : List (AttributeHandlerStruct (List (Nat × Str))) :=
  [tagEntry "ATTR1".toList 1 rdkssaOK, tagEntry "ATTR2".toList 2 rdkssaOK,
   tagEntry "ATTR3".toList 3 rdkssaOK, tagEntry "ATTR4".toList 4 rdkssaOK, ⟨none, none⟩]

/-- The attribute list `attArray` of the unit test of
`rdkssaHandleAPIHelper`. -/
def attArray : List Str :=
  ["ATTR3=9".toList, "ATTR2=8".toList, "ATTR4=7".toList, "ATTR1=6".toList]

/-- A mock context with one slot for each handler: the value each handler
recorded last, if any. -/
abbrev SlotCtx := Nat → Option Str

/-- The mock handler of slot `slot`: it records the value it is given in its
own slot and succeeds. -/
def slotHandler (slot : Nat) : AttributeHandlerFuncPtr SlotCtx :=
  fun ctx v => (Function.update ctx slot (some v), rdkssaOK)

/-- The table of the names in declaration order, entry number `i + k` having
the `k`-th name and the mock handler of slot `i + k`, closed by the `NULL`
entry. -/
def slotTableFrom : Nat → List Str → List (AttributeHandlerStruct SlotCtx)
  | _, [] => [⟨none, none⟩]
  | i, n :: ns => ⟨some n, some (slotHandler i)⟩ :: slotTableFrom (i + 1) ns

/-- The table of `N` names with the mock handlers of slots `0` to `N - 1`. -/
def slotTable (names : List Str) : List (AttributeHandlerStruct SlotCtx) :=
  slotTableFrom 0 names

/-- The position of a name in the list of names. -/
def slotOf : List Str → Str → Nat
  | [], _ => 0
  | n :: ns, name => if n = name then 0 else slotOf ns name + 1

/-- The number of calls of the handler of table entry `i` in a call log. -/
def callCount (calls : List (Nat × Str)) (i : Nat) : Nat :=
  (calls.map Prod.fst).count i

/-- The names `n0`, ..., `n(k-1)`: `n` followed by one to `k` characters
`x`. -/
def manyNames (k : Nat) : List Str :=
  (List.range k).map (fun i => 'n' :: List.replicate (i + 1) 'x')

/-- What the table scan sees of the name of an entry: its first
`MAX_ATTRIBUTE_NAME_LENGTH` characters. -/
def nameKey {β : Type} (e : AttributeHandlerStruct β) : Option Str :=
  e.attributeNameStr.map (List.take MAX_ATTRIBUTE_NAME_LENGTH)

/-- The four entries of `utAttTable2`, without the closing `NULL` entry. -/
def utEntries2 : List (AttributeHandlerStruct (List (Nat × Str))) :=
  [tagEntry "red".toList 1 rdkssaOK, tagEntry "red1".toList 2 rdkssaOK,
   tagEntry "blue1".toList 3 rdkssaOK, tagEntry "blue".toList 4 rdkssaOK]

/-- The attribute list of the unit test in declaration order of
`utHndTable`. -/
def attArrayDeclared : List Str :=
  ["ATTR1=6".toList, "ATTR2=8".toList, "ATTR3=9".toList, "ATTR4=7".toList]

/-- The names of `utHndTable`. -/
def utHndNames : List Str :=
  ["ATTR1".toList, "ATTR2".toList, "ATTR3".toList, "ATTR4".toList]

/-! ## `rdkssaExecvPipeOutput` (ssaCommon.c), seen from the parent process -/

def rdkssaFileError : rdkssaStatus_t := -9
def rdkssaMissingAttribute : rdkssaStatus_t := -11

/-- The status `waitpid` stores: a normal exit with its exit status, or any
other termination. -/
inductive WaitStatus where
  | exited (code : Nat)
  | other
  deriving DecidableEq, Repr

/-- The macro `WIFEXITED`. -/
def WIFEXITED : WaitStatus → Bool
  | WaitStatus.exited _ => true
  | WaitStatus.other => false

/-- The macro `WEXITSTATUS`: the low eight bits of the exit status. -/
def WEXITSTATUS : WaitStatus → Int
  | WaitStatus.exited code => (code % 256 : Nat)
  | WaitStatus.other => 0

/-- What the operating system does during one call of the channel: whether
`pipe` succeeds, what `fork` returns in the parent (`none` for `-1`, `some p`
for the process id `p + 1` of the child), what `write` returns for the bytes
it is asked to write, and what `waitpid` returns and stores. -/
structure ExecEnv where
  pipeOk : Bool
  fork : Option Nat
  write : List Nat → Int
  waitRet : Int
  waitStatus : WaitStatus

/-- The callback type `rdkssaIOCallback`: given what `write` on the pipe
returns and the caller's blob, the bytes it asks to write and its status. -/
abbrev rdkssaIOCallback (β : Type) := (List Nat → Int) → β → List Nat × rdkssaStatus_t

/-- What a call of the channel did: the status it returns, whether a child
was created, and, when the callback ran, the bytes the callback asked to write
into the pipe and the status the callback returned. -/
structure ExecOutcome where
  status : rdkssaStatus_t
  spawned : Bool
  written : Option (List Nat)
  callbackStatus : Option rdkssaStatus_t
  deriving DecidableEq, Repr

/-- The channel `rdkssaExecvPipeOutput` in the parent process. `exargv` is the
argument vector before its `NULL`; an empty one has `exargv[0] == NULL`. -/
def rdkssaExecvPipeOutput {β : Type} (env : ExecEnv) (exargv : Option (List Str))
    (callerBlob : β) (callback : Option (rdkssaIOCallback β)) : ExecOutcome :=
  match exargv, callback with
  | some (_ :: _), some callback =>
    if env.pipeOk = false then ⟨rdkssaGeneralFailure, false, none, none⟩
    else
      match env.fork with
      | none => ⟨rdkssaGeneralFailure, false, none, none⟩
      | some p =>
        let pid : Int := (p + 1 : Nat)
        let cb := callback env.write callerBlob
        let ret := env.waitRet
        if ret = -1 then ⟨ret, true, some cb.1, some cb.2⟩
        else if ret ≠ pid then ⟨1, true, some cb.1, some cb.2⟩
        else if WIFEXITED env.waitStatus then
          ⟨WEXITSTATUS env.waitStatus, true, some cb.1, some cb.2⟩
        else ⟨ret, true, some cb.1, some cb.2⟩
  | _, _ => ⟨rdkssaBadPointer, false, none, none⟩

/-! ## The Mount provider (rdkssaMountProvider.c)

The handlers are given the address of the local record of `rdkssaMount`, which
is never `NULL`: their `NULL` checks are left out. -/

/-- The C library `strcpy_s(dest, dmax, src)` as far as the result in `dest`
goes: the copy when `src` fits with its terminator, the empty string when it
does not. -/
def strcpy_s (dmax : Nat) (src : Str) : Str :=
  if src.length < dmax then src else []

/-- The parameter record `mount_param_t`. The key buffer is the list of the
bytes read into it. -/
structure mount_param_t where
  mountPoint : Str
  mountPath : Str
  mountKeyActualSize : Nat
  mountKey : List Nat
  keyHandle : Option Nat
  deriving DecidableEq, Repr

/-- What the handlers of the Mount API can touch: the parameter record and
what is left to read on standard input. -/
structure MountWorld where
  pp : mount_param_t
  stdin : List Nat
  deriving DecidableEq, Repr

/-- The files `fopen` can open for reading, with their content. -/
abbrev FileSystem := Str → Option (List Nat)

/-- The C `fread(buf, 1, MAX_ATTRIBUTE_VALUE_LENGTH, f)` on a stream whose
remaining content is `content`: the bytes read. -/
def fread (content : List Nat) : List Nat := content.take MAX_ATTRIBUTE_VALUE_LENGTH

/-- The handler `rdkssaMountMountpoint`. -/
def rdkssaMountMountpoint : AttributeHandlerFuncPtr MountWorld :=
  fun w valueStr =>
    if rdkssaAttrCheck (some valueStr) = none then (w, rdkssaValidityError)
    else
      ({ w with pp := { w.pp with
          mountPoint := strcpy_s MAX_ATTRIBUTE_VALUE_LENGTH valueStr } }, rdkssaOK)

/-- The handler `rdkssaMountPath`. -/
def rdkssaMountPath : AttributeHandlerFuncPtr MountWorld :=
  fun w valueStr =>
    if rdkssaAttrCheck (some valueStr) = none then (w, rdkssaValidityError)
    else
      ({ w with pp := { w.pp with
          mountPath := strcpy_s MAX_ATTRIBUTE_VALUE_LENGTH valueStr } }, rdkssaOK)

/-- The handler `rdkssaMountKey`. The bytes read overwrite the start of the
key buffer, and their number is stored even when it is zero. -/
def rdkssaMountKey (files : FileSystem) : AttributeHandlerFuncPtr MountWorld :=
  fun w valueStr =>
    if rdkssaAttrCheck (some valueStr) = none then (w, rdkssaValidityError)
    else if strncmpEq valueStr "HANDLE".toList "HANDLE".toList.length then (w, rdkssaNYIError)
    else
      let isStdin := strncmpEq valueStr "STDIN".toList "STDIN".toList.length
      let keyfileh : Option (List Nat) := if isStdin then some w.stdin else files valueStr
      match keyfileh with
      | none => (w, rdkssaFileError)
      | some content =>
        let bytes := fread content
        let w2 : MountWorld :=
          { pp := { w.pp with
              mountKeyActualSize := bytes.length
              mountKey := bytes ++ w.pp.mountKey.drop bytes.length }
            stdin := if isStdin then w.stdin.drop bytes.length else w.stdin }
        if bytes.length = 0 then (w2, rdkssaFileError) else (w2, rdkssaOK)

/-- The handler `rdkssaMountPartition`. -/
def rdkssaMountPartition : AttributeHandlerFuncPtr MountWorld :=
  fun w _ => (w, rdkssaNYIError)

/-- The table `mountHandlers` of `rdkssaMount`. -/
def mountHandlers (files : FileSystem) : List (AttributeHandlerStruct MountWorld) :=
  [⟨some "MOUNTPOINT".toList, some rdkssaMountMountpoint⟩,
   ⟨some "PATH".toList, some rdkssaMountPath⟩,
   ⟨some "KEY".toList, some (rdkssaMountKey files)⟩,
   ⟨some "PARTITION".toList, some rdkssaMountPartition⟩,
   ⟨none, none⟩]

/-- The callback `mountWriteKeyCallback`: it asks to write the first
`mountKeyActualSize` bytes of the key buffer and fails when `write` does not
return that number. -/
def mountWriteKeyCallback : rdkssaIOCallback mount_param_t :=
  fun write pp =>
    let rc := write (pp.mountKey.take pp.mountKeyActualSize)
    if rc ≠ (pp.mountKeyActualSize : Int) then
      (pp.mountKey.take pp.mountKeyActualSize, rdkssaFileError)
    else (pp.mountKey.take pp.mountKeyActualSize, rdkssaOK)

/-- Everything outside the program that a call of `rdkssaMount` depends on. -/
structure MountEnv where
  files : FileSystem
  stdin : List Nat
  exec : ExecEnv

/-- What a call of `rdkssaMount` did: its status, the handler calls of the
dispatch, the parameter record at the end, and the calls of the channel, each
with its argument vector and outcome. -/
structure MountResult where
  status : rdkssaStatus_t
  calls : List (Nat × Str)
  params : mount_param_t
  channel : List (List Str × ExecOutcome)
  deriving DecidableEq, Repr

/-- The parameter record of `rdkssaMount` before the dispatch. `apiBlobPtr`
points to a key handle or is `NULL`. -/
def initialParams (apiBlobPtr : Option Nat) : mount_param_t :=
  { mountPoint := [], mountPath := [], mountKeyActualSize := 0, mountKey := [],
    keyHandle := apiBlobPtr }

/-- The argument vector `mountArgv` of `rdkssaMount`. -/
def mountArgv (pp : mount_param_t) : List Str :=
  ["/usr/bin/ecfsMount".toList, pp.mountPoint, pp.mountPath]

/-- The first part of `rdkssaMount`: the parameter record is initialised and
the attribute list dispatched over `mountHandlers`. -/
def mountDispatch (env : MountEnv) (apiBlobPtr : Option Nat)
    (apiAttributes : Option (List Str)) : Dispatch MountWorld :=
  let mountParameters := initialParams apiBlobPtr
  rdkssaHandleAPIHelper (⟨mountParameters, env.stdin⟩ : MountWorld) apiAttributes
    (some (mountHandlers env.files))

/-- The API `rdkssaMount`. -/
def rdkssaMount (env : MountEnv) (apiBlobPtr : Option Nat) (apiAttributes : Option (List Str)) :
    MountResult :=
  let d := mountDispatch env apiBlobPtr apiAttributes
  if d.status ≠ rdkssaOK then ⟨d.status, d.calls, d.blob.pp, []⟩
  else if d.blob.pp.mountPoint = [] ∨ d.blob.pp.mountPath = [] then
    ⟨rdkssaMissingAttribute, d.calls, d.blob.pp, []⟩
  else if d.blob.pp.mountKeyActualSize = 0 then ⟨rdkssaNYIError, d.calls, d.blob.pp, []⟩
  else
    let r := rdkssaExecvPipeOutput env.exec (some (mountArgv d.blob.pp)) d.blob.pp
      (some mountWriteKeyCallback)
    ⟨r.status, d.calls, d.blob.pp, [(mountArgv d.blob.pp, r)]⟩

/-- The Mount API as the command line calls it: with a `NULL` blob, and only
its status used. -/
def rdkssaMountCli (env : MountEnv) : List Str → rdkssaStatus_t :=
  fun apiAttributes => (rdkssaMount env none (some apiAttributes)).status

/-- A file system with one readable key file `/etc/key` of three bytes. -/
def sampleFiles : FileSystem :=
  fun path => if path = "/etc/key".toList then some [1, 2, 3] else none

/-- An environment in which the helper is started and exits normally with
code `code`, every `write` being complete. -/
def sampleEnv (code : Nat) : MountEnv :=
  { files := sampleFiles, stdin := [],
    exec := { pipeOk := true, fork := some 41, write := fun bytes => (bytes.length : Nat),
              waitRet := 42, waitStatus := WaitStatus.exited code } }


/-- A record whose key is the three bytes of the sample key file. -/
def keyedParams : mount_param_t :=
  { mountPoint := "/nvram/rdkssa".toList, mountPath := "/nvram/secure".toList,
    mountKeyActualSize := 3, mountKey := [1, 2, 3], keyHandle := none }

/-- A run in which `write` accepts no byte of what it is given (it returns 0),
and the child then exits normally with code 0. -/
def shortWriteExec : ExecEnv :=
  { pipeOk := true, fork := some 41, write := fun _ => 0,
    waitRet := 42, waitStatus := WaitStatus.exited 0 }

/-- The sample environment with the failing `write` of `shortWriteExec`. -/
def shortWriteEnv : MountEnv :=
  { files := sampleFiles, stdin := [], exec := shortWriteExec }

/-- The attribute list of the end-to-end scenario, the key in `/etc/key`. -/
def scenarioAttributes : List Str :=
  ["MOUNTPOINT=/nvram/rdkssa".toList, "PATH=/nvram/secure".toList, "KEY=/etc/key".toList]

/-- The key of a state was read before: the standard input of the state is
what is left of the standard input `stdin0` of the run, the key buffer holds at
least the bytes counted, and those bytes, if any, are what `fread` returned
for a file of the run or for what was left of its standard input. -/
def keyWasRead (files : FileSystem) (stdin0 : List Nat) (w : MountWorld) : Prop :=
  (∃ n, w.stdin = stdin0.drop n) ∧
  w.pp.mountKeyActualSize ≤ w.pp.mountKey.length ∧
  (w.pp.mountKeyActualSize = 0 ∨ ∃ content,
    ((∃ path, files path = some content) ∨ ∃ n, content = stdin0.drop n) ∧
    w.pp.mountKey.take w.pp.mountKeyActualSize = fread content)

/-- Two states that may differ in the key only: the same mount point and mount
path, a key in both or in neither, and standard inputs that run out after the
same number of reads. -/
def sameButKey (w1 w2 : MountWorld) : Prop :=
  w1.pp.mountPoint = w2.pp.mountPoint ∧ w1.pp.mountPath = w2.pp.mountPath ∧
  (w1.pp.mountKeyActualSize = 0 ↔ w2.pp.mountKeyActualSize = 0) ∧
  (∀ k, w1.stdin.drop (MAX_ATTRIBUTE_VALUE_LENGTH * k) = [] ↔
    w2.stdin.drop (MAX_ATTRIBUTE_VALUE_LENGTH * k) = [])

/-- Two file systems that may differ in the bytes of their non-empty files
only: the same files can be opened, and the same files are empty. -/
def sameFilesButBytes (files1 files2 : FileSystem) : Prop :=
  (∀ path, files1 path = none ↔ files2 path = none) ∧
  (∀ path c1 c2, files1 path = some c1 → files2 path = some c2 → (c1 = [] ↔ c2 = []))

/-- Two runs that may differ in the non-empty key bytes read only. -/
def sameButKeyBytes (env1 env2 : MountEnv) : Prop :=
  sameFilesButBytes env1.files env2.files ∧
  (∀ k, env1.stdin.drop (MAX_ATTRIBUTE_VALUE_LENGTH * k) = [] ↔
    env2.stdin.drop (MAX_ATTRIBUTE_VALUE_LENGTH * k) = []) ∧
  env1.exec.pipeOk = env2.exec.pipeOk ∧ env1.exec.fork = env2.exec.fork ∧
  env1.exec.waitRet = env2.exec.waitRet ∧ env1.exec.waitStatus = env2.exec.waitStatus

/-- The sample file system with another key of another length. -/
def otherFiles : FileSystem :=
  fun path => if path = "/etc/key".toList then some [9, 8, 7, 6] else none

/-- The sample environment with the key of `otherFiles`. -/
def otherKeyEnv (code : Nat) : MountEnv :=
  { files := otherFiles, stdin := [],
    exec := { pipeOk := true, fork := some 41, write := fun bytes => (bytes.length : Nat),
              waitRet := 42, waitStatus := WaitStatus.exited code } }

/-! ## `climain` (ssacli.c) -/

/-- How a function of the command line ends: it returns a status, or it
calls `exit` with a code. -/
inductive CliOutcome where
  | returned (stat : rdkssaStatus_t)
  | exited (code : Int)
  deriving DecidableEq, Repr

/-- The function `handleError` with its `doExit` argument (`true` for
`DO_EXIT`); its messages are not modelled. -/
def handleErrorOutcome (err : rdkssaStatus_t) (doExit : Bool) : CliOutcome :=
  if err = rdkssaOK then CliOutcome.returned rdkssaOK
  else if doExit then CliOutcome.exited err
  else CliOutcome.returned err

/-- The `for` loop of `climain` over the arguments not yet processed, `stat`
being the status so far. With the way it ends, the commands given to
`processCmd` are returned in order, each with what `processCmd` returned. -/
def climainLoop (rdkssaMount : List Str → rdkssaStatus_t) :
    List Str → rdkssaStatus_t → CliOutcome × List (Str × (rdkssaStatus_t × List CliEvent))
  | [], stat => (CliOutcome.returned stat, [])
  | arg :: rest, _ =>
    let r := processCmd rdkssaMount (some arg)
    if r.1 ≠ rdkssaOK then (handleErrorOutcome r.1 true, [(arg, r)])
    else
      let o := climainLoop rdkssaMount rest r.1
      (o.1, (arg, r) :: o.2)

/-- The function `climain`; `argv` is the argument vector with the program
name, `argc` its length. `cliCheck` exits with code 1 when there is no
command. -/
def climain (rdkssaMount : List Str → rdkssaStatus_t) (argv : List Str) :
    CliOutcome × List (Str × (rdkssaStatus_t × List CliEvent)) :=
  if argv.length < 2 then (CliOutcome.exited 1, [])
  else climainLoop rdkssaMount (argv.drop 1) rdkssaOK

/-! ## The acceptance rule for the tokenizer, as the specification words it -/

/-- The pieces into which an input splits at its commas. -/
def commaPieces : Str → List Str
  | [] => [[]]
  | c :: cs =>
    if c = ATTRIB_DELIM then [] :: commaPieces cs
    else
      match commaPieces cs with
      | [] => [[c]]
      | p :: ps => (c :: p) :: ps

/-- The text after the last `,` of an input, the whole input if it has
none. -/
def afterLastComma (s : Str) : Str := ((commaPieces s).getLast?).getD []

/-- A piece cut at its first `}`. -/
def cutAtTail (p : Str) : Str := p.takeWhile (fun c => c != COMMAND_TAIL)

/-- The segments of an input: its pieces between commas, the last one cut at
its first `}`. -/
def specSegments (s : Str) : List Str :=
  (commaPieces s).dropLast ++ [cutAtTail (afterLastComma s)]

/-- The first `=` of a segment is its final character. -/
def firstEqIsFinal (seg : Str) : Prop :=
  (strchr seg VALUE_DELIM).map (· + 1) = some seg.length

instance (seg : Str) : Decidable (firstEqIsFinal seg) := by
  unfold firstEqIsFinal
  infer_instance

/-- The three conditions under which the tokenizer is said to succeed:
(1) the text after the last `,` contains a `}`; (2) the input splits at its
commas into at most 31 segments; (3) in no segment is the first `=` the final
character. -/
def specAccepts (s : Str) : Prop :=
  COMMAND_TAIL ∈ afterLastComma s ∧
  (commaPieces s).length ≤ 31 ∧
  ∀ seg ∈ specSegments s, ¬ firstEqIsFinal seg

instance (s : Str) : Decidable (specAccepts s) := by
  unfold specAccepts
  infer_instance

/-! ## More inputs of the unit tests -/

/-- The names of `utHndlTable2` of the unit test of `rdkssaHandleAPIHelper`. -/
def utHndlNames2 : List Str := ["A1".toList, "A2".toList, "A3".toList, "A4".toList]

/-- The list `attArray2` of the unit test of `rdkssaHandleAPIHelper`. -/
def attArray2 : List Str :=
  ["A3=abc".toList, "A2=def".toList, "A4=ghi".toList, "A1=jkl".toList, "A4=mno".toList]

/-- The token `A4=ghi` 32 times, then the token `A4=mno`. -/
def thirtyThreeTimesA4 : List Str := List.replicate 32 "A4=ghi".toList ++ ["A4=mno".toList]

/-- The token `A4=ghi`, a token of a name that is not in the table, and the
token `A4=mno`. -/
def twiceA4AroundUnknown : List Str := ["A4=ghi".toList, "A9=zzz".toList, "A4=mno".toList]

/-- The token `PATH=` followed by 2043 characters `z`: 2048 characters. -/
def longPathToken : Str := "PATH".toList ++ VALUE_DELIM :: zName 2043

/-- The three attributes of the end-to-end scenario, then 29 times
`PATH=/nvram/secure`, then, in place 33, `PATH=/x;rm`, whose value has the
character `;`, and `FOO=1`, whose name is in no table. -/
def badPathInPlace33 : List Str :=
  scenarioAttributes ++ List.replicate 29 "PATH=/nvram/secure".toList ++
    ["PATH=/x;rm".toList, "FOO=1".toList]

set_option maxRecDepth 100000

/-! ## Facts about the C library functions -/

theorem strchr_eq_none {s : Str} {c : Char} : strchr s c = none ↔ c ∉ s := by
  induction s with
  | nil => simp [strchr]
  | cons x xs ih =>
    by_cases h : x = c
    · simp [strchr, h]
    · simp [strchr, h, ih, Ne.symm h]

theorem strchr_eq_some {s : Str} {c : Char} {k : Nat} (h : strchr s c = some k) :
    s = s.take k ++ c :: s.drop (k + 1) ∧ c ∉ s.take k := by
  induction s generalizing k with
  | nil => simp [strchr] at h
  | cons x xs ih =>
    by_cases hx : x = c
    · simp [strchr, hx] at h
      subst h
      simp [hx]
    · simp only [strchr, hx, if_false, Option.map_eq_some'] at h
      obtain ⟨j, hj, rfl⟩ := h
      obtain ⟨h1, h2⟩ := ih hj
      refine ⟨?_, ?_⟩
      · simp only [List.take_succ_cons, List.drop_succ_cons, List.cons_append]
        rw [← h1]
      · simp only [List.take_succ_cons, List.mem_cons, not_or]
        exact ⟨Ne.symm hx, h2⟩

theorem strchr_getElem? {s : Str} {c : Char} {k : Nat} (h : strchr s c = some k) :
    s[k]? = some c := by
  induction s generalizing k with
  | nil => simp [strchr] at h
  | cons x xs ih =>
    by_cases hx : x = c
    · simp [strchr, hx] at h
      subst h
      simp [hx]
    · simp only [strchr, hx, if_false, Option.map_eq_some'] at h
      obtain ⟨j, hj, rfl⟩ := h
      simpa using ih hj

theorem strchr_append {a b : Str} {c : Char} (h : c ∉ a) :
    strchr (a ++ c :: b) c = some a.length := by
  induction a with
  | nil => simp [strchr]
  | cons x xs ih =>
    simp only [List.mem_cons, not_or] at h
    simp [strchr, Ne.symm h.1, ih h.2]

theorem strchr_append_of_mem {a b : Str} {c : Char} (h : c ∈ a) :
    strchr (a ++ b) c = strchr a c := by
  induction a with
  | nil => simp at h
  | cons x xs ih =>
    by_cases hx : x = c
    · simp [strchr, hx]
    · have : c ∈ xs := by
        rcases List.mem_cons.1 h with h | h
        · exact absurd h.symm hx
        · exact h
      simp [strchr, hx, ih this]
/-! ## The tokenizer loop -/

theorem findDelim_eq_some {str : Str} {delim : Nat} (h : findDelim str = some delim) :
    (strchr str ATTRIB_DELIM = some delim) ∨
      (strchr str ATTRIB_DELIM = none ∧ strchr str COMMAND_TAIL = some delim) := by
  unfold findDelim at h
  split at h
  · rename_i d hd
    left
    rw [hd, h]
  · right; exact ⟨by assumption, h⟩

theorem intercalate_cons_of_ne_nil (sep t : Str) {ts : List Str} (h : ts ≠ []) :
    List.intercalate sep (t :: ts) = t ++ sep ++ List.intercalate sep ts := by
  cases ts with
  | nil => exact absurd rfl h
  | cons u us => simp [List.intercalate, List.intersperse]

/-- What one exit of the loop below the maximum means for the input: the
tokens stored are the comma-separated pieces of the input up to the `}` that
closes the last one. -/
theorem parseLoop_shape : ∀ (fuel : Nat) (str : Str) (strIx : Nat) (vec : List Str)
    (n : Nat) (out : List Str),
    parseLoop fuel str strIx vec = some (n, out) → n < MAX_SUPPORTED_ATTRIBUTES →
    ∃ toks rest, out = vec ++ toks ∧ n = strIx + toks.length ∧ toks ≠ [] ∧
      str = List.intercalate [ATTRIB_DELIM] toks ++ COMMAND_TAIL :: rest ∧
      (∀ t ∈ toks, ATTRIB_DELIM ∉ t) ∧
      (∀ t, toks.getLast? = some t → COMMAND_TAIL ∉ t) ∧
      ATTRIB_DELIM ∉ rest := by
  intro fuel
  induction fuel with
  | zero => intro str strIx vec n out h; simp [parseLoop] at h
  | succ fuel ih =>
    intro str strIx vec n out h hn
    unfold parseLoop at h
    split at h
    · exact absurd h (by simp)
    · rename_i delim hd
      split at h
      · exact absurd h (by simp)
      · simp only at h
        split at h
        · -- the loop goes on: the delimiter is a comma
          rename_i hc
          obtain ⟨toks, rest, h1, h2, h3, h4, h5, h6, h7⟩ := ih _ _ _ _ _ h hn
          have hcomma : strchr str ATTRIB_DELIM = some delim := by
            rcases findDelim_eq_some hd with h | ⟨_, h⟩
            · exact h
            · exact absurd (strchr_getElem? h) hc.1
          obtain ⟨e1, e2⟩ := strchr_eq_some hcomma
          refine ⟨str.take delim :: toks, rest, ?_, ?_, by simp, ?_, ?_, ?_, h7⟩
          · simp [h1]
          · simp [h2]; omega
          · rw [intercalate_cons_of_ne_nil _ _ h3]
            conv_lhs => rw [e1, h4]
            simp
          · intro t ht
            rcases List.mem_cons.1 ht with rfl | ht
            · exact e2
            · exact h5 t ht
          · intro t ht
            obtain ⟨u, us, rfl⟩ := List.exists_cons_of_ne_nil h3
            rw [List.getLast?_cons_cons] at ht
            exact h6 t ht
        · -- the loop stops, below the maximum: the delimiter is the terminator
          rename_i hc
          simp only [Option.some.injEq, Prod.mk.injEq] at h
          obtain ⟨rfl, rfl⟩ := h
          have htail : str[delim]? = some COMMAND_TAIL := by
            by_contra hne
            exact hc ⟨hne, hn⟩
          have hfd : strchr str ATTRIB_DELIM = none ∧ strchr str COMMAND_TAIL = some delim := by
            rcases findDelim_eq_some hd with h | h
            · have := strchr_getElem? h
              rw [htail] at this
              exact absurd this (by decide)
            · exact h
          obtain ⟨e1, e2⟩ := strchr_eq_some hfd.2
          have hno : ATTRIB_DELIM ∉ str := strchr_eq_none.1 hfd.1
          refine ⟨[str.take delim], str.drop (delim + 1), rfl, by simp, by simp, ?_, ?_, ?_, ?_⟩
          · simpa [List.intercalate] using e1
          · intro t ht
            simp only [List.mem_singleton] at ht
            subst ht
            exact fun hm => hno (List.mem_of_mem_take hm)
          · intro t ht
            simp only [List.getLast?_singleton, Option.some.injEq] at ht
            subst ht
            exact e2
          · exact fun hm => hno (List.mem_of_mem_drop hm)

/-- The tokenizer as a whole: a returned token sequence is non-empty, shorter
than the maximum, and made of the comma-separated pieces of the input up to
the closing `}`. -/
theorem parseProvCmds_shape {s : Str} {toks : List Str}
    (h : parseProvCmds (some s) = some toks) :
    ∃ rest, toks ≠ [] ∧ toks.length < MAX_SUPPORTED_ATTRIBUTES ∧
      s = List.intercalate [ATTRIB_DELIM] toks ++ COMMAND_TAIL :: rest ∧
      (∀ t ∈ toks, ATTRIB_DELIM ∉ t) ∧
      (∀ t, toks.getLast? = some t → COMMAND_TAIL ∉ t) ∧
      ATTRIB_DELIM ∉ rest := by
  unfold parseProvCmds at h
  simp only at h
  split at h
  · exact absurd h (by simp)
  · rename_i strIx newVector hl
    split at h
    · exact absurd h (by simp)
    · rename_i hlt
      simp only [Option.some.injEq] at h
      subst h
      have hlt2 : strIx < MAX_SUPPORTED_ATTRIBUTES := by omega
      obtain ⟨tk, rest, h1, h2, h3, h4, h5, h6, h7⟩ := parseLoop_shape _ _ _ _ _ _ hl hlt2
      simp only [List.nil_append] at h1
      subst h1
      refine ⟨rest, h3, ?_, h4, h5, h6, h7⟩
      omega
/-- The bound on the number of passes is never what stops the loop: once it
covers the room left below the maximum, a larger bound changes nothing. -/
theorem parseLoop_fuel : ∀ (fuel : Nat) (str : Str) (strIx : Nat) (vec : List Str),
    MAX_SUPPORTED_ATTRIBUTES ≤ strIx + fuel → 0 < fuel →
    parseLoop (fuel + 1) str strIx vec = parseLoop fuel str strIx vec := by
  intro fuel
  induction fuel with
  | zero => intro str strIx vec _ h; exact absurd h (by decide)
  | succ fuel ih =>
    intro str strIx vec hle _
    rw [parseLoop, parseLoop.eq_def fuel.succ]
    simp only [Nat.succ_eq_add_one]
    split
    · rfl
    · split
      · rfl
      · split
        · rename_i hc
          apply ih
          · omega
          · have := hc.2
            omega
        · rfl

theorem count_intercalate : ∀ (toks : List Str), toks ≠ [] →
    (∀ t ∈ toks, ATTRIB_DELIM ∉ t) →
    List.count ATTRIB_DELIM (List.intercalate [ATTRIB_DELIM] toks) = toks.length - 1 := by
  intro toks
  induction toks with
  | nil => intro h; exact absurd rfl h
  | cons t ts ih =>
    intro _ hall
    have ht : List.count ATTRIB_DELIM t = 0 :=
      List.count_eq_zero_of_not_mem (hall t (List.mem_cons_self _ _))
    by_cases hts : ts = []
    · subst hts
      simpa [List.intercalate] using ht
    · rw [intercalate_cons_of_ne_nil _ _ hts]
      have := ih hts (fun u hu => hall u (List.mem_cons_of_mem _ hu))
      have hpos : 0 < ts.length := List.length_pos.2 hts
      simp only [List.count_append, ht, this, List.length_cons]
      simp
      omega

/-- A successful tokenization returns one token per comma-separated piece of
the input. -/
theorem parseProvCmds_count {s : Str} {toks : List Str}
    (h : parseProvCmds (some s) = some toks) :
    List.count ATTRIB_DELIM s + 1 = toks.length := by
  obtain ⟨rest, h1, _, h3, h4, _, h6⟩ := parseProvCmds_shape h
  have hc := count_intercalate toks h1 h4
  have hpos : 0 < toks.length := List.length_pos.2 h1
  have hr : List.count ATTRIB_DELIM rest = 0 := List.count_eq_zero_of_not_mem h6
  have hne : (COMMAND_TAIL == ATTRIB_DELIM) = false := by decide
  rw [h3]
  simp only [List.count_append, List.count_cons, hc, hr, hne]
  simp
  omega

/-- The loop on an input in which a piece `name=` directly meets its
delimiter never leaves below the maximum. -/
theorem parseLoop_missing_value (name post : Str) (d : Char)
    (hname : VALUE_DELIM ∉ name ∧ ATTRIB_DELIM ∉ name)
    (hd : d = ATTRIB_DELIM ∨ (d = COMMAND_TAIL ∧ COMMAND_TAIL ∉ name ∧ ATTRIB_DELIM ∉ post)) :
    ∀ (fuel : Nat) (pre : Str) (strIx : Nat) (vec : List Str),
    (pre = [] ∨ pre.getLast? = some ATTRIB_DELIM) →
    ∀ n out, parseLoop fuel (pre ++ name ++ VALUE_DELIM :: d :: post) strIx vec = some (n, out) →
      MAX_SUPPORTED_ATTRIBUTES ≤ n := by
  intro fuel
  induction fuel with
  | zero => intro pre strIx vec _ n out h; simp [parseLoop] at h
  | succ fuel ih =>
    intro pre strIx vec hpre n out h
    by_cases hp : pre = []
    · -- the cursor is at the piece itself
      subst hp
      exfalso
      have hv : strchr (name ++ VALUE_DELIM :: d :: post) VALUE_DELIM = some name.length :=
        strchr_append hname.1
      have hdl : findDelim (name ++ VALUE_DELIM :: d :: post) = some (name.length + 1) := by
        rcases hd with rfl | ⟨rfl, h1, h2⟩
        · have hnm : ATTRIB_DELIM ∉ name ++ [VALUE_DELIM] := by
            simp only [List.mem_append, List.mem_singleton, not_or]
            exact ⟨hname.2, by decide⟩
          have := strchr_append (b := post) hnm
          simp only [List.append_assoc, List.singleton_append, List.length_append,
            List.length_singleton] at this
          simp [findDelim, this]
        · have hnone : strchr (name ++ VALUE_DELIM :: COMMAND_TAIL :: post) ATTRIB_DELIM = none := by
            rw [strchr_eq_none]
            simp only [List.mem_append, List.mem_cons, not_or]
            exact ⟨hname.2, by decide, by decide, h2⟩
          have hnm : COMMAND_TAIL ∉ name ++ [VALUE_DELIM] := by
            simp only [List.mem_append, List.mem_singleton, not_or]
            exact ⟨h1, by decide⟩
          have := strchr_append (b := post) hnm
          simp only [List.append_assoc, List.singleton_append, List.length_append,
            List.length_singleton] at this
          simp [findDelim, hnone, this]
      simp only [List.nil_append] at h
      unfold parseLoop at h
      simp [hdl, hv] at h
    · -- a comma of the text before the piece is the next delimiter
      have hlast : pre.getLast? = some ATTRIB_DELIM := by
        rcases hpre with h | h
        · exact absurd h hp
        · exact h
      have hmem : ATTRIB_DELIM ∈ pre := List.mem_of_getLast?_eq_some hlast
      obtain ⟨k, hk⟩ : ∃ k, strchr pre ATTRIB_DELIM = some k := by
        cases hs : strchr pre ATTRIB_DELIM with
        | none => exact absurd hmem (strchr_eq_none.1 hs)
        | some k => exact ⟨k, rfl⟩
      have hfull : strchr (pre ++ name ++ VALUE_DELIM :: d :: post) ATTRIB_DELIM = some k := by
        rw [List.append_assoc, strchr_append_of_mem hmem, hk]
      have hdl : findDelim (pre ++ name ++ VALUE_DELIM :: d :: post) = some k := by
        unfold findDelim
        rw [hfull]
      have hget := strchr_getElem? hfull
      have hklt : k < pre.length := by
        have := (strchr_eq_some hk).1
        have hl := congrArg List.length this
        simp only [List.length_append, List.length_cons, List.length_take, List.length_drop] at hl
        omega
      have hdrop : List.drop (k + 1) (pre ++ name ++ VALUE_DELIM :: d :: post) =
          List.drop (k + 1) pre ++ name ++ VALUE_DELIM :: d :: post := by
        rw [List.append_assoc, List.drop_append_of_le_length (by omega), List.append_assoc]
      have hpre2 : List.drop (k + 1) pre = [] ∨
          (List.drop (k + 1) pre).getLast? = some ATTRIB_DELIM := by
        by_cases hle : pre.length ≤ k + 1
        · left; exact List.drop_eq_nil_iff.2 hle
        · right; rw [List.getLast?_drop, if_neg hle, hlast]
      unfold parseLoop at h
      rw [hdl] at h
      simp only at h
      split at h
      · exact absurd h (by simp)
      · split at h
        · rw [hdrop] at h
          exact ih _ _ _ hpre2 _ _ h
        · rename_i hc
          simp only [Option.some.injEq, Prod.mk.injEq] at h
          rw [hget] at hc
          have hne : (some ATTRIB_DELIM : Option Char) ≠ some COMMAND_TAIL := by decide
          have : ¬ (strIx + 1 < MAX_SUPPORTED_ATTRIBUTES) := fun hlt => hc ⟨hne, hlt⟩
          omega

/-- An input of `MAX_SUPPORTED_ATTRIBUTES` segments or more is never
tokenized: the loop leaves with a full count and the count check fails. -/
theorem parseProvCmds_full_count {s : Str} (h : MAX_SUPPORTED_ATTRIBUTES ≤ segmentCount s) :
    parseProvCmds (some s) = none := by
  cases hp : parseProvCmds (some s) with
  | none => rfl
  | some toks =>
    exfalso
    have h1 := parseProvCmds_count hp
    obtain ⟨_, _, h2, _⟩ := parseProvCmds_shape hp
    unfold segmentCount at h
    omega

/-! ## The claims on the tokenizer -/

/-- C1: whenever `parseProvCmds` succeeds with tokens `t1..tn`, the tokens are
exactly the comma-separated segments of the input, in input order and copied
verbatim: the input is `t1,t2,...,tn}` followed by a rest without comma, no
token contains a comma, and the last token contains no `}`. -/
theorem C1_tokens_are_the_segments (s : Str) (toks : List Str)
    (h : parseProvCmds (some s) = some toks) :
    toks ≠ [] ∧
    (∃ rest, s = List.intercalate [ATTRIB_DELIM] toks ++ COMMAND_TAIL :: rest ∧
      ATTRIB_DELIM ∉ rest) ∧
    (∀ t ∈ toks, ATTRIB_DELIM ∉ t) ∧
    (∀ t, toks.getLast? = some t → COMMAND_TAIL ∉ t) := by
  obtain ⟨rest, h1, _, h3, h4, h5, h6⟩ := parseProvCmds_shape h
  exact ⟨h1, ⟨rest, h3, h6⟩, h4, h5⟩

/-- C1 on the command of the unit test: the three tokens, and the
decomposition of the command they give. -/
theorem C1_tokens_are_the_segments_witness :
    parseProvCmds (some utCommand) = some utTokens ∧
    utTokens ≠ [] ∧
    (∃ rest, utCommand = List.intercalate [ATTRIB_DELIM] utTokens ++ COMMAND_TAIL :: rest ∧
      ATTRIB_DELIM ∉ rest) ∧
    (∀ t ∈ utTokens, ATTRIB_DELIM ∉ t) ∧
    (∀ t, utTokens.getLast? = some t → COMMAND_TAIL ∉ t) :=
  ⟨by decide, C1_tokens_are_the_segments utCommand utTokens (by decide)⟩

/-- C2: an input without any `}` makes `parseProvCmds` fail, whatever
comma-separated segments it contains. -/
theorem C2_missing_terminator_fails (s : Str) (h : COMMAND_TAIL ∉ s) :
    parseProvCmds (some s) = none := by
  cases hp : parseProvCmds (some s) with
  | none => rfl
  | some toks =>
    exfalso
    obtain ⟨rest, _, _, h3, _⟩ := parseProvCmds_shape hp
    apply h
    rw [h3]
    simp

/-- C2 on the input of the unit test that has two segments and no `}`. -/
theorem C2_missing_terminator_fails_witness :
    COMMAND_TAIL ∉ "\x7bMISSINGEND1,MISSINGEND2".toList ∧
    parseProvCmds (some "\x7bMISSINGEND1,MISSINGEND2".toList) = none :=
  ⟨by decide, C2_missing_terminator_fails _ (by decide)⟩

/-- C3: an input with a segment `name=` whose `=` directly meets the
delimiter makes `parseProvCmds` fail, whatever precedes the segment. The
segment starts the input or follows a comma (`pre`), `name` has no `=` and no
comma, and the delimiter `d` after the `=` is a comma, or it is the `}` that
closes the last segment (no `}` in `name`, no comma after it). -/
theorem C3_missing_value_fails (pre name post : Str) (d : Char)
    (hpre : pre = [] ∨ pre.getLast? = some ATTRIB_DELIM)
    (hname : VALUE_DELIM ∉ name ∧ ATTRIB_DELIM ∉ name)
    (hd : d = ATTRIB_DELIM ∨ (d = COMMAND_TAIL ∧ COMMAND_TAIL ∉ name ∧ ATTRIB_DELIM ∉ post)) :
    parseProvCmds (some (pre ++ name ++ VALUE_DELIM :: d :: post)) = none := by
  unfold parseProvCmds
  simp only
  split
  · rfl
  · rename_i strIx newVector hl
    have := parseLoop_missing_value name post d hname hd _ _ _ _ hpre _ _ hl
    simp [this]

/-- C3 after two valid segments (`{A=b,C=d,MISSINGVALUE=}`), and with a comma
as the delimiter (`{A=b,MISSINGVALUE=,C=d}`). -/
theorem C3_missing_value_fails_witness :
    parseProvCmds (some ("\x7bA=b,C=d,".toList ++ "MISSINGVALUE".toList ++
      VALUE_DELIM :: COMMAND_TAIL :: [])) = none ∧
    parseProvCmds (some ("\x7bA=b,".toList ++ "MISSINGVALUE".toList ++
      VALUE_DELIM :: ATTRIB_DELIM :: "C=d\x7d".toList)) = none :=
  ⟨C3_missing_value_fails _ _ _ _ (by decide) (by decide) (by decide),
   C3_missing_value_fails _ _ _ _ (by decide) (by decide) (by decide)⟩

/-- C4: the code at an input of exactly 32 well-formed segments, the 32nd
closed by `}`: `parseProvCmds` fails, while the same input with 31 segments is
tokenized into 31 tokens. -/
theorem C4_full_vector_rejected :
    segmentCount (segmentsInput 31) = MAX_SUPPORTED_ATTRIBUTES ∧
    parseProvCmds (some (segmentsInput 31)) = none ∧
    parseProvCmds (some (segmentsInput 30)) = some (List.replicate 31 "A=b".toList) := by
  decide

/-- C5: a token sequence returned by `parseProvCmds` has at most
`MAX_SUPPORTED_ATTRIBUTES` tokens, and an input with more segments than that
makes `parseProvCmds` fail rather than return a truncated sequence. -/
theorem C5_token_count_bounded :
    (∀ (s : Str) (toks : List Str), parseProvCmds (some s) = some toks →
      toks.length ≤ MAX_SUPPORTED_ATTRIBUTES) ∧
    (∀ (s : Str), MAX_SUPPORTED_ATTRIBUTES < segmentCount s →
      parseProvCmds (some s) = none) := by
  constructor
  · intro s toks h
    obtain ⟨_, _, h2, _⟩ := parseProvCmds_shape h
    omega
  · intro s h
    exact parseProvCmds_full_count (by omega)

/-- C5 on the unit test command (3 tokens) and on an input of 33 segments. -/
theorem C5_token_count_bounded_witness :
    utTokens.length ≤ MAX_SUPPORTED_ATTRIBUTES ∧
    MAX_SUPPORTED_ATTRIBUTES < segmentCount (segmentsInput 32) ∧
    parseProvCmds (some (segmentsInput 32)) = none :=
  ⟨C5_token_count_bounded.1 utCommand utTokens (by decide), by decide,
   C5_token_count_bounded.2 (segmentsInput 32) (by decide)⟩

/-! ## The dispatch of one token -/

theorem strncmpEq_iff (a b : Str) :
    strncmpEq a b MAX_ATTRIBUTE_NAME_LENGTH = true ↔ namesMatch a b := by
  simp [strncmpEq, namesMatch]

theorem nameOf_valueOf_of_strchr : ∀ (token : Str) (k : Nat),
    strchr token VALUE_DELIM = some k →
    token.take k = nameOf token ∧ token.drop (k + 1) = valueOf token := by
  intro token
  induction token with
  | nil => intro k h; simp [strchr] at h
  | cons x xs ih =>
    intro k h
    by_cases hx : x = VALUE_DELIM
    · simp [strchr, hx] at h
      subst h
      subst hx
      simp [nameOf, valueOf]
    · simp only [strchr, hx, if_false, Option.map_eq_some'] at h
      obtain ⟨j, hj, rfl⟩ := h
      obtain ⟨h1, h2⟩ := ih j hj
      have hmem : VALUE_DELIM ∈ xs := by
        by_contra hn
        rw [strchr_eq_none.2 hn] at hj
        exact absurd hj (by simp)
      have hmem' : VALUE_DELIM ∈ x :: xs := List.mem_cons_of_mem _ hmem
      constructor
      · have hb : (x != VALUE_DELIM) = true := by simpa using hx
        simp only [List.take_succ_cons, nameOf, List.takeWhile_cons, hb, if_true]
        rw [h1]
        rfl
      · have hb : (x != VALUE_DELIM) = true := by simpa using hx
        simp only [List.drop_succ_cons]
        rw [h2]
        unfold valueOf
        rw [if_pos hmem, if_pos hmem']
        simp only [List.dropWhile_cons, hb, if_true]

theorem nameOf_valueOf_of_strchr_none (token : Str)
    (h : strchr token VALUE_DELIM = none) : nameOf token = token ∧ valueOf token = token := by
  have hn : VALUE_DELIM ∉ token := strchr_eq_none.1 h
  constructor
  · unfold nameOf
    rw [List.takeWhile_eq_self_iff]
    intro c hc
    have : c ≠ VALUE_DELIM := fun e => hn (e ▸ hc)
    simpa using this
  · unfold valueOf
    rw [if_neg hn]

/-- The string handed to the handler of the entry the scan selects. -/
theorem handler_argument (token : Str) :
    (match strchr token VALUE_DELIM with
      | some k => token.drop (k + 1)
      | none => nameOf token) = valueOf token := by
  cases h : strchr token VALUE_DELIM with
  | none =>
    obtain ⟨h1, h2⟩ := nameOf_valueOf_of_strchr_none token h
    simp [h1, h2]
  | some k => exact (nameOf_valueOf_of_strchr token k h).2

theorem nameOf_length_le (token : Str) : (nameOf token).length ≤ token.length := by
  unfold nameOf
  exact (List.takeWhile_sublist _).length_le

/-- A token that passes the length screen and does not begin with `=` goes to
the table scan, with its name portion as the name compared. -/
theorem attributeHandlerHelper_eq_loop {β : Type} (blob : β) (token : Str)
    (table : List (AttributeHandlerStruct β))
    (hlen : validLength token) (hname : nameOf token ≠ []) :
    attributeHandlerHelper blob (some token) (some table) =
      attributeLoop blob token (strchr token VALUE_DELIM) (nameOf token) 0 table := by
  obtain ⟨h1, h2⟩ := hlen
  unfold MIN_ATTRIBUTE_NAME_LENGTH at h1
  unfold MAX_ATTRIBUTE_NAME_LENGTH at h2
  have hscreen : ¬ (strnlen token (MAX_ATTRIBUTE_NAME_LENGTH + 1) > MAX_ATTRIBUTE_NAME_LENGTH ∨
      strnlen token (MAX_ATTRIBUTE_NAME_LENGTH + 1) < MIN_ATTRIBUTE_NAME_LENGTH) := by
    unfold strnlen MAX_ATTRIBUTE_NAME_LENGTH MIN_ATTRIBUTE_NAME_LENGTH
    omega
  unfold attributeHandlerHelper
  simp only [hscreen, if_false]
  cases h : strchr token VALUE_DELIM with
  | none =>
    simp only
    rw [(nameOf_valueOf_of_strchr_none token h).1]
  | some k =>
    have hk := (nameOf_valueOf_of_strchr token k h).1
    have hk0 : k ≠ 0 := by
      intro h0
      subst h0
      exact hname (by simpa using hk.symm)
    simp only [hk0, if_false, hk]

/-- A token that fails the length screen: general failure, nothing called,
state untouched, whatever the table. -/
theorem attributeHandlerHelper_screen {β : Type} (blob : β) (token : Str)
    (table : List (AttributeHandlerStruct β))
    (h : token.length < MIN_ATTRIBUTE_NAME_LENGTH ∨ MAX_ATTRIBUTE_NAME_LENGTH < token.length) :
    attributeHandlerHelper blob (some token) (some table) =
      ⟨blob, rdkssaGeneralFailure, []⟩ := by
  have hscreen : strnlen token (MAX_ATTRIBUTE_NAME_LENGTH + 1) > MAX_ATTRIBUTE_NAME_LENGTH ∨
      strnlen token (MAX_ATTRIBUTE_NAME_LENGTH + 1) < MIN_ATTRIBUTE_NAME_LENGTH := by
    unfold MIN_ATTRIBUTE_NAME_LENGTH MAX_ATTRIBUTE_NAME_LENGTH at h
    unfold strnlen MAX_ATTRIBUTE_NAME_LENGTH MIN_ATTRIBUTE_NAME_LENGTH
    omega
  unfold attributeHandlerHelper
  simp only [hscreen, if_true]

/-- The scan stops at the first entry that has a handler and a matching name:
that handler is called once, and nothing after it is looked at. -/
theorem attributeLoop_first_match {β : Type} (blob : β) (token : Str) (eq : Option Nat)
    (attrPtr : Str) (e : AttributeHandlerStruct β) (en : Str) (h : AttributeHandlerFuncPtr β)
    (post : List (AttributeHandlerStruct β))
    (hen : e.attributeNameStr = some en) (hm : namesMatch en attrPtr)
    (hh : e.attributeOperation = some h) :
    ∀ (pre : List (AttributeHandlerStruct β)) (i : Nat),
    (∀ x ∈ pre, ∃ nm, x.attributeNameStr = some nm ∧
      (x.attributeOperation = none ∨ ¬ namesMatch nm attrPtr)) →
    i + pre.length < MAX_SUPPORTED_ATTRIBUTES →
    attributeLoop blob token eq attrPtr i (pre ++ e :: post) =
      ⟨(h blob (match eq with | some k => token.drop (k + 1) | none => attrPtr)).1,
       (h blob (match eq with | some k => token.drop (k + 1) | none => attrPtr)).2,
       [(i + pre.length, match eq with | some k => token.drop (k + 1) | none => attrPtr)]⟩ := by
  intro pre
  induction pre with
  | nil =>
    intro i _ hi
    simp only [List.length_nil, Nat.add_zero] at hi
    simp only [List.nil_append, attributeLoop, hi, if_true, hen, hh,
      (strncmpEq_iff en attrPtr).2 hm, List.length_nil, Nat.add_zero]
  | cons x xs ih =>
    intro i hpre hi
    simp only [List.length_cons] at hi
    have hi' : i < MAX_SUPPORTED_ATTRIBUTES := by omega
    obtain ⟨nm, hnm, hx⟩ := hpre x (List.mem_cons_self _ _)
    have hrec := ih (i + 1) (fun y hy => hpre y (List.mem_cons_of_mem _ hy)) (by omega)
    have hidx : i + 1 + xs.length = i + (xs.length + 1) := by omega
    rw [hidx] at hrec
    simp only [List.cons_append, attributeLoop, hi', if_true, hnm, List.length_cons]
    rcases hx with hx | hx
    · rw [hx]
      exact hrec
    · cases hop : x.attributeOperation with
      | none => exact hrec
      | some op =>
        have : strncmpEq nm attrPtr MAX_ATTRIBUTE_NAME_LENGTH = false := by
          rw [Bool.eq_false_iff]
          intro ht
          exact hx ((strncmpEq_iff nm attrPtr).1 ht)
        simp only [this]
        exact hrec

/-- The scan finds nothing when no entry of the table has both a handler and a
matching name. -/
theorem attributeLoop_no_match {β : Type} (blob : β) (token : Str) (eq : Option Nat)
    (attrPtr : Str) :
    ∀ (table : List (AttributeHandlerStruct β)) (i : Nat),
    (∀ x ∈ tableEntries table, ∀ nm, x.attributeNameStr = some nm →
      x.attributeOperation ≠ none → ¬ namesMatch nm attrPtr) →
    attributeLoop blob token eq attrPtr i table = ⟨blob, rdkssaAttributeNotFound, []⟩ := by
  intro table
  induction table with
  | nil => intro i _; simp [attributeLoop]
  | cons x xs ih =>
    intro i hall
    by_cases hi : i < MAX_SUPPORTED_ATTRIBUTES
    · cases hnm : x.attributeNameStr with
      | none => simp only [attributeLoop, hi, if_true, hnm]
      | some nm =>
        have hx : x ∈ tableEntries (x :: xs) := by
          simp [tableEntries, hnm]
        have hrest : ∀ y ∈ tableEntries xs, ∀ nm, y.attributeNameStr = some nm →
            y.attributeOperation ≠ none → ¬ namesMatch nm attrPtr := by
          intro y hy
          apply hall
          simp only [tableEntries, List.takeWhile_cons, hnm, Option.isSome_some, if_true,
            List.mem_cons]
          right
          exact hy
        cases hop : x.attributeOperation with
        | none =>
          simp only [attributeLoop, hi, if_true, hnm, hop]
          exact ih (i + 1) hrest
        | some op =>
          have hne : ¬ namesMatch nm attrPtr := hall x hx nm hnm (by simp [hop])
          have : strncmpEq nm attrPtr MAX_ATTRIBUTE_NAME_LENGTH = false := by
            rw [Bool.eq_false_iff]
            intro ht
            exact hne ((strncmpEq_iff nm attrPtr).1 ht)
          simp only [attributeLoop, hi, if_true, hnm, hop, this]
          exact ih (i + 1) hrest
    · simp only [attributeLoop, hi, if_false]

/-- Every call the scan makes is the call of an entry, among the first
`MAX_SUPPORTED_ATTRIBUTES`, that has a handler and a matching name. -/
theorem attributeLoop_calls {β : Type} (blob : β) (token : Str) (eq : Option Nat)
    (attrPtr : Str) :
    ∀ (table : List (AttributeHandlerStruct β)) (i : Nat) (c : Nat × Str),
    c ∈ (attributeLoop blob token eq attrPtr i table).calls →
    ∃ j e nm, table[j]? = some e ∧ c.1 = i + j ∧ i + j < MAX_SUPPORTED_ATTRIBUTES ∧
      e.attributeNameStr = some nm ∧ e.attributeOperation ≠ none ∧ namesMatch nm attrPtr := by
  intro table
  induction table with
  | nil => intro i c h; simp [attributeLoop] at h
  | cons x xs ih =>
    intro i c h
    have step : c ∈ (attributeLoop blob token eq attrPtr (i + 1) xs).calls →
        ∃ j e nm, (x :: xs)[j]? = some e ∧ c.1 = i + j ∧ i + j < MAX_SUPPORTED_ATTRIBUTES ∧
          e.attributeNameStr = some nm ∧ e.attributeOperation ≠ none ∧ namesMatch nm attrPtr := by
      intro h'
      obtain ⟨j, e, nm, h1, h2, h3, h4⟩ := ih (i + 1) c h'
      exact ⟨j + 1, e, nm, by simpa using h1, by omega, by omega, h4⟩
    by_cases hi : i < MAX_SUPPORTED_ATTRIBUTES
    · cases hnm : x.attributeNameStr with
      | none => simp [attributeLoop, hi, hnm] at h
      | some nm =>
        cases hop : x.attributeOperation with
        | none =>
          simp only [attributeLoop, hi, if_true, hnm, hop] at h
          exact step h
        | some op =>
          simp only [attributeLoop, hi, if_true, hnm, hop] at h
          split at h
          · rename_i hm
            simp only [List.mem_singleton] at h
            refine ⟨0, x, nm, by simp, by simp [h], by simpa using hi, hnm, by simp [hop], ?_⟩
            exact (strncmpEq_iff nm attrPtr).1 hm
          · exact step h
    · simp [attributeLoop, hi] at h

/-- A token of valid length that begins with `=` is a syntax error: nothing
is called, whatever the table. -/
theorem attributeHandlerHelper_leading_eq {β : Type} (blob : β) (token : Str)
    (table : List (AttributeHandlerStruct β))
    (hlen : validLength token) (hname : nameOf token = []) :
    attributeHandlerHelper blob (some token) (some table) = ⟨blob, rdkssaSyntaxError, []⟩ := by
  obtain ⟨h1, h2⟩ := hlen
  unfold MIN_ATTRIBUTE_NAME_LENGTH at h1
  unfold MAX_ATTRIBUTE_NAME_LENGTH at h2
  have hscreen : ¬ (strnlen token (MAX_ATTRIBUTE_NAME_LENGTH + 1) > MAX_ATTRIBUTE_NAME_LENGTH ∨
      strnlen token (MAX_ATTRIBUTE_NAME_LENGTH + 1) < MIN_ATTRIBUTE_NAME_LENGTH) := by
    unfold strnlen MAX_ATTRIBUTE_NAME_LENGTH MIN_ATTRIBUTE_NAME_LENGTH
    omega
  have hs : strchr token VALUE_DELIM = some 0 := by
    cases token with
    | nil => simp at h1
    | cons x xs =>
      by_cases hx : x = VALUE_DELIM
      · simp [strchr, hx]
      · exfalso
        have hb : (x != VALUE_DELIM) = true := by simpa using hx
        simp [nameOf, List.takeWhile_cons, hb] at hname
  unfold attributeHandlerHelper
  simp only [hscreen, if_false, hs, if_true]

/-- A scan that calls nothing has found nothing. -/
theorem attributeLoop_no_call {β : Type} (blob : β) (token : Str) (eq : Option Nat)
    (attrPtr : Str) :
    ∀ (table : List (AttributeHandlerStruct β)) (i : Nat),
    (attributeLoop blob token eq attrPtr i table).calls = [] →
    attributeLoop blob token eq attrPtr i table = ⟨blob, rdkssaAttributeNotFound, []⟩ := by
  intro table
  induction table with
  | nil => intro i _; simp [attributeLoop]
  | cons x xs ih =>
    intro i h
    by_cases hi : i < MAX_SUPPORTED_ATTRIBUTES
    · cases hnm : x.attributeNameStr with
      | none => simp only [attributeLoop, hi, if_true, hnm]
      | some nm =>
        cases hop : x.attributeOperation with
        | none =>
          simp only [attributeLoop, hi, if_true, hnm, hop] at h ⊢
          exact ih (i + 1) h
        | some op =>
          simp only [attributeLoop, hi, if_true, hnm, hop] at h ⊢
          split at h
          · simp at h
          · rename_i hm
            simp only [hm]
            exact ih (i + 1) h
    · simp only [attributeLoop, hi, if_false]

/-- Between a table name and the name of a token of valid length, the
bounded comparison is equality as soon as the table name is within the limit
or the name of the token is below it. -/
theorem namesMatch_eq {a b : Str} (h : namesMatch a b)
    (hb : b.length ≤ MAX_ATTRIBUTE_NAME_LENGTH)
    (hab : a.length ≤ MAX_ATTRIBUTE_NAME_LENGTH ∨ b.length < MAX_ATTRIBUTE_NAME_LENGTH) :
    a = b := by
  unfold namesMatch at h
  rw [List.take_of_length_le hb] at h
  have hl := congrArg List.length h
  simp only [List.length_take] at hl
  have ha : a.length ≤ MAX_ATTRIBUTE_NAME_LENGTH := by
    rcases hab with h1 | h1
    · exact h1
    · omega
  rw [List.take_of_length_le ha] at h
  exact h

theorem namesMatch_refl (a : Str) : namesMatch a a := rfl

theorem getElem?_split {α : Type} : ∀ (l : List α) (i : Nat) (e : α), l[i]? = some e →
    l = l.take i ++ e :: l.drop (i + 1) ∧ (l.take i).length = i := by
  intro l
  induction l with
  | nil => intro i e h; simp at h
  | cons x xs ih =>
    intro i e h
    cases i with
    | zero =>
      simp only [List.getElem?_cons_zero, Option.some.injEq] at h
      subst h
      simp
    | succ j =>
      simp only [List.getElem?_cons_succ] at h
      obtain ⟨h1, h2⟩ := ih j e h
      constructor
      · simp only [List.take_succ_cons, List.drop_succ_cons, List.cons_append]
        rw [← h1]
      · simp [h2]

theorem zName_no_delim (n : Nat) : strchr (zName n) VALUE_DELIM = none := by
  rw [strchr_eq_none]
  unfold zName
  intro h
  have := (List.mem_replicate.1 h).2
  exact absurd this (by decide)

theorem zName_length (n : Nat) : (zName n).length = n := by
  simp [zName]

theorem take_zName (n m : Nat) (h : n ≤ m) : (zName m).take n = zName n := by
  simp [zName, List.take_replicate, Nat.min_eq_left h]

theorem validLength_zName : validLength (zName 2048) := by
  unfold validLength MIN_ATTRIBUTE_NAME_LENGTH MAX_ATTRIBUTE_NAME_LENGTH
  rw [zName_length]
  omega

theorem nameOf_zName (n : Nat) : nameOf (zName n) = zName n :=
  (nameOf_valueOf_of_strchr_none _ (zName_no_delim n)).1

theorem valueOf_zName (n : Nat) : valueOf (zName n) = zName n :=
  (nameOf_valueOf_of_strchr_none _ (zName_no_delim n)).2

theorem zName_ne_nil : zName 2048 ≠ [] := by
  intro h
  have := congrArg List.length h
  rw [zName_length] at this
  exact absurd this (by decide)

theorem zName_overlong_match : namesMatch (zName 2049) (zName 2048) := by
  unfold namesMatch MAX_ATTRIBUTE_NAME_LENGTH
  rw [take_zName 2048 2049 (by omega), take_zName 2048 2048 (by omega)]

/-- The dispatch of the 2048-character token on a table whose first entry has
a name that goes on after those 2048 characters: the first entry is called. -/
theorem overlong_dispatch (st : rdkssaStatus_t)
    (post : List (AttributeHandlerStruct (List (Nat × Str)))) :
    attributeHandlerHelper [] (some (zName 2048)) (some (tagEntry (zName 2049) 1 st :: post)) =
      ⟨[(1, zName 2048)], st, [(0, zName 2048)]⟩ := by
  rw [attributeHandlerHelper_eq_loop _ _ _ validLength_zName
    (by rw [nameOf_zName]; exact zName_ne_nil)]
  have := attributeLoop_first_match ([] : List (Nat × Str)) (zName 2048)
    (strchr (zName 2048) VALUE_DELIM) (nameOf (zName 2048)) (tagEntry (zName 2049) 1 st)
    (zName 2049) (tagHandler 1 st) post rfl (by rw [nameOf_zName]; exact zName_overlong_match)
    rfl [] 0 (by simp) (by decide)
  simp only [List.nil_append, List.length_nil, Nat.add_zero] at this
  rw [this, handler_argument, valueOf_zName]
  simp only [tagHandler, List.nil_append]

/-! ## The claims on the single-token dispatch -/

/-- C6 does not hold as stated. (1) In `twiceRedTable` the second entry has
a handler and the name `red` of the token `red=6`, yet the first entry is the
one called and the status is the first handler's. (2) The token `=ab` has the
empty name of the entry of `emptyNameTable`, yet the result is a syntax error
and nothing is called. (3) The 33rd entry of `longTable` has the name of the
token `red`, yet nothing is called. (4) The second entry of `overlongTable`
has the name of the 2048-character token, yet the first entry is called. -/
theorem C6_counterexample :
    (nameOf "red=6".toList = "red".toList ∧
      attributeHandlerHelper [] (some "red=6".toList) (some twiceRedTable) =
        ⟨[(1, "6".toList)], rdkssaOK, [(0, "6".toList)]⟩ ∧
      rdkssaOK ≠ rdkssaGeneralFailure) ∧
    (nameOf "=ab".toList = [] ∧
      attributeHandlerHelper [] (some "=ab".toList) (some emptyNameTable) =
        ⟨[], rdkssaSyntaxError, []⟩) ∧
    (nameOf "red".toList = "red".toList ∧
      attributeHandlerHelper [] (some "red".toList) (some longTable) =
        ⟨[], rdkssaAttributeNotFound, []⟩) ∧
    (nameOf (zName 2048) = zName 2048 ∧
      attributeHandlerHelper [] (some (zName 2048)) (some overlongTable) =
        ⟨[(1, zName 2048)], rdkssaOK, [(0, zName 2048)]⟩) :=
  ⟨⟨by decide, by decide, by decide⟩, ⟨by decide, by decide⟩, ⟨by decide, by decide⟩,
   ⟨nameOf_zName 2048, overlong_dispatch rdkssaOK _⟩⟩

/-- C6, amended: for every context, table and token of valid length with a
non-empty name portion, if entry `i` of the table, among the first
`MAX_SUPPORTED_ATTRIBUTES`, has a handler and the name portion of the token as
its name, and no earlier entry has both a handler and a matching name (the
earlier entries all being entries of the table, with a name), then
`attributeHandlerHelper` calls that handler exactly once, with the same
context and the value portion of the token, and returns the handler's state
and status. -/
theorem C6_handler_invoked {β : Type} (blob : β) (token : Str)
    (table : List (AttributeHandlerStruct β)) (i : Nat) (e : AttributeHandlerStruct β)
    (h : AttributeHandlerFuncPtr β)
    (hlen : validLength token) (hname : nameOf token ≠ [])
    (hi : i < MAX_SUPPORTED_ATTRIBUTES) (he : table[i]? = some e)
    (hen : e.attributeNameStr = some (nameOf token)) (hh : e.attributeOperation = some h)
    (hfirst : ∀ j x, j < i → table[j]? = some x → ∃ nm, x.attributeNameStr = some nm ∧
      (x.attributeOperation = none ∨ ¬ namesMatch nm (nameOf token))) :
    attributeHandlerHelper blob (some token) (some table) =
      ⟨(h blob (valueOf token)).1, (h blob (valueOf token)).2, [(i, valueOf token)]⟩ := by
  obtain ⟨hsplit, hlen_take⟩ := getElem?_split table i e he
  have hpre : ∀ x ∈ table.take i, ∃ nm, x.attributeNameStr = some nm ∧
      (x.attributeOperation = none ∨ ¬ namesMatch nm (nameOf token)) := by
    intro x hx
    obtain ⟨j, hj, hjx⟩ := List.getElem_of_mem hx
    have hj' : j < i := by omega
    apply hfirst j x hj'
    rw [← hjx, List.getElem_take, List.getElem?_eq_getElem]
  have := attributeLoop_first_match blob token (strchr token VALUE_DELIM) (nameOf token) e
    (nameOf token) h (table.drop (i + 1)) hen (namesMatch_refl _) hh (table.take i) 0 hpre
    (by omega)
  rw [← hsplit, handler_argument, hlen_take, Nat.zero_add] at this
  rw [attributeHandlerHelper_eq_loop blob token table hlen hname, this]

/-- C6 on the unit test: `blue=1` on `utAttTable` calls the handler of entry 1
(number 2) once with `1`, and `red` alone passes `red` to the handler of entry
0. -/
theorem C6_handler_invoked_witness :
    attributeHandlerHelper [] (some "blue=1".toList) (some utAttTable) =
      ⟨(tagHandler 2 rdkssaOK [] (valueOf "blue=1".toList)).1,
       (tagHandler 2 rdkssaOK [] (valueOf "blue=1".toList)).2,
       [(1, valueOf "blue=1".toList)]⟩ ∧
    valueOf "blue=1".toList = "1".toList ∧
    attributeHandlerHelper [] (some "red".toList) (some utAttTable) =
      ⟨(tagHandler 1 rdkssaOK [] (valueOf "red".toList)).1,
       (tagHandler 1 rdkssaOK [] (valueOf "red".toList)).2,
       [(0, valueOf "red".toList)]⟩ ∧
    valueOf "red".toList = "red".toList :=
  ⟨C6_handler_invoked [] "blue=1".toList utAttTable 1 (tagEntry "blue".toList 2 rdkssaOK)
      (tagHandler 2 rdkssaOK) (by decide) (by decide) (by decide) (by rfl) (by rfl) (by rfl)
      (by
        intro j x hj hx
        have hj0 : j = 0 := by omega
        subst hj0
        simp only [utAttTable, List.getElem?_cons_zero, Option.some.injEq] at hx
        subst hx
        exact ⟨"red".toList, rfl, Or.inr (by decide)⟩),
   by decide,
   C6_handler_invoked [] "red".toList utAttTable 0 (tagEntry "red".toList 1 rdkssaOK)
      (tagHandler 1 rdkssaOK) (by decide) (by decide) (by decide) (by rfl) (by rfl) (by rfl)
      (by intro j x hj; exact absurd hj (by omega)),
   by decide⟩

/-- C7 does not hold as stated: the 2048-character name of the token is a
proper start of the 2049-character name of the first entry of
`overlongTable`, and the handler of that entry is called. -/
theorem C7_counterexample :
    nameOf (zName 2048) = zName 2048 ∧
    zName 2049 = zName 2048 ++ ['z'] ∧
    zName 2048 ≠ zName 2049 ∧
    attributeHandlerHelper [] (some (zName 2048)) (some overlongTable) =
      ⟨[(1, zName 2048)], rdkssaOK, [(0, zName 2048)]⟩ := by
  refine ⟨nameOf_zName 2048, ?_, ?_, overlong_dispatch rdkssaOK _⟩
  · unfold zName
    rw [List.replicate_succ']
  · intro h
    have := congrArg List.length h
    rw [zName_length, zName_length] at this
    exact absurd this (by decide)

/-- C7, amended: the handler of a table entry is called only when the name of
the entry and the name portion of the token agree on their first
`MAX_ATTRIBUTE_NAME_LENGTH` (2048) characters; so, whenever the name of the
entry has at most 2048 characters or the name of the token fewer than 2048,
only when the two names are equal. The names of such an entry and a token one
of which properly extends the other never match, wherever the entry stands
in the table. -/
theorem C7_exact_name_match {β : Type} (blob : β) (token : Str)
    (table : List (AttributeHandlerStruct β)) (i : Nat) (v : Str)
    (hc : (i, v) ∈ (attributeHandlerHelper blob (some token) (some table)).calls) :
    ∃ e nm, table[i]? = some e ∧ e.attributeNameStr = some nm ∧
      namesMatch nm (nameOf token) ∧
      ((nm.length ≤ MAX_ATTRIBUTE_NAME_LENGTH ∨
          (nameOf token).length < MAX_ATTRIBUTE_NAME_LENGTH) → nm = nameOf token) := by
  by_cases hlen : validLength token
  · by_cases hname : nameOf token = []
    · rw [attributeHandlerHelper_leading_eq blob token table hlen hname] at hc
      simp at hc
    · rw [attributeHandlerHelper_eq_loop blob token table hlen hname] at hc
      obtain ⟨j, e, nm, h1, h2, _, h4, _, h6⟩ := attributeLoop_calls _ _ _ _ _ _ _ hc
      simp only [Nat.zero_add] at h2
      subst h2
      refine ⟨e, nm, h1, h4, h6, fun hl => namesMatch_eq h6 ?_ hl⟩
      exact le_trans (nameOf_length_le token) hlen.2
  · have hs : token.length < MIN_ATTRIBUTE_NAME_LENGTH ∨
        MAX_ATTRIBUTE_NAME_LENGTH < token.length := by
      unfold validLength at hlen
      omega
    rw [attributeHandlerHelper_screen blob token table hs] at hc
    simp at hc

/-- C7 on the unit test: on `utAttTable2` (`red`, `red1`, `blue1`, `blue`) the
token `red1=beta` calls entry 1 only, whose name is the whole name `red1`. -/
theorem C7_exact_name_match_witness :
    (1, "beta".toList) ∈
      (attributeHandlerHelper [] (some "red1=beta".toList) (some utAttTable2)).calls ∧
    ∃ e nm, utAttTable2[1]? = some e ∧ e.attributeNameStr = some nm ∧
      namesMatch nm (nameOf "red1=beta".toList) ∧
      ((nm.length ≤ MAX_ATTRIBUTE_NAME_LENGTH ∨
          (nameOf "red1=beta".toList).length < MAX_ATTRIBUTE_NAME_LENGTH) →
        nm = nameOf "red1=beta".toList) :=
  ⟨by decide, C7_exact_name_match [] "red1=beta".toList utAttTable2 1 "beta".toList (by decide)⟩

/-- C8 does not hold as stated. (1) In `longTable` the first entry that has a
handler and the name of the token `red` is the 33rd: it is not selected,
nothing is called. (2) In `overlongTable` the first entry whose name is equal
to the 2048-character token is the second, and the first entry is the one
selected. (3) For the one-character token `o` the scan does not take place,
whatever the table holds: general failure. -/
theorem C8_counterexample :
    attributeHandlerHelper [] (some "red".toList) (some longTable) =
      ⟨[], rdkssaAttributeNotFound, []⟩ ∧
    (zName 2049 ≠ zName 2048 ∧
      attributeHandlerHelper [] (some (zName 2048)) (some overlongTable) =
        ⟨[(1, zName 2048)], rdkssaOK, [(0, zName 2048)]⟩) ∧
    attributeHandlerHelper [] (some "o".toList) (some [tagEntry "o".toList 1 rdkssaOK]) =
      ⟨[], rdkssaGeneralFailure, []⟩ := by
  refine ⟨by decide, ⟨?_, overlong_dispatch rdkssaOK _⟩, by decide⟩
  intro h
  have := congrArg List.length h
  rw [zName_length, zName_length] at this
  exact absurd this (by decide)

/-- C8, amended: for a token of valid length with a non-empty name portion,
`attributeHandlerHelper` scans the first `MAX_SUPPORTED_ATTRIBUTES` entries of
the table in declaration order and selects the first one that has a non-null
handler and a name matching the name of the token (compared over 2048
characters). The entries `pre` before it are passed over, those with a null
handler even when their name matches; the handler `h` of the selected entry is
the only call, its state and status are returned whatever the status is, and
the entries `post` after it play no part. -/
theorem C8_first_match_wins {β : Type} (blob : β) (token : Str)
    (pre post : List (AttributeHandlerStruct β)) (e : AttributeHandlerStruct β) (en : Str)
    (h : AttributeHandlerFuncPtr β)
    (hlen : validLength token) (hname : nameOf token ≠ [])
    (hroom : pre.length < MAX_SUPPORTED_ATTRIBUTES)
    (hpre : ∀ x ∈ pre, ∃ nm, x.attributeNameStr = some nm ∧
      (x.attributeOperation = none ∨ ¬ namesMatch nm (nameOf token)))
    (hen : e.attributeNameStr = some en) (hm : namesMatch en (nameOf token))
    (hh : e.attributeOperation = some h) :
    attributeHandlerHelper blob (some token) (some (pre ++ e :: post)) =
      ⟨(h blob (valueOf token)).1, (h blob (valueOf token)).2,
        [(pre.length, valueOf token)]⟩ := by
  have := attributeLoop_first_match blob token (strchr token VALUE_DELIM) (nameOf token) e
    en h post hen hm hh pre 0 hpre (by omega)
  rw [handler_argument, Nat.zero_add] at this
  rw [attributeHandlerHelper_eq_loop blob token _ hlen hname, this]

/-- C8 on a table that starts with a reserved entry `red` (null handler),
followed by the two entries `red` of `twiceRedTable`: the token `red=6` calls
the first entry that has a handler, once, and the failing entry after it is
not called. -/
theorem C8_first_match_wins_witness :
    attributeHandlerHelper [] (some "red=6".toList)
        (some ([⟨some "red".toList, none⟩] ++ tagEntry "red".toList 1 rdkssaOK ::
          [tagEntry "red".toList 2 rdkssaGeneralFailure, ⟨none, none⟩])) =
      ⟨(tagHandler 1 rdkssaOK [] (valueOf "red=6".toList)).1,
       (tagHandler 1 rdkssaOK [] (valueOf "red=6".toList)).2,
       [([(⟨some "red".toList, none⟩ : AttributeHandlerStruct (List (Nat × Str)))].length,
          valueOf "red=6".toList)]⟩ ∧
    attributeHandlerHelper [] (some "red=6".toList)
        (some ([] ++ tagEntry "red".toList 2 rdkssaGeneralFailure ::
          [tagEntry "red".toList 1 rdkssaOK, ⟨none, none⟩])) =
      ⟨(tagHandler 2 rdkssaGeneralFailure [] (valueOf "red=6".toList)).1,
       (tagHandler 2 rdkssaGeneralFailure [] (valueOf "red=6".toList)).2,
       [(([] : List (AttributeHandlerStruct (List (Nat × Str)))).length,
          valueOf "red=6".toList)]⟩ :=
  ⟨C8_first_match_wins [] "red=6".toList [⟨some "red".toList, none⟩] _
      (tagEntry "red".toList 1 rdkssaOK) "red".toList (tagHandler 1 rdkssaOK)
      (by decide) (by decide) (by decide)
      (by
        intro x hx
        simp only [List.mem_singleton] at hx
        subst hx
        exact ⟨"red".toList, rfl, Or.inl rfl⟩)
      rfl (by decide) rfl,
   C8_first_match_wins [] "red=6".toList [] _
      (tagEntry "red".toList 2 rdkssaGeneralFailure) "red".toList
      (tagHandler 2 rdkssaGeneralFailure)
      (by decide) (by decide) (by decide) (by intro x hx; simp at hx)
      rfl (by decide) rfl⟩

/-- C9 does not hold as stated. No entry of `utAttTable` has the name `o`, nor
the empty name of `=ab`, yet the results are a general failure and a syntax
error, not `rdkssaAttributeNotFound`. And the only entry of the third table
has a name of 2049 characters, not the name of the 2048-character token, yet
its handler is called and the context changes. -/
theorem C9_counterexample :
    attributeHandlerHelper [] (some "o".toList) (some utAttTable) =
      ⟨[], rdkssaGeneralFailure, []⟩ ∧
    (nameOf "=ab".toList = [] ∧
      attributeHandlerHelper [] (some "=ab".toList) (some utAttTable) =
        ⟨[], rdkssaSyntaxError, []⟩) ∧
    (nameOf (zName 2048) = zName 2048 ∧ zName 2049 ≠ zName 2048 ∧
      attributeHandlerHelper [] (some (zName 2048))
          (some [tagEntry (zName 2049) 1 rdkssaOK, ⟨none, none⟩]) =
        ⟨[(1, zName 2048)], rdkssaOK, [(0, zName 2048)]⟩) := by
  refine ⟨by decide, ⟨by decide, by decide⟩, nameOf_zName 2048, ?_, overlong_dispatch rdkssaOK _⟩
  intro h
  have := congrArg List.length h
  rw [zName_length, zName_length] at this
  exact absurd this (by decide)

/-- C9, amended: for a token of valid length with a non-empty name portion, if
no entry of the table that has a handler has a name matching the name portion
of the token (compared over 2048 characters), `attributeHandlerHelper` returns
`rdkssaAttributeNotFound`, calls no handler and leaves the context as it
was. -/
theorem C9_not_found {β : Type} (blob : β) (token : Str)
    (table : List (AttributeHandlerStruct β))
    (hlen : validLength token) (hname : nameOf token ≠ [])
    (hno : ∀ x ∈ tableEntries table, ∀ nm, x.attributeNameStr = some nm →
      x.attributeOperation ≠ none → ¬ namesMatch nm (nameOf token)) :
    attributeHandlerHelper blob (some token) (some table) =
      ⟨blob, rdkssaAttributeNotFound, []⟩ := by
  rw [attributeHandlerHelper_eq_loop blob token table hlen hname]
  exact attributeLoop_no_match blob token _ _ table 0 hno

/-- C9 on the unit test: `niy` on `utAttTable`. -/
theorem C9_not_found_witness :
    attributeHandlerHelper [] (some "niy".toList) (some utAttTable) =
      ⟨[], rdkssaAttributeNotFound, []⟩ :=
  C9_not_found [] "niy".toList utAttTable (by decide) (by decide)
    (by
      intro x hx nm hnm _
      simp only [utAttTable, tableEntries, tagEntry, List.takeWhile_cons, Option.isSome_some,
        if_true, Option.isSome_none, List.mem_cons] at hx
      rcases hx with rfl | rfl | rfl | hx
      · simp only [Option.some.injEq] at hnm
        subst hnm
        decide
      · simp only [Option.some.injEq] at hnm
        subst hnm
        decide
      · simp only [Option.some.injEq] at hnm
        subst hnm
        decide
      · simp at hx)

/-- C10: for every token, table and context, a token shorter than 2 or longer
than 2048 characters gives `rdkssaGeneralFailure` with no handler call and the
context untouched, whatever the table holds; a token of exactly 2 or exactly
2048 characters passes the length screen: when nothing is called the status
is that of the later stages (`rdkssaSyntaxError` for a leading `=`,
`rdkssaAttributeNotFound`), and when it has a name and the table starts with
an entry of that name with a handler, that handler is called. -/
theorem C10_length_screen :
    (∀ (β : Type) (blob : β) (token : Str) (table : List (AttributeHandlerStruct β)),
      (token.length < 2 ∨ 2048 < token.length) →
      attributeHandlerHelper blob (some token) (some table) =
        ⟨blob, rdkssaGeneralFailure, []⟩) ∧
    (∀ (β : Type) (blob : β) (token : Str) (table : List (AttributeHandlerStruct β)),
      (token.length = 2 ∨ token.length = 2048) →
      (attributeHandlerHelper blob (some token) (some table)).calls = [] →
      attributeHandlerHelper blob (some token) (some table) = ⟨blob, rdkssaSyntaxError, []⟩ ∨
      attributeHandlerHelper blob (some token) (some table) =
        ⟨blob, rdkssaAttributeNotFound, []⟩) ∧
    (∀ (β : Type) (blob : β) (token : Str) (h : AttributeHandlerFuncPtr β)
      (post : List (AttributeHandlerStruct β)),
      (token.length = 2 ∨ token.length = 2048) → nameOf token ≠ [] →
      attributeHandlerHelper blob (some token) (some (⟨some (nameOf token), some h⟩ :: post)) =
        ⟨(h blob (valueOf token)).1, (h blob (valueOf token)).2, [(0, valueOf token)]⟩) := by
  have hvalid : ∀ token : Str, (token.length = 2 ∨ token.length = 2048) → validLength token := by
    intro token h
    unfold validLength MIN_ATTRIBUTE_NAME_LENGTH MAX_ATTRIBUTE_NAME_LENGTH
    omega
  refine ⟨?_, ?_, ?_⟩
  · intro β blob token table h
    exact attributeHandlerHelper_screen blob token table h
  · intro β blob token table h hc
    by_cases hname : nameOf token = []
    · left
      exact attributeHandlerHelper_leading_eq blob token table (hvalid token h) hname
    · right
      rw [attributeHandlerHelper_eq_loop blob token table (hvalid token h) hname] at hc ⊢
      exact attributeLoop_no_call blob token _ _ table 0 hc
  · intro β blob token h post hl hname
    have := attributeLoop_first_match blob token (strchr token VALUE_DELIM) (nameOf token)
      ⟨some (nameOf token), some h⟩ (nameOf token) h post rfl (namesMatch_refl _) rfl [] 0
      (by simp) (by simp [MAX_SUPPORTED_ATTRIBUTES])
    rw [handler_argument] at this
    rw [attributeHandlerHelper_eq_loop blob token _ (hvalid token hl) hname]
    exact this

/-- C10 on the unit test: the one-character token `o` and a token of 2049
characters are screened out although the table starts with an entry of that
very name; the 2-character token `ab` and the 2048-character token are
dispatched to such an entry. -/
theorem C10_length_screen_witness :
    attributeHandlerHelper [] (some "o".toList)
        (some [tagEntry "o".toList 1 rdkssaOK, ⟨none, none⟩]) =
      ⟨[], rdkssaGeneralFailure, []⟩ ∧
    attributeHandlerHelper [] (some (zName 2049))
        (some [tagEntry (zName 2049) 1 rdkssaOK, ⟨none, none⟩]) =
      ⟨[], rdkssaGeneralFailure, []⟩ ∧
    attributeHandlerHelper [] (some "ab".toList)
        (some (⟨some (nameOf "ab".toList), some (tagHandler 1 rdkssaOK)⟩ :: [⟨none, none⟩])) =
      ⟨(tagHandler 1 rdkssaOK [] (valueOf "ab".toList)).1,
       (tagHandler 1 rdkssaOK [] (valueOf "ab".toList)).2, [(0, valueOf "ab".toList)]⟩ ∧
    attributeHandlerHelper [] (some (zName 2048))
        (some (⟨some (nameOf (zName 2048)), some (tagHandler 2 rdkssaOK)⟩ :: [⟨none, none⟩])) =
      ⟨(tagHandler 2 rdkssaOK [] (valueOf (zName 2048))).1,
       (tagHandler 2 rdkssaOK [] (valueOf (zName 2048))).2, [(0, valueOf (zName 2048))]⟩ :=
  ⟨C10_length_screen.1 _ [] "o".toList _ (by decide),
   C10_length_screen.1 _ [] (zName 2049) _ (by rw [zName_length]; decide),
   C10_length_screen.2.2 _ [] "ab".toList (tagHandler 1 rdkssaOK) _ (by decide) (by decide),
   C10_length_screen.2.2 _ [] (zName 2048) (tagHandler 2 rdkssaOK) _
     (by rw [zName_length]; decide) (by rw [nameOf_zName]; exact zName_ne_nil)⟩


/-! ## The claims on the name length, the value check and the command line -/

/-- C11 does not hold as stated. The token `a=bcd` has a name portion of one
character: on a table that has an entry `a` the result is that of the handler,
on `utAttTable` it is `rdkssaAttributeNotFound`; and the token `=ab`, whose
name portion is empty, is a syntax error. None is a general failure. -/
theorem C11_counterexample :
    (nameOf "a=bcd".toList).length = 1 ∧
    attributeHandlerHelper [] (some "a=bcd".toList)
        (some [tagEntry "a".toList 1 rdkssaOK, ⟨none, none⟩]) =
      ⟨[(1, "bcd".toList)], rdkssaOK, [(0, "bcd".toList)]⟩ ∧
    attributeHandlerHelper [] (some "a=bcd".toList) (some utAttTable) =
      ⟨[], rdkssaAttributeNotFound, []⟩ ∧
    (nameOf "=ab".toList).length = 0 ∧
    attributeHandlerHelper [] (some "=ab".toList) (some utAttTable) =
      ⟨[], rdkssaSyntaxError, []⟩ := by
  decide

/-- C11, amended: for every attribute token whose name portion is longer than
2048 characters, or whose whole length (name, `=` and value) is shorter than 2
characters, as a bare name shorter than 2 is, `attributeHandlerHelper`
returns `rdkssaGeneralFailure`, never `rdkssaAttributeNotFound` and never the
result of a handler, and calls nothing. -/
theorem C11_name_length {β : Type} (blob : β) (token : Str)
    (table : List (AttributeHandlerStruct β))
    (h : 2048 < (nameOf token).length ∨ token.length < 2) :
    attributeHandlerHelper blob (some token) (some table) =
      ⟨blob, rdkssaGeneralFailure, []⟩ := by
  apply attributeHandlerHelper_screen
  have := nameOf_length_le token
  unfold MIN_ATTRIBUTE_NAME_LENGTH MAX_ATTRIBUTE_NAME_LENGTH
  omega

/-- C11 on the bare name `o` and on a bare name of 2049 characters, with a
table that has an entry of that very name. -/
theorem C11_name_length_witness :
    attributeHandlerHelper [] (some "o".toList)
        (some [tagEntry "o".toList 1 rdkssaOK, ⟨none, none⟩]) =
      ⟨[], rdkssaGeneralFailure, []⟩ ∧
    attributeHandlerHelper [] (some (zName 2049))
        (some [tagEntry (zName 2049) 1 rdkssaOK, ⟨none, none⟩]) =
      ⟨[], rdkssaGeneralFailure, []⟩ :=
  ⟨C11_name_length [] "o".toList _ (Or.inr (by decide)),
   C11_name_length [] (zName 2049) _
     (Or.inl (by rw [nameOf_zName, zName_length]; decide))⟩

/-- C16: the code on a value that contains a comma and no other reserved
character: `rdkssaAttrCheck` returns the value, it does not reject it. The
comma is not in `RDKSSA_BADCHARS`; values with one of the characters that are
in it are rejected. -/
theorem C16_comma_accepted :
    rdkssaAttrCheck (some "a,b".toList) = some "a,b".toList ∧
    ATTRIB_DELIM ∉ RDKSSA_BADCHARS ∧
    rdkssaAttrCheck (some "a\x7db".toList) = none ∧
    rdkssaAttrCheck (some "a;b".toList) = none ∧
    rdkssaAttrCheck (some "/nvram/rdkssa".toList) = some "/nvram/rdkssa".toList := by
  decide

theorem strpbrk_eq_none {s accept : Str} :
    strpbrk s accept = none ↔ ∀ c ∈ s, c ∉ accept := by
  induction s with
  | nil => simp [strpbrk]
  | cons x xs ih =>
    by_cases h : x ∈ accept
    · simp [strpbrk, h]
    · simp [strpbrk, h, ih]

/-- C17: `rdkssaAttrCheck` returns its argument when the value is non-null,
non-empty, at most 2048 characters long and free of every character of
`RDKSSA_BADCHARS`, and `NULL` in every other case; a value of 2048 allowed
characters is accepted and one of 2049 is rejected. -/
theorem C17_attr_check :
    (∀ v : Option Str, validValue v → rdkssaAttrCheck v = v) ∧
    (∀ v : Option Str, ¬ validValue v → rdkssaAttrCheck v = none) ∧
    (∀ s : Str, (∀ c ∈ s, c ∉ RDKSSA_BADCHARS) → s.length = 2048 →
      rdkssaAttrCheck (some s) = some s) ∧
    (∀ s : Str, (∀ c ∈ s, c ∉ RDKSSA_BADCHARS) → s.length = 2049 →
      rdkssaAttrCheck (some s) = none) := by
  have key : ∀ s : Str, rdkssaAttrCheck (some s) =
      if s ≠ [] ∧ s.length ≤ 2048 ∧ ∀ c ∈ s, c ∉ RDKSSA_BADCHARS then some s else none := by
    intro s
    unfold rdkssaAttrCheck
    simp only
    by_cases h1 : s = []
    · simp [h1]
    · by_cases h2 : s.length ≤ 2048
      · have hl : ¬ strnlen s (MAX_ATTRIBUTE_VALUE_LENGTH + 1) > MAX_ATTRIBUTE_VALUE_LENGTH := by
          unfold strnlen MAX_ATTRIBUTE_VALUE_LENGTH
          omega
        by_cases h3 : ∀ c ∈ s, c ∉ RDKSSA_BADCHARS
        · have hp : ¬ (strpbrk s RDKSSA_BADCHARS ≠ none) := by
            rw [strpbrk_eq_none.2 h3]
            simp
          rw [if_neg h1, if_neg hl, if_neg hp, if_pos ⟨h1, h2, h3⟩]
        · have hp : strpbrk s RDKSSA_BADCHARS ≠ none := fun e => h3 (strpbrk_eq_none.1 e)
          rw [if_neg h1, if_neg hl, if_pos hp, if_neg (fun h => h3 h.2.2)]
      · have hl : strnlen s (MAX_ATTRIBUTE_VALUE_LENGTH + 1) > MAX_ATTRIBUTE_VALUE_LENGTH := by
          unfold strnlen MAX_ATTRIBUTE_VALUE_LENGTH
          omega
        rw [if_neg h1, if_pos hl, if_neg (fun h => h2 h.2.1)]
  refine ⟨?_, ?_, ?_, ?_⟩
  · intro v hv
    cases v with
    | none => exact absurd hv (by simp [validValue])
    | some s =>
      simp only [validValue, MAX_ATTRIBUTE_VALUE_LENGTH] at hv
      rw [key, if_pos hv]
  · intro v hv
    cases v with
    | none => rfl
    | some s =>
      simp only [validValue, MAX_ATTRIBUTE_VALUE_LENGTH] at hv
      rw [key, if_neg hv]
  · intro s hs hl
    have hne : s ≠ [] := by
      intro e
      rw [e] at hl
      simp at hl
    rw [key, if_pos ⟨hne, by omega, hs⟩]
  · intro s _ hl
    rw [key, if_neg]
    intro h
    omega

/-- C17 on the values of the unit test and on values of 2048 and of 2049
characters `z`. -/
theorem C17_attr_check_witness :
    rdkssaAttrCheck (some "abcdefg".toList) = some "abcdefg".toList ∧
    rdkssaAttrCheck (some "ab@cdefgh".toList) = none ∧
    rdkssaAttrCheck (some (zName 2048)) = some (zName 2048) ∧
    rdkssaAttrCheck (some (zName 2049)) = none :=
  have hz : ∀ n, ∀ c ∈ zName n, c ∉ RDKSSA_BADCHARS := by
    intro n c hc
    unfold zName at hc
    rw [(List.mem_replicate.1 hc).2]
    decide
  ⟨C17_attr_check.1 (some "abcdefg".toList) (by decide),
   C17_attr_check.2.1 (some "ab@cdefgh".toList) (by decide),
   C17_attr_check.2.2.1 (zName 2048) (hz 2048) (zName_length 2048),
   C17_attr_check.2.2.2 (zName 2049) (hz 2049) (zName_length 2049)⟩

theorem callProvider_not_found (rdkssaMount : List Str → rdkssaStatus_t) (theProv : Str)
    (provCmds : Str) (h : theProv ∉ providerKeywords) :
    callProvider rdkssaMount theProv (some provCmds) = (rdkssaProviderNotFound, []) := by
  simp only [providerKeywords, List.mem_cons, List.mem_singleton, not_or, List.not_mem_nil,
    or_false] at h
  obtain ⟨h1, h2, h3, h4⟩ := h
  have e1 : decide ("STOR".toList = theProv) = false := decide_eq_false (Ne.symm h1)
  have e2 : decide ("CA".toList = theProv) = false := decide_eq_false (Ne.symm h2)
  have e3 : decide ("IDENT".toList = theProv) = false := decide_eq_false (Ne.symm h3)
  have e4 : decide ("MOUNT".toList = theProv) = false := decide_eq_false (Ne.symm h4)
  unfold callProvider providerWrapperTable
  simp only [List.find?, e1, e2, e3, e4]

/-- C18: for every command string of at most 2048 characters that starts with
`{` and whose provider keyword, the text between the `{` and the first `=`
(the rest of the string when there is none), is not one of `STOR`, `CA`,
`IDENT`, `MOUNT`, `processCmd` returns `rdkssaProviderNotFound`, whatever
follows the keyword; no provider is selected and the tokenizer is not
called. -/
theorem C18_provider_not_found (rdkssaMount : List Str → rdkssaStatus_t) (rest : Str)
    (hlen : (COMMAND_HEAD :: rest).length ≤ 2048)
    (hkey : nameOf rest ∉ providerKeywords) :
    processCmd rdkssaMount (some (COMMAND_HEAD :: rest)) = (rdkssaProviderNotFound, []) := by
  have hscreen : ¬ (MAX_ATTRIBUTE_NAME_LENGTH <
      strnlen (COMMAND_HEAD :: rest) (MAX_ATTRIBUTE_NAME_LENGTH + 1)) := by
    unfold strnlen MAX_ATTRIBUTE_NAME_LENGTH
    omega
  unfold processCmd
  simp only [hscreen, if_false, ne_eq, not_true_eq_false]
  cases hs : strchr rest VALUE_DELIM with
  | none =>
    simp only
    rw [(nameOf_valueOf_of_strchr_none rest hs).1] at hkey
    exact callProvider_not_found rdkssaMount rest rest hkey
  | some k =>
    simp only
    rw [← (nameOf_valueOf_of_strchr rest k hs).1] at hkey
    exact callProvider_not_found rdkssaMount _ _ hkey

/-- C18 on the command `{BOGUS=x}`, and on a keyword in lower case. -/
theorem C18_provider_not_found_witness :
    processCmd (fun _ => rdkssaOK) (some (COMMAND_HEAD :: "BOGUS=x\x7d".toList)) =
      (rdkssaProviderNotFound, []) ∧
    processCmd (fun _ => rdkssaOK) (some (COMMAND_HEAD :: "mount=MOUNT,A=b\x7d".toList)) =
      (rdkssaProviderNotFound, []) :=
  ⟨C18_provider_not_found _ _ (by decide) (by decide),
   C18_provider_not_found _ _ (by decide) (by decide)⟩

/-- C19: the code on the commands `{STOR}`, `{CA}`, `{IDENT}`, `{MOUNT}`: the
provider name copied from the command keeps the closing `}`, no provider is
selected, no wrapper is called, and the result is `rdkssaProviderNotFound`,
whatever `rdkssaMount` would do. -/
theorem C19_bare_label_not_found (rdkssaMount : List Str → rdkssaStatus_t) :
    processCmd rdkssaMount (some "\x7bSTOR\x7d".toList) = (rdkssaProviderNotFound, []) ∧
    processCmd rdkssaMount (some "\x7bCA\x7d".toList) = (rdkssaProviderNotFound, []) ∧
    processCmd rdkssaMount (some "\x7bIDENT\x7d".toList) = (rdkssaProviderNotFound, []) ∧
    processCmd rdkssaMount (some "\x7bMOUNT\x7d".toList) = (rdkssaProviderNotFound, []) ∧
    nameOf "MOUNT\x7d".toList = "MOUNT\x7d".toList :=
  ⟨rfl, rfl, rfl, rfl, by decide⟩

/-- C20: `processCmd` returns `rdkssaBadPointer` for a null command string,
and `rdkssaSyntaxError` for every command string of at most 2048 characters
whose first character is not `{`, the empty string included; in both cases no
provider is selected, the tokenizer is not called and no wrapper runs. -/
theorem C20_bad_head :
    (∀ rdkssaMount : List Str → rdkssaStatus_t,
      processCmd rdkssaMount none = (rdkssaBadPointer, [])) ∧
    (∀ (rdkssaMount : List Str → rdkssaStatus_t) (cmdStr : Str),
      cmdStr.length ≤ 2048 → cmdStr.head? ≠ some COMMAND_HEAD →
      processCmd rdkssaMount (some cmdStr) = (rdkssaSyntaxError, [])) := by
  refine ⟨fun _ => rfl, ?_⟩
  intro rdkssaMount cmdStr hlen hhead
  have hscreen : ¬ (MAX_ATTRIBUTE_NAME_LENGTH <
      strnlen cmdStr (MAX_ATTRIBUTE_NAME_LENGTH + 1)) := by
    unfold strnlen MAX_ATTRIBUTE_NAME_LENGTH
    omega
  unfold processCmd
  simp only [hscreen, if_false]
  cases cmdStr with
  | nil => rfl
  | cons c charp =>
    have hc : c ≠ COMMAND_HEAD := by
      intro e
      apply hhead
      simp [e]
    simp only [hc, ne_eq, not_false_eq_true, if_true]
    rfl

/-- C20 on the empty string and on `error`, the input of the unit test. -/
theorem C20_bad_head_witness :
    processCmd (fun _ => rdkssaOK) (some []) = (rdkssaSyntaxError, []) ∧
    processCmd (fun _ => rdkssaOK) (some "error".toList) = (rdkssaSyntaxError, []) :=
  ⟨C20_bad_head.2 _ [] (by decide) (by decide),
   C20_bad_head.2 _ "error".toList (by decide) (by decide)⟩

/-! ## The batch dispatch -/

theorem handleLoop_stop {β : Type} (table : List (AttributeHandlerStruct β)) (t : Str)
    (post : List Str) :
    ∀ (pre : List Str) (i : Nat) (blob : β) (st : rdkssaStatus_t),
    i + pre.length < MAX_SUPPORTED_ATTRIBUTES → allOK table blob pre →
    (attributeHandlerHelper (stateAfter table blob pre) (some t) (some table)).status ≠ rdkssaOK →
    handleLoop (some table) i blob st (pre ++ t :: post) =
      ⟨(attributeHandlerHelper (stateAfter table blob pre) (some t) (some table)).blob,
       (attributeHandlerHelper (stateAfter table blob pre) (some t) (some table)).status,
       callsAfter table blob pre ++
        (attributeHandlerHelper (stateAfter table blob pre) (some t) (some table)).calls⟩ := by
  intro pre
  induction pre with
  | nil =>
    intro i blob st hi _ hne
    simp only [List.length_nil, Nat.add_zero] at hi
    simp only [stateAfter] at hne
    simp only [List.nil_append, handleLoop, hi, if_true, hne, ne_eq, not_false_eq_true,
      stateAfter, callsAfter]
  | cons a rest ih =>
    intro i blob st hi hok hne
    simp only [List.length_cons] at hi
    have hi' : i < MAX_SUPPORTED_ATTRIBUTES := by omega
    obtain ⟨h1, h2⟩ := hok
    simp only [stateAfter] at hne
    have := ih (i + 1) _ rdkssaOK (by omega) h2 hne
    rw [List.cons_append]
    simp only [handleLoop, hi', if_true, h1, ne_eq, not_true_eq_false, if_false]
    rw [this]
    simp only [stateAfter, callsAfter, List.append_assoc]

theorem handleLoop_all {β : Type} (table : List (AttributeHandlerStruct β)) :
    ∀ (attrs : List Str) (i : Nat) (blob : β) (st : rdkssaStatus_t),
    i + attrs.length ≤ MAX_SUPPORTED_ATTRIBUTES → allOK table blob attrs →
    handleLoop (some table) i blob st attrs =
      ⟨stateAfter table blob attrs, if attrs = [] then st else rdkssaOK,
        callsAfter table blob attrs⟩ := by
  intro attrs
  induction attrs with
  | nil => intro i blob st _ _; simp [handleLoop, stateAfter, callsAfter]
  | cons a rest ih =>
    intro i blob st hi hok
    simp only [List.length_cons] at hi
    have hi' : i < MAX_SUPPORTED_ATTRIBUTES := by omega
    obtain ⟨h1, h2⟩ := hok
    have := ih (i + 1) _ rdkssaOK (by omega) h2
    simp only [handleLoop, hi', if_true, h1, ne_eq, not_true_eq_false, if_false]
    rw [this]
    simp only [stateAfter, callsAfter, ite_self]
    simp

/-- The scan of one token either finds nothing or calls one entry that has a
handler and a matching name, and returns what that handler returns. -/
theorem attributeLoop_cases {β : Type} (blob : β) (token : Str) (eq : Option Nat)
    (attrPtr v : Str)
    (hv : (match eq with | some k => token.drop (k + 1) | none => attrPtr) = v) :
    ∀ (table : List (AttributeHandlerStruct β)) (i : Nat),
    attributeLoop blob token eq attrPtr i table = ⟨blob, rdkssaAttributeNotFound, []⟩ ∨
    ∃ (j : Nat) (e : AttributeHandlerStruct β) (nm : Str) (h : AttributeHandlerFuncPtr β),
      table[j]? = some e ∧ e.attributeNameStr = some nm ∧ e.attributeOperation = some h ∧
      namesMatch nm attrPtr ∧
      attributeLoop blob token eq attrPtr i table = ⟨(h blob v).1, (h blob v).2, [(i + j, v)]⟩ := by
  intro table
  induction table with
  | nil => intro i; left; simp [attributeLoop]
  | cons x xs ih =>
    intro i
    have step : attributeLoop blob token eq attrPtr i (x :: xs) =
        attributeLoop blob token eq attrPtr (i + 1) xs →
        (attributeLoop blob token eq attrPtr i (x :: xs) = ⟨blob, rdkssaAttributeNotFound, []⟩ ∨
        ∃ (j : Nat) (e : AttributeHandlerStruct β) (nm : Str) (h : AttributeHandlerFuncPtr β),
          (x :: xs)[j]? = some e ∧ e.attributeNameStr = some nm ∧
          e.attributeOperation = some h ∧ namesMatch nm attrPtr ∧
          attributeLoop blob token eq attrPtr i (x :: xs) =
            ⟨(h blob v).1, (h blob v).2, [(i + j, v)]⟩) := by
      intro hstep
      rcases ih (i + 1) with h0 | ⟨j, e, nm, h, h1, h2, h3, h4, h5⟩
      · left; rw [hstep, h0]
      · right
        refine ⟨j + 1, e, nm, h, by simpa using h1, h2, h3, h4, ?_⟩
        rw [hstep, h5]
        have : i + 1 + j = i + (j + 1) := by omega
        rw [this]
    by_cases hi : i < MAX_SUPPORTED_ATTRIBUTES
    · cases hnm : x.attributeNameStr with
      | none => left; simp only [attributeLoop, hi, if_true, hnm]
      | some nm =>
        cases hop : x.attributeOperation with
        | none =>
          apply step
          simp only [attributeLoop, hi, if_true, hnm, hop]
        | some op =>
          by_cases hm : strncmpEq nm attrPtr MAX_ATTRIBUTE_NAME_LENGTH = true
          · right
            refine ⟨0, x, nm, op, by simp, hnm, hop, (strncmpEq_iff nm attrPtr).1 hm, ?_⟩
            simp only [attributeLoop, hi, if_true, hnm, hop, hm, hv, Nat.add_zero]
          · apply step
            simp only [attributeLoop, hi, if_true, hnm, hop, hm]
            rfl
    · left; simp only [attributeLoop, hi, if_false]

/-- A single-token dispatch that returns `rdkssaOK` has called, once, an entry
with a handler and a matching name, and that handler returned `rdkssaOK`. -/
theorem attributeHandlerHelper_ok {β : Type} (blob : β) (token : Str)
    (table : List (AttributeHandlerStruct β))
    (hok : (attributeHandlerHelper blob (some token) (some table)).status = rdkssaOK) :
    ∃ (j : Nat) (e : AttributeHandlerStruct β) (nm : Str) (h : AttributeHandlerFuncPtr β),
      table[j]? = some e ∧ e.attributeNameStr = some nm ∧ e.attributeOperation = some h ∧
      namesMatch nm (nameOf token) ∧
      attributeHandlerHelper blob (some token) (some table) =
        ⟨(h blob (valueOf token)).1, (h blob (valueOf token)).2, [(j, valueOf token)]⟩ := by
  by_cases hlen : validLength token
  · by_cases hname : nameOf token = []
    · rw [attributeHandlerHelper_leading_eq blob token table hlen hname] at hok
      simp only at hok
      exact absurd hok (by decide)
    · rw [attributeHandlerHelper_eq_loop blob token table hlen hname] at hok ⊢
      rcases attributeLoop_cases blob token (strchr token VALUE_DELIM) (nameOf token)
        (valueOf token) (handler_argument token) table 0 with h0 | ⟨j, e, nm, h, h1, h2, h3, h4, h5⟩
      · rw [h0] at hok
        simp only at hok
        exact absurd hok (by decide)
      · refine ⟨j, e, nm, h, h1, h2, h3, h4, ?_⟩
        rw [h5, Nat.zero_add]
  · have hs : token.length < MIN_ATTRIBUTE_NAME_LENGTH ∨
        MAX_ATTRIBUTE_NAME_LENGTH < token.length := by
      unfold validLength at hlen
      omega
    rw [attributeHandlerHelper_screen blob token table hs] at hok
    simp only at hok
    exact absurd hok (by decide)

theorem handleLoop_served {β : Type} (table : List (AttributeHandlerStruct β)) :
    ∀ (attrs : List Str) (i : Nat) (blob : β) (st : rdkssaStatus_t),
    (handleLoop (some table) i blob st attrs).status = rdkssaOK →
    everyTokenServed table blob (attrs.take (MAX_SUPPORTED_ATTRIBUTES - i)) := by
  intro attrs
  induction attrs with
  | nil => intro i blob st _; simp [everyTokenServed]
  | cons a rest ih =>
    intro i blob st hok
    by_cases hi : i < MAX_SUPPORTED_ATTRIBUTES
    · have hsub : MAX_SUPPORTED_ATTRIBUTES - i = (MAX_SUPPORTED_ATTRIBUTES - (i + 1)) + 1 := by
        omega
      rw [hsub, List.take_succ_cons]
      simp only [handleLoop, hi, if_true] at hok
      by_cases h1 : (attributeHandlerHelper blob (some a) (some table)).status = rdkssaOK
      · simp only [h1, ne_eq, not_true_eq_false, if_false] at hok
        obtain ⟨j, e, nm, h, e1, e2, e3, e4, e5⟩ := attributeHandlerHelper_ok blob a table h1
        have hrest := ih (i + 1) _ _ hok
        rw [e5] at h1 hrest
        exact ⟨j, e, nm, h, e1, e2, e3, e4, h1, hrest⟩
      · simp only [h1, ne_eq, not_false_eq_true, if_true] at hok
    · have : MAX_SUPPORTED_ATTRIBUTES - i = 0 := by omega
      rw [this]
      simp [everyTokenServed]

/-! ## The claims on the batch dispatch -/

/-- C12 does not hold as stated: in `thirtyTwoThenUnknown` the 32 tokens
`red=1` are dispatched with `rdkssaOK` and the first token whose dispatch is
not `rdkssaOK` is the 33rd, `niy` (attribute not found); `rdkssaHandleAPIHelper`
does not return that status but `rdkssaOK`. -/
theorem C12_counterexample :
    allOK utAttTable [] (List.replicate 32 "red=1".toList) ∧
    (attributeHandlerHelper (stateAfter utAttTable [] (List.replicate 32 "red=1".toList))
      (some "niy".toList) (some utAttTable)).status = rdkssaAttributeNotFound ∧
    (rdkssaHandleAPIHelper [] (some thirtyTwoThenUnknown) (some utAttTable)).status =
      rdkssaOK := by
  decide

/-- C12, amended: `rdkssaHandleAPIHelper` dispatches the tokens of the list in
list order and stops at the first token, among the first
`MAX_SUPPORTED_ATTRIBUTES` (32), whose dispatch is not `rdkssaOK`: when the
tokens `pre` before `t` are fewer than 32 and all dispatched with `rdkssaOK`
and the dispatch of `t` is not, the result is the status and the state of
the dispatch of `t`, and the calls made are those of `pre` and of `t`: no
handler is called for the tokens `post` after `t`. -/
theorem C12_fail_fast {β : Type} (blob : β) (table : List (AttributeHandlerStruct β))
    (pre post : List Str) (t : Str)
    (hroom : pre.length < MAX_SUPPORTED_ATTRIBUTES)
    (hpre : allOK table blob pre)
    (ht : (attributeHandlerHelper (stateAfter table blob pre) (some t) (some table)).status ≠
      rdkssaOK) :
    rdkssaHandleAPIHelper blob (some (pre ++ t :: post)) (some table) =
      ⟨(attributeHandlerHelper (stateAfter table blob pre) (some t) (some table)).blob,
       (attributeHandlerHelper (stateAfter table blob pre) (some t) (some table)).status,
       callsAfter table blob pre ++
        (attributeHandlerHelper (stateAfter table blob pre) (some t) (some table)).calls⟩ := by
  unfold rdkssaHandleAPIHelper
  exact handleLoop_stop table t post pre 0 blob _ (by omega) hpre ht

/-- C12 on `utAttTable`: in the list `red=1`, `niy`, `green=3` the token
`niy` stops the dispatch; the status is `rdkssaAttributeNotFound` and only the
handler of `red` has been called. -/
theorem C12_fail_fast_witness :
    rdkssaHandleAPIHelper [] (some (["red=1".toList] ++ "niy".toList :: ["green=3".toList]))
        (some utAttTable) =
      ⟨(attributeHandlerHelper (stateAfter utAttTable [] ["red=1".toList]) (some "niy".toList)
          (some utAttTable)).blob,
       (attributeHandlerHelper (stateAfter utAttTable [] ["red=1".toList]) (some "niy".toList)
          (some utAttTable)).status,
       callsAfter utAttTable [] ["red=1".toList] ++
        (attributeHandlerHelper (stateAfter utAttTable [] ["red=1".toList]) (some "niy".toList)
          (some utAttTable)).calls⟩ ∧
    rdkssaHandleAPIHelper [] (some (["red=1".toList] ++ "niy".toList :: ["green=3".toList]))
        (some utAttTable) =
      ⟨[(1, "1".toList)], rdkssaAttributeNotFound, [(0, "1".toList)]⟩ :=
  ⟨C12_fail_fast [] utAttTable ["red=1".toList] ["green=3".toList] "niy".toList
      (by decide) (by decide) (by decide),
   by decide⟩

/-- C13 does not hold as stated: for `thirtyTwoThenBogus`, a list of 33
tokens, `rdkssaHandleAPIHelper` returns `rdkssaOK` although its last token
`bogus=2` matches no entry of `utAttTable`: its dispatch, never made, is an
attribute not found. -/
theorem C13_counterexample :
    (rdkssaHandleAPIHelper [] (some thirtyTwoThenBogus) (some utAttTable)).status = rdkssaOK ∧
    "bogus=2".toList ∈ thirtyTwoThenBogus ∧
    utAttTable.all (fun e => e.attributeNameStr != some (nameOf "bogus=2".toList)) = true ∧
    (attributeHandlerHelper
        (stateAfter utAttTable [] (List.replicate 32 "blue=1".toList))
        (some "bogus=2".toList) (some utAttTable)).status = rdkssaAttributeNotFound := by
  decide

/-- C13, amended: `rdkssaHandleAPIHelper` returns `rdkssaOK` only if every one
of the first `MAX_SUPPORTED_ATTRIBUTES` (32) tokens of the list, so every
token of a list of at most 32, matched a table entry and every handler called
succeeded. -/
theorem C13_ok_only_if_served {β : Type} (blob : β) (attrs : List Str)
    (table : List (AttributeHandlerStruct β))
    (hok : (rdkssaHandleAPIHelper blob (some attrs) (some table)).status = rdkssaOK) :
    everyTokenServed table blob (attrs.take MAX_SUPPORTED_ATTRIBUTES) ∧
    (attrs.length ≤ MAX_SUPPORTED_ATTRIBUTES → everyTokenServed table blob attrs) := by
  unfold rdkssaHandleAPIHelper at hok
  have h := handleLoop_served table attrs 0 blob _ hok
  simp only [Nat.sub_zero] at h
  refine ⟨h, fun hl => ?_⟩
  rw [List.take_of_length_le hl] at h
  exact h

/-- C13 on the unit test: `attArray` on `utHndTable` returns `rdkssaOK`, and
each of its four tokens is served by an entry of the table. -/
theorem C13_ok_only_if_served_witness :
    (rdkssaHandleAPIHelper [] (some attArray) (some utHndTable)).status = rdkssaOK ∧
    everyTokenServed utHndTable [] (attArray.take MAX_SUPPORTED_ATTRIBUTES) ∧
    (attArray.length ≤ MAX_SUPPORTED_ATTRIBUTES → everyTokenServed utHndTable [] attArray) :=
  ⟨by decide, C13_ok_only_if_served [] attArray utHndTable (by decide)⟩

/-! ## Order independence with the mock handlers -/

theorem attributeLoop_slotTable (ctx : SlotCtx) (token : Str) (eq : Option Nat) (name : Str)
    (hname : name.length ≤ MAX_ATTRIBUTE_NAME_LENGTH) :
    ∀ (names : List Str) (i : Nat), name ∈ names →
    (∀ n ∈ names, n.length ≤ MAX_ATTRIBUTE_NAME_LENGTH) →
    i + names.length ≤ MAX_SUPPORTED_ATTRIBUTES →
    attributeLoop ctx token eq name i (slotTableFrom i names) =
      ⟨Function.update ctx (i + slotOf names name)
          (some (match eq with | some k => token.drop (k + 1) | none => name)),
        rdkssaOK,
        [(i + slotOf names name, match eq with | some k => token.drop (k + 1) | none => name)]⟩ := by
  intro names
  induction names with
  | nil => intro i h; simp at h
  | cons n ns ih =>
    intro i hmem hlen hroom
    simp only [List.length_cons] at hroom
    have hi : i < MAX_SUPPORTED_ATTRIBUTES := by omega
    by_cases hn : n = name
    · subst hn
      have hm : strncmpEq n n MAX_ATTRIBUTE_NAME_LENGTH = true :=
        (strncmpEq_iff n n).2 (namesMatch_refl n)
      simp only [slotTableFrom, attributeLoop, hi, if_true, hm, slotOf, Nat.add_zero,
        slotHandler]
    · have hm : strncmpEq n name MAX_ATTRIBUTE_NAME_LENGTH = false := by
        rw [Bool.eq_false_iff]
        intro ht
        have := namesMatch_eq ((strncmpEq_iff n name).1 ht) hname
          (Or.inl (hlen n (List.mem_cons_self _ _)))
        exact hn this
      have hmem' : name ∈ ns := by
        rcases List.mem_cons.1 hmem with h | h
        · exact absurd h.symm hn
        · exact h
      have := ih (i + 1) hmem' (fun m hm => hlen m (List.mem_cons_of_mem _ hm)) (by omega)
      have hidx : i + 1 + slotOf ns name = i + (slotOf ns name + 1) := by omega
      rw [hidx] at this
      simp only [slotTableFrom, attributeLoop, hi, if_true, hm, slotOf, hn, if_false]
      exact this

/-- The dispatch of one token whose name is in the table of the mock
handlers: the handler of that name records the value of the token. -/
theorem attributeHandlerHelper_slotTable (ctx : SlotCtx) (names : List Str) (token : Str)
    (hlen : validLength token) (hne : nameOf token ≠ []) (hmem : nameOf token ∈ names)
    (hnames : ∀ n ∈ names, n.length ≤ MAX_ATTRIBUTE_NAME_LENGTH)
    (hroom : names.length ≤ MAX_SUPPORTED_ATTRIBUTES) :
    attributeHandlerHelper ctx (some token) (some (slotTable names)) =
      ⟨Function.update ctx (slotOf names (nameOf token)) (some (valueOf token)), rdkssaOK,
        [(slotOf names (nameOf token), valueOf token)]⟩ := by
  rw [attributeHandlerHelper_eq_loop ctx token _ hlen hne]
  have := attributeLoop_slotTable ctx token (strchr token VALUE_DELIM) (nameOf token)
    (le_trans (nameOf_length_le token) hlen.2) names 0 hmem hnames (by omega)
  rw [handler_argument, Nat.zero_add] at this
  exact this

/-- The batch dispatch of tokens whose names are all in the table of the
mock handlers: every token is served, in list order. -/
theorem handleLoop_slotTable (names : List Str)
    (hnames : ∀ n ∈ names, n.length ≤ MAX_ATTRIBUTE_NAME_LENGTH)
    (hroom : names.length ≤ MAX_SUPPORTED_ATTRIBUTES) :
    ∀ (attrs : List Str) (i : Nat) (ctx : SlotCtx) (st : rdkssaStatus_t),
    i + attrs.length ≤ MAX_SUPPORTED_ATTRIBUTES →
    (∀ t ∈ attrs, validLength t ∧ nameOf t ≠ [] ∧ nameOf t ∈ names) →
    handleLoop (some (slotTable names)) i ctx st attrs =
      ⟨attrs.foldl (fun c t => Function.update c (slotOf names (nameOf t)) (some (valueOf t))) ctx,
        if attrs = [] then st else rdkssaOK,
        attrs.map (fun t => (slotOf names (nameOf t), valueOf t))⟩ := by
  intro attrs
  induction attrs with
  | nil => intro i ctx st _ _; simp [handleLoop]
  | cons a rest ih =>
    intro i ctx st hi hall
    simp only [List.length_cons] at hi
    have hi' : i < MAX_SUPPORTED_ATTRIBUTES := by omega
    obtain ⟨h1, h2, h3⟩ := hall a (List.mem_cons_self _ _)
    have hd := attributeHandlerHelper_slotTable ctx names a h1 h2 h3 hnames hroom
    have := ih (i + 1) (Function.update ctx (slotOf names (nameOf a)) (some (valueOf a)))
      rdkssaOK (by omega) (fun t ht => hall t (List.mem_cons_of_mem _ ht))
    simp only [handleLoop, hi', if_true, hd, ne_eq, not_true_eq_false, if_false]
    rw [this]
    simp

theorem slotOf_inj (names : List Str) :
    ∀ a b, a ∈ names → b ∈ names → slotOf names a = slotOf names b → a = b := by
  induction names with
  | nil => intro a b ha; simp at ha
  | cons n ns ih =>
    intro a b ha hb h
    by_cases h1 : n = a
    · by_cases h2 : n = b
      · rw [← h1, ← h2]
      · exfalso
        subst h1
        simp only [slotOf, h2, if_true, if_false] at h
        omega
    · by_cases h2 : n = b
      · exfalso
        subst h2
        simp only [slotOf, h1, if_true, if_false] at h
        omega
      · simp only [slotOf, h1, h2, if_false, Nat.add_right_cancel_iff] at h
        have ha' : a ∈ ns := by
          rcases List.mem_cons.1 ha with e | e
          · exact absurd e.symm h1
          · exact e
        have hb' : b ∈ ns := by
          rcases List.mem_cons.1 hb with e | e
          · exact absurd e.symm h2
          · exact e
        exact ih a b ha' hb' h

theorem slotOf_map : ∀ (names : List Str), names.Nodup →
    names.map (slotOf names) = List.range names.length := by
  intro names
  induction names with
  | nil => intro _; rfl
  | cons n ns ih =>
    intro hnd
    obtain ⟨hn, hns⟩ := List.nodup_cons.1 hnd
    have hrest : ns.map (slotOf (n :: ns)) = ns.map (fun a => slotOf ns a + 1) := by
      apply List.map_congr_left
      intro a ha
      have : n ≠ a := fun e => hn (e ▸ ha)
      simp [slotOf, this]
    rw [List.map_cons, hrest, List.length_cons, List.range_succ_eq_map, ← ih hns, List.map_map]
    simp [slotOf]

/-- C14 does not hold as stated. (1) With no name at all the list is empty
and the status is `rdkssaAttributeNotFound`, not `rdkssaOK`. (2) With the two
distinct names `a` and `b` the list of the two bare names is screened out:
general failure; and with the empty name in the table, the token `=1` of that
name is a syntax error. (3) With the 33 distinct names of `manyNames 33`, the list in
declaration order returns `rdkssaOK` after 32 calls, the first slot filled,
and the list that starts with the last name returns
`rdkssaAttributeNotFound` with no call and the first slot empty. -/
theorem C14_counterexample :
    (rdkssaHandleAPIHelper (fun _ => none) (some []) (some (slotTable []))).status =
      rdkssaAttributeNotFound ∧
    ((rdkssaHandleAPIHelper (fun _ => none) (some ["a".toList, "b".toList])
        (some (slotTable ["a".toList, "b".toList]))).status = rdkssaGeneralFailure ∧
      (rdkssaHandleAPIHelper (fun _ => none) (some ["=1".toList, "ab=2".toList])
        (some (slotTable [[], "ab".toList]))).status = rdkssaSyntaxError) ∧
    ((manyNames 33).Nodup ∧
      ((manyNames 33).getLast? = some (manyNames 33)[32] ∧
        ((manyNames 33)[32] :: (manyNames 33).dropLast).Perm (manyNames 33)) ∧
      (rdkssaHandleAPIHelper (fun _ => none) (some (manyNames 33))
        (some (slotTable (manyNames 33)))).status = rdkssaOK ∧
      (rdkssaHandleAPIHelper (fun _ => none) (some (manyNames 33))
        (some (slotTable (manyNames 33)))).calls.length = 32 ∧
      (rdkssaHandleAPIHelper (fun _ => none) (some (manyNames 33))
        (some (slotTable (manyNames 33)))).blob 0 = some (manyNames 33)[0] ∧
      (rdkssaHandleAPIHelper (fun _ => none)
        (some ((manyNames 33)[32] :: (manyNames 33).dropLast))
        (some (slotTable (manyNames 33)))).status = rdkssaAttributeNotFound ∧
      (rdkssaHandleAPIHelper (fun _ => none)
        (some ((manyNames 33)[32] :: (manyNames 33).dropLast))
        (some (slotTable (manyNames 33)))).calls = [] ∧
      (rdkssaHandleAPIHelper (fun _ => none)
        (some ((manyNames 33)[32] :: (manyNames 33).dropLast))
        (some (slotTable (manyNames 33)))).blob 0 = none) := by
  refine ⟨by decide, ⟨by decide, by decide⟩, by decide, ⟨by decide, ?_⟩, by decide, by decide,
    by decide, by decide, by decide, by decide⟩
  have h : manyNames 33 = (manyNames 33).dropLast ++ [(manyNames 33)[32]] := by decide
  conv_rhs => rw [h]
  exact (List.perm_append_singleton _ _).symm

/-- C14, amended: with a table of `N` distinct names, `1 ≤ N ≤ 32`, whose
handlers each record their value in their own slot of the context, and a list
of tokens of valid length (2 to 2048 characters) whose non-empty name portions
are the names of the table, each exactly once, `rdkssaHandleAPIHelper` gives
for every ordering of the list the same status `rdkssaOK`, the same call count
for each handler (one call each) and the same final context. -/
theorem C14_order_independent (names attrs attrs2 : List Str) (ctx : SlotCtx)
    (hN : 0 < names.length ∧ names.length ≤ MAX_SUPPORTED_ATTRIBUTES)
    (hdistinct : names.Nodup)
    (hall : (attrs.map nameOf).Perm names)
    (hvalid : ∀ t ∈ attrs, validLength t ∧ nameOf t ≠ [])
    (hperm : attrs2.Perm attrs) :
    (rdkssaHandleAPIHelper ctx (some attrs2) (some (slotTable names))).status = rdkssaOK ∧
    (rdkssaHandleAPIHelper ctx (some attrs) (some (slotTable names))).status = rdkssaOK ∧
    (rdkssaHandleAPIHelper ctx (some attrs2) (some (slotTable names))).blob =
      (rdkssaHandleAPIHelper ctx (some attrs) (some (slotTable names))).blob ∧
    (∀ i, callCount (rdkssaHandleAPIHelper ctx (some attrs2) (some (slotTable names))).calls i =
      callCount (rdkssaHandleAPIHelper ctx (some attrs) (some (slotTable names))).calls i) ∧
    (∀ i, i < names.length →
      callCount (rdkssaHandleAPIHelper ctx (some attrs) (some (slotTable names))).calls i = 1) := by
  have hlen : attrs.length = names.length := by
    have := hall.length_eq
    simpa using this
  have hlen2 : attrs2.length = names.length := by rw [hperm.length_eq, hlen]
  have hmem : ∀ t ∈ attrs, nameOf t ∈ names :=
    fun t ht => hall.mem_iff.1 (List.mem_map_of_mem _ ht)
  have hnames : ∀ n ∈ names, n.length ≤ MAX_ATTRIBUTE_NAME_LENGTH := by
    intro n hn
    obtain ⟨t, ht, rfl⟩ := List.mem_map.1 (hall.mem_iff.2 hn)
    exact le_trans (nameOf_length_le t) (hvalid t ht).1.2
  have hgood : ∀ t ∈ attrs, validLength t ∧ nameOf t ≠ [] ∧ nameOf t ∈ names :=
    fun t ht => ⟨(hvalid t ht).1, (hvalid t ht).2, hmem t ht⟩
  have hgood2 : ∀ t ∈ attrs2, validLength t ∧ nameOf t ≠ [] ∧ nameOf t ∈ names :=
    fun t ht => hgood t (hperm.mem_iff.1 ht)
  have hne : attrs ≠ [] := by
    intro e
    rw [e] at hlen
    simp at hlen
    omega
  have hne2 : attrs2 ≠ [] := by
    intro e
    rw [e] at hlen2
    simp at hlen2
    omega
  have hnd : (attrs.map nameOf).Nodup := (hall.nodup_iff).2 hdistinct
  have r1 := handleLoop_slotTable names hnames hN.2 attrs 0 ctx rdkssaAttributeNotFound
    (by omega) hgood
  have r2 := handleLoop_slotTable names hnames hN.2 attrs2 0 ctx rdkssaAttributeNotFound
    (by omega) hgood2
  unfold rdkssaHandleAPIHelper
  simp only [r1, r2, hne, hne2, if_false]
  refine ⟨trivial, trivial, ?_, ?_, ?_⟩
  · apply List.Perm.foldl_eq' hperm
    intro x hx y hy z
    by_cases hs : slotOf names (nameOf x) = slotOf names (nameOf y)
    · have hxy : nameOf x = nameOf y :=
        slotOf_inj names _ _ (hgood2 x hx).2.2 (hgood2 y hy).2.2 hs
      have : x = y :=
        List.inj_on_of_nodup_map hnd (hperm.mem_iff.1 hx) (hperm.mem_iff.1 hy) hxy
      rw [this]
    · exact Function.update_comm hs _ _ z
  · intro i
    unfold callCount
    exact ((hperm.map _).map _).count_eq i
  · intro i hi
    unfold callCount
    have hmap : (attrs.map (fun t => (slotOf names (nameOf t), valueOf t))).map Prod.fst =
        (attrs.map nameOf).map (slotOf names) := by
      simp [List.map_map, Function.comp]
    rw [hmap, (hall.map (slotOf names)).count_eq, slotOf_map names hdistinct]
    exact List.count_eq_one_of_mem (List.nodup_range _) (List.mem_range.2 hi)

/-- C14 on the unit test: the four names `ATTR1` to `ATTR4`, the list in
declaration order and the scrambled list `attArray`. -/
theorem C14_order_independent_witness :
    (rdkssaHandleAPIHelper (fun _ => none) (some attArray)
      (some (slotTable utHndNames))).status = rdkssaOK ∧
    (rdkssaHandleAPIHelper (fun _ => none) (some attArrayDeclared)
      (some (slotTable utHndNames))).status = rdkssaOK ∧
    (rdkssaHandleAPIHelper (fun _ => none) (some attArray) (some (slotTable utHndNames))).blob =
      (rdkssaHandleAPIHelper (fun _ => none) (some attArrayDeclared)
        (some (slotTable utHndNames))).blob ∧
    (∀ i, callCount (rdkssaHandleAPIHelper (fun _ => none) (some attArray)
        (some (slotTable utHndNames))).calls i =
      callCount (rdkssaHandleAPIHelper (fun _ => none) (some attArrayDeclared)
        (some (slotTable utHndNames))).calls i) ∧
    (∀ i, i < utHndNames.length →
      callCount (rdkssaHandleAPIHelper (fun _ => none) (some attArrayDeclared)
        (some (slotTable utHndNames))).calls i = 1) :=
  C14_order_independent utHndNames attArrayDeclared attArray (fun _ => none)
    (by decide) (by decide)
    (by
      have h : attArrayDeclared.map nameOf = utHndNames := by decide
      rw [h])
    (by decide) (by decide)

/-! ## Order of the table -/

theorem tableEntries_append {β : Type} :
    ∀ (t tail : List (AttributeHandlerStruct β)),
    (∀ e ∈ t, e.attributeNameStr ≠ none) →
    (∀ e, tail.head? = some e → e.attributeNameStr = none) →
    tableEntries (t ++ tail) = t := by
  intro t
  induction t with
  | nil =>
    intro tail _ htail
    cases tail with
    | nil => rfl
    | cons x xs =>
      have := htail x rfl
      simp [tableEntries, List.takeWhile_cons, this]
  | cons x xs ih =>
    intro tail hnamed htail
    have hx : x.attributeNameStr.isSome = true := by
      have := hnamed x (List.mem_cons_self _ _)
      cases h : x.attributeNameStr with
      | none => exact absurd h this
      | some _ => rfl
    have := ih tail (fun e he => hnamed e (List.mem_cons_of_mem _ he)) htail
    unfold tableEntries at this ⊢
    simp only [List.cons_append, List.takeWhile_cons, hx, if_true, this]

/-- In a table of at most 32 named entries whose names differ within the
first 2048 characters, an entry that has a handler and a matching name is the
one the scan calls, wherever it stands. -/
theorem attributeLoop_unique {β : Type} (blob : β) (token : Str) (eq : Option Nat)
    (attrPtr : Str) (t tail : List (AttributeHandlerStruct β))
    (hsize : t.length ≤ MAX_SUPPORTED_ATTRIBUTES)
    (hnamed : ∀ e ∈ t, e.attributeNameStr ≠ none)
    (hdistinct : (t.map nameKey).Nodup)
    (e : AttributeHandlerStruct β) (nm : Str) (h : AttributeHandlerFuncPtr β)
    (he : e ∈ t) (hnm : e.attributeNameStr = some nm) (hop : e.attributeOperation = some h)
    (hm : namesMatch nm attrPtr) :
    ∃ k, (t ++ tail)[k]? = some e ∧
      attributeLoop blob token eq attrPtr 0 (t ++ tail) =
        ⟨(h blob (match eq with | some k => token.drop (k + 1) | none => attrPtr)).1,
         (h blob (match eq with | some k => token.drop (k + 1) | none => attrPtr)).2,
         [(k, match eq with | some k => token.drop (k + 1) | none => attrPtr)]⟩ := by
  obtain ⟨pre, post, rfl⟩ := List.append_of_mem he
  have hkey : nameKey e ∉ pre.map nameKey := by
    rw [List.map_append, List.map_cons] at hdistinct
    have := (List.nodup_append.1 hdistinct).2.2
    intro hin
    exact this hin (List.mem_cons_self _ _)
  have hpre : ∀ x ∈ pre, ∃ n, x.attributeNameStr = some n ∧
      (x.attributeOperation = none ∨ ¬ namesMatch n attrPtr) := by
    intro x hx
    have hxn := hnamed x (List.mem_append_left _ hx)
    cases hxe : x.attributeNameStr with
    | none => exact absurd hxe hxn
    | some n =>
      refine ⟨n, rfl, ?_⟩
      by_cases hmx : namesMatch n attrPtr
      · exfalso
        apply hkey
        have : nameKey x = nameKey e := by
          unfold nameKey
          rw [hxe, hnm]
          unfold namesMatch at hmx hm
          simp only [Option.map_some', hmx, hm]
        rw [← this]
        exact List.mem_map_of_mem _ hx
      · exact Or.inr hmx
  have hlen : 0 + pre.length < MAX_SUPPORTED_ATTRIBUTES := by
    simp only [List.length_append, List.length_cons] at hsize
    omega
  have := attributeLoop_first_match blob token eq attrPtr e nm h (post ++ tail) hnm hm hop pre 0
    hpre hlen
  rw [Nat.zero_add] at this
  refine ⟨pre.length, ?_, ?_⟩
  · rw [List.append_assoc, List.cons_append,
      List.getElem?_append_right (Nat.le_refl _), Nat.sub_self]
    exact List.getElem?_cons_zero
  · rw [List.append_assoc, List.cons_append]
    exact this

theorem zName_ne {n m : Nat} (h : n ≠ m) : zName n ≠ zName m := by
  intro e
  have := congrArg List.length e
  rw [zName_length, zName_length] at this
  exact h this

/-- The dispatch of the 2048-character token on a table whose first entry has
a name of at least 2048 characters `z`: that entry is called. -/
theorem overlong_dispatch_any (n : Nat) (hn : 2048 ≤ n) (num : Nat) (st : rdkssaStatus_t)
    (post : List (AttributeHandlerStruct (List (Nat × Str)))) :
    attributeHandlerHelper [] (some (zName 2048)) (some (tagEntry (zName n) num st :: post)) =
      ⟨[(num, zName 2048)], st, [(0, zName 2048)]⟩ := by
  rw [attributeHandlerHelper_eq_loop _ _ _ validLength_zName
    (by rw [nameOf_zName]; exact zName_ne_nil)]
  have hmatch : namesMatch (zName n) (nameOf (zName 2048)) := by
    rw [nameOf_zName]
    unfold namesMatch MAX_ATTRIBUTE_NAME_LENGTH
    rw [take_zName 2048 n hn, take_zName 2048 2048 (by omega)]
  have := attributeLoop_first_match ([] : List (Nat × Str)) (zName 2048)
    (strchr (zName 2048) VALUE_DELIM) (nameOf (zName 2048)) (tagEntry (zName n) num st)
    (zName n) (tagHandler num st) post rfl hmatch rfl [] 0 (by simp)
    (by simp [MAX_SUPPORTED_ATTRIBUTES])
  simp only [List.nil_append, List.length_nil, Nat.add_zero] at this
  rw [this, handler_argument, valueOf_zName]
  simp only [tagHandler, List.nil_append]

/-- C15 does not hold as stated: the two entries of the table have distinct
names, of 2049 and of 2050 characters, and the 2048-character token calls
the handler of whichever entry comes first. -/
theorem C15_counterexample :
    zName 2049 ≠ zName 2050 ∧
    [tagEntry (zName 2049) 1 rdkssaOK, tagEntry (zName 2050) 2 rdkssaOK].Perm
      [tagEntry (zName 2050) 2 rdkssaOK, tagEntry (zName 2049) 1 rdkssaOK] ∧
    attributeHandlerHelper [] (some (zName 2048))
        (some [tagEntry (zName 2049) 1 rdkssaOK, tagEntry (zName 2050) 2 rdkssaOK]) =
      ⟨[(1, zName 2048)], rdkssaOK, [(0, zName 2048)]⟩ ∧
    attributeHandlerHelper [] (some (zName 2048))
        (some [tagEntry (zName 2050) 2 rdkssaOK, tagEntry (zName 2049) 1 rdkssaOK]) =
      ⟨[(2, zName 2048)], rdkssaOK, [(0, zName 2048)]⟩ :=
  ⟨zName_ne (by decide), List.Perm.swap _ _ _,
   overlong_dispatch_any 2049 (by decide) 1 rdkssaOK _,
   overlong_dispatch_any 2050 (by decide) 2 rdkssaOK _⟩

/-- C15, amended: for a table of at most 32 entries whose names are pairwise
distinct within their first 2048 characters (as pairwise distinct names of at
most 2048 characters are), the result of `attributeHandlerHelper` is the same
for every permutation of the entries of the table: the same status, the same
state, and the same entry called with the same string. The table is the
list of entries `t1`, or its permutation `t2`, followed by the closing `NULL`
entry. -/
theorem C15_table_order {β : Type} (blob : β) (attributeName : Option Str)
    (t1 t2 tail : List (AttributeHandlerStruct β))
    (hperm : t1.Perm t2)
    (hsize : t1.length ≤ MAX_SUPPORTED_ATTRIBUTES)
    (hnamed : ∀ e ∈ t1, e.attributeNameStr ≠ none)
    (hdistinct : (t1.map nameKey).Nodup)
    (htail : ∀ e, tail.head? = some e → e.attributeNameStr = none) :
    (attributeHandlerHelper blob attributeName (some (t1 ++ tail))).status =
      (attributeHandlerHelper blob attributeName (some (t2 ++ tail))).status ∧
    (attributeHandlerHelper blob attributeName (some (t1 ++ tail))).blob =
      (attributeHandlerHelper blob attributeName (some (t2 ++ tail))).blob ∧
    (attributeHandlerHelper blob attributeName (some (t1 ++ tail))).calls.map
        (fun c => ((t1 ++ tail)[c.1]?, c.2)) =
      (attributeHandlerHelper blob attributeName (some (t2 ++ tail))).calls.map
        (fun c => ((t2 ++ tail)[c.1]?, c.2)) := by
  cases attributeName with
  | none => simp [attributeHandlerHelper]
  | some token =>
    by_cases hlen : validLength token
    · by_cases hname : nameOf token = []
      · rw [attributeHandlerHelper_leading_eq blob token _ hlen hname,
          attributeHandlerHelper_leading_eq blob token _ hlen hname]
        simp
      · rw [attributeHandlerHelper_eq_loop blob token _ hlen hname,
          attributeHandlerHelper_eq_loop blob token _ hlen hname]
        have hsize2 : t2.length ≤ MAX_SUPPORTED_ATTRIBUTES := by
          rw [← hperm.length_eq]
          exact hsize
        have hnamed2 : ∀ e ∈ t2, e.attributeNameStr ≠ none :=
          fun e he => hnamed e (hperm.mem_iff.2 he)
        have hdistinct2 : (t2.map nameKey).Nodup := ((hperm.map nameKey).nodup_iff).1 hdistinct
        by_cases hex : ∃ e ∈ t1, ∃ nm h, e.attributeNameStr = some nm ∧
            e.attributeOperation = some h ∧ namesMatch nm (nameOf token)
        · obtain ⟨e, he, nm, h, hnm, hop, hm⟩ := hex
          obtain ⟨k1, hk1, hr1⟩ := attributeLoop_unique blob token (strchr token VALUE_DELIM)
            (nameOf token) t1 tail hsize hnamed hdistinct e nm h he hnm hop hm
          obtain ⟨k2, hk2, hr2⟩ := attributeLoop_unique blob token (strchr token VALUE_DELIM)
            (nameOf token) t2 tail hsize2 hnamed2 hdistinct2 e nm h (hperm.mem_iff.1 he) hnm hop hm
          rw [hr1, hr2]
          simp [hk1, hk2]
        · have hno1 : ∀ x ∈ tableEntries (t1 ++ tail), ∀ nm, x.attributeNameStr = some nm →
              x.attributeOperation ≠ none → ¬ namesMatch nm (nameOf token) := by
            rw [tableEntries_append t1 tail hnamed htail]
            intro x hx nm hnm hop hm
            cases hh : x.attributeOperation with
            | none => exact hop hh
            | some h => exact hex ⟨x, hx, nm, h, hnm, hh, hm⟩
          have hno2 : ∀ x ∈ tableEntries (t2 ++ tail), ∀ nm, x.attributeNameStr = some nm →
              x.attributeOperation ≠ none → ¬ namesMatch nm (nameOf token) := by
            rw [tableEntries_append t2 tail hnamed2 htail]
            intro x hx nm hnm hop hm
            cases hh : x.attributeOperation with
            | none => exact hop hh
            | some h => exact hex ⟨x, hperm.mem_iff.2 hx, nm, h, hnm, hh, hm⟩
          rw [attributeLoop_no_match blob token _ _ _ 0 hno1,
            attributeLoop_no_match blob token _ _ _ 0 hno2]
          simp
    · have hs : token.length < MIN_ATTRIBUTE_NAME_LENGTH ∨
          MAX_ATTRIBUTE_NAME_LENGTH < token.length := by
        unfold validLength at hlen
        omega
      rw [attributeHandlerHelper_screen blob token _ hs,
        attributeHandlerHelper_screen blob token _ hs]
      simp

/-- C15 on the unit test: the four entries of `utAttTable2` and the same
entries in reverse order give the same result for the token `blue=delta`. -/
theorem C15_table_order_witness :
    (attributeHandlerHelper [] (some "blue=delta".toList)
        (some (utEntries2 ++ [⟨none, none⟩]))).status =
      (attributeHandlerHelper [] (some "blue=delta".toList)
        (some (utEntries2.reverse ++ [⟨none, none⟩]))).status ∧
    (attributeHandlerHelper [] (some "blue=delta".toList)
        (some (utEntries2 ++ [⟨none, none⟩]))).blob =
      (attributeHandlerHelper [] (some "blue=delta".toList)
        (some (utEntries2.reverse ++ [⟨none, none⟩]))).blob ∧
    (attributeHandlerHelper [] (some "blue=delta".toList)
        (some (utEntries2 ++ [⟨none, none⟩]))).calls.map
        (fun c => ((utEntries2 ++ [⟨none, none⟩])[c.1]?, c.2)) =
      (attributeHandlerHelper [] (some "blue=delta".toList)
        (some (utEntries2.reverse ++ [⟨none, none⟩]))).calls.map
        (fun c => ((utEntries2.reverse ++ [⟨none, none⟩])[c.1]?, c.2)) :=
  C15_table_order [] (some "blue=delta".toList) utEntries2 utEntries2.reverse [⟨none, none⟩]
    (List.reverse_perm utEntries2).symm (by decide) (by decide) (by decide)
    (by intro e he; simp at he; rw [← he])

/-! ## The claims on the command line and its providers -/

theorem parseProvCmds_head_length {s verb : Str} {attrs : List Str}
    (h : parseProvCmds (some s) = some (verb :: attrs)) : verb.length ≤ s.length := by
  obtain ⟨rest, _, _, h3, _⟩ := parseProvCmds_shape h
  have hl := congrArg List.length h3
  by_cases ha : attrs = []
  · subst ha
    simp [List.intercalate] at hl
    omega
  · rw [intercalate_cons_of_ne_nil _ _ ha] at hl
    simp only [List.length_append] at hl
    omega

/-- The tokenizer on one segment without delimiter that is closed by `}`. -/
theorem parseProvCmds_single (s : Str) (h1 : ATTRIB_DELIM ∉ s) (h2 : COMMAND_TAIL ∉ s)
    (h3 : VALUE_DELIM ∉ s) : parseProvCmds (some (s ++ [COMMAND_TAIL])) = some [s] := by
  have hc : strchr (s ++ [COMMAND_TAIL]) ATTRIB_DELIM = none := by
    rw [strchr_eq_none]
    simp only [List.mem_append, List.mem_singleton, not_or]
    exact ⟨h1, by decide⟩
  have ht : strchr (s ++ [COMMAND_TAIL]) COMMAND_TAIL = some s.length := strchr_append h2
  have hv : strchr (s ++ [COMMAND_TAIL]) VALUE_DELIM = none := by
    rw [strchr_eq_none]
    simp only [List.mem_append, List.mem_singleton, not_or]
    exact ⟨h3, by decide⟩
  have hd : findDelim (s ++ [COMMAND_TAIL]) = some s.length := by
    unfold findDelim
    rw [hc, ht]
  have hg : (s ++ [COMMAND_TAIL])[s.length]? = some COMMAND_TAIL := strchr_getElem? ht
  have hloop : parseLoop MAX_SUPPORTED_ATTRIBUTES (s ++ [COMMAND_TAIL]) 0 [] = some (1, [s]) := by
    have : MAX_SUPPORTED_ATTRIBUTES = 31 + 1 := rfl
    rw [this, parseLoop]
    simp only [hd, hv, Option.map_none', hg, ne_eq, not_true_eq_false, false_and, if_false,
      List.nil_append, Nat.zero_add, List.take_left']
    simp
  unfold parseProvCmds
  simp only [hloop]
  rfl

theorem processCmd_too_long (rdkssaMount : List Str → rdkssaStatus_t) (cmdStr : Str)
    (h : 2048 < cmdStr.length) :
    processCmd rdkssaMount (some cmdStr) = (rdkssaBadLength, []) := by
  have hscreen : MAX_ATTRIBUTE_NAME_LENGTH <
      strnlen cmdStr (MAX_ATTRIBUTE_NAME_LENGTH + 1) := by
    unfold strnlen MAX_ATTRIBUTE_NAME_LENGTH
    omega
  unfold processCmd
  simp only [hscreen, if_true]

/-- A command `{keyword=rest` of at most 2048 characters, the keyword without
`=`, is handed to `callProvider` as the keyword and the rest. -/
theorem processCmd_keyword (rdkssaMount : List Str → rdkssaStatus_t) (keyword rest : Str)
    (hk : VALUE_DELIM ∉ keyword)
    (hlen : (COMMAND_HEAD :: (keyword ++ VALUE_DELIM :: rest)).length ≤ 2048) :
    processCmd rdkssaMount (some (COMMAND_HEAD :: (keyword ++ VALUE_DELIM :: rest))) =
      callProvider rdkssaMount keyword (some rest) := by
  have hscreen : ¬ (MAX_ATTRIBUTE_NAME_LENGTH <
      strnlen (COMMAND_HEAD :: (keyword ++ VALUE_DELIM :: rest))
        (MAX_ATTRIBUTE_NAME_LENGTH + 1)) := by
    unfold strnlen MAX_ATTRIBUTE_NAME_LENGTH
    omega
  have hs : strchr (keyword ++ VALUE_DELIM :: rest) VALUE_DELIM = some keyword.length :=
    strchr_append hk
  unfold processCmd
  simp only [hscreen, if_false, ne_eq, not_true_eq_false, hs]
  simp

/-- What `callProvider` does once a provider of the registry is selected and
the tokenizer has returned the verb and the attributes. -/
theorem callProvider_selected (rdkssaMount : List Str → rdkssaStatus_t) (keyword rest verb : Str)
    (attrs : List Str) (wrapper : provWrapperFunc)
    (hfind : (providerWrapperTable rdkssaMount).find? (fun p => p.1 = keyword) =
      some (keyword, wrapper))
    (hparse : parseProvCmds (some rest) = some (verb :: attrs))
    (hlen : rest.length ≤ 2048) :
    callProvider rdkssaMount keyword (some rest) =
      ((wrapper verb attrs).1,
        [CliEvent.selected keyword, CliEvent.tokenizer rest,
          CliEvent.wrapper keyword verb attrs] ++ (wrapper verb attrs).2) := by
  have hv := parseProvCmds_head_length hparse
  have hscreen : ¬ (strnlen verb (MAX_ATTRIBUTE_NAME_LENGTH + 1) > MAX_ATTRIBUTE_NAME_LENGTH) := by
    unfold strnlen MAX_ATTRIBUTE_NAME_LENGTH
    omega
  unfold callProvider
  simp only [hfind, hparse, hscreen, if_false]

/-- C21: for every command `{MOUNT=` followed by a remainder, of at most 2048
characters in all, whose remainder is tokenized into a verb and the tokens
`a1`, ..., `an` (so the remainder starts with `verb,a1,...,an}`), `processCmd`
returns exactly the status of `rdkssaMount` on `[a1, ..., an]` when the verb is
`MOUNT`: the tokens after the verb are passed on as they are, in order; for
any other verb the wrapper returns `rdkssaNYIError` and `rdkssaMount` is not
called. -/
theorem C21_mount_forwarding (rdkssaMount : List Str → rdkssaStatus_t) (rest verb : Str)
    (attrs : List Str)
    (hlen : ("\x7bMOUNT=".toList ++ rest).length ≤ 2048)
    (hparse : parseProvCmds (some rest) = some (verb :: attrs)) :
    (∃ tail, rest = List.intercalate [ATTRIB_DELIM] (verb :: attrs) ++ COMMAND_TAIL :: tail) ∧
    (verb = "MOUNT".toList →
      processCmd rdkssaMount (some ("\x7bMOUNT=".toList ++ rest)) =
        (rdkssaMount attrs,
          [CliEvent.selected "MOUNT".toList, CliEvent.tokenizer rest,
            CliEvent.wrapper "MOUNT".toList verb attrs, CliEvent.mount attrs])) ∧
    (verb ≠ "MOUNT".toList →
      processCmd rdkssaMount (some ("\x7bMOUNT=".toList ++ rest)) =
        (rdkssaNYIError,
          [CliEvent.selected "MOUNT".toList, CliEvent.tokenizer rest,
            CliEvent.wrapper "MOUNT".toList verb attrs])) := by
  have hform : "\x7bMOUNT=".toList ++ rest =
      COMMAND_HEAD :: ("MOUNT".toList ++ VALUE_DELIM :: rest) := rfl
  have hrest : rest.length ≤ 2048 := by
    simp only [List.length_append] at hlen
    omega
  have hcall := callProvider_selected rdkssaMount "MOUNT".toList rest verb attrs
    (callMountProvider rdkssaMount) rfl hparse hrest
  have hproc := processCmd_keyword rdkssaMount "MOUNT".toList rest (by decide)
    (by rw [← hform]; exact hlen)
  rw [← hform] at hproc
  refine ⟨?_, ?_, ?_⟩
  · obtain ⟨tail, _, _, h3, _⟩ := parseProvCmds_shape hparse
    exact ⟨tail, h3⟩
  · intro hv
    rw [hproc, hcall]
    simp only [callMountProvider, if_pos hv]
    rfl
  · intro hv
    rw [hproc, hcall]
    simp only [callMountProvider, if_neg hv]
    rfl

/-- C21 on the command of the end-to-end scenario without its key, and on a
command whose verb is `UNMOUNT`. -/
theorem C21_mount_forwarding_witness :
    processCmd (rdkssaMountCli (sampleEnv 0))
        (some ("\x7bMOUNT=".toList ++
          "MOUNT,MOUNTPOINT=/nvram/rdkssa,PATH=/nvram/secure\x7d".toList)) =
      (rdkssaMountCli (sampleEnv 0)
          ["MOUNTPOINT=/nvram/rdkssa".toList, "PATH=/nvram/secure".toList],
        [CliEvent.selected "MOUNT".toList,
          CliEvent.tokenizer "MOUNT,MOUNTPOINT=/nvram/rdkssa,PATH=/nvram/secure\x7d".toList,
          CliEvent.wrapper "MOUNT".toList "MOUNT".toList
            ["MOUNTPOINT=/nvram/rdkssa".toList, "PATH=/nvram/secure".toList],
          CliEvent.mount ["MOUNTPOINT=/nvram/rdkssa".toList, "PATH=/nvram/secure".toList]]) ∧
    processCmd (rdkssaMountCli (sampleEnv 0))
        (some ("\x7bMOUNT=".toList ++ "UNMOUNT,A=b\x7d".toList)) =
      (rdkssaNYIError,
        [CliEvent.selected "MOUNT".toList, CliEvent.tokenizer "UNMOUNT,A=b\x7d".toList,
          CliEvent.wrapper "MOUNT".toList "UNMOUNT".toList ["A=b".toList]]) :=
  ⟨(C21_mount_forwarding _ _ "MOUNT".toList
      ["MOUNTPOINT=/nvram/rdkssa".toList, "PATH=/nvram/secure".toList]
      (by decide) (by decide)).2.1 rfl,
   (C21_mount_forwarding _ _ "UNMOUNT".toList ["A=b".toList]
      (by decide) (by decide)).2.2 (by decide)⟩

theorem find_provider (rdkssaMount : List Str → rdkssaStatus_t) (keyword : Str)
    (h : keyword ∈ providerKeywords) :
    ∃ wrapper, (providerWrapperTable rdkssaMount).find? (fun p => p.1 = keyword) =
      some (keyword, wrapper) := by
  simp only [providerKeywords, List.mem_cons, List.mem_singleton, List.not_mem_nil,
    or_false] at h
  rcases h with rfl | rfl | rfl | rfl
  · exact ⟨_, rfl⟩
  · exact ⟨_, rfl⟩
  · exact ⟨_, rfl⟩
  · exact ⟨_, rfl⟩

/-- C22: `callProvider` returns `rdkssaBadPointer` for a null command
remainder; otherwise `rdkssaProviderNotFound` when the keyword is not in the
registry; otherwise `rdkssaSyntaxError` when the tokenizer fails on the
remainder. In the first two cases nothing has been done, in the third the
provider was selected and the tokenizer called: in none of them a wrapper is
called. -/
theorem C22_callProvider_failures :
    (∀ (rdkssaMount : List Str → rdkssaStatus_t) (theProv : Str),
      callProvider rdkssaMount theProv none = (rdkssaBadPointer, [])) ∧
    (∀ (rdkssaMount : List Str → rdkssaStatus_t) (theProv provCmds : Str),
      theProv ∉ providerKeywords →
      callProvider rdkssaMount theProv (some provCmds) = (rdkssaProviderNotFound, [])) ∧
    (∀ (rdkssaMount : List Str → rdkssaStatus_t) (theProv provCmds : Str),
      theProv ∈ providerKeywords → parseProvCmds (some provCmds) = none →
      callProvider rdkssaMount theProv (some provCmds) =
        (rdkssaSyntaxError, [CliEvent.selected theProv, CliEvent.tokenizer provCmds])) := by
  refine ⟨fun _ _ => rfl, ?_, ?_⟩
  · intro rdkssaMount theProv provCmds h
    exact callProvider_not_found rdkssaMount theProv provCmds h
  · intro rdkssaMount theProv provCmds h hparse
    obtain ⟨wrapper, hw⟩ := find_provider rdkssaMount theProv h
    unfold callProvider
    simp only [hw, hparse]

/-- C22 on a null remainder, on the keyword `BOGUS`, and on the keyword
`MOUNT` with a remainder that has no closing bracket. -/
theorem C22_callProvider_failures_witness :
    callProvider (fun _ => rdkssaOK) "MOUNT".toList none = (rdkssaBadPointer, []) ∧
    callProvider (fun _ => rdkssaOK) "BOGUS".toList (some "x\x7d".toList) =
      (rdkssaProviderNotFound, []) ∧
    callProvider (fun _ => rdkssaOK) "MOUNT".toList (some "MOUNT,A=b".toList) =
      (rdkssaSyntaxError,
        [CliEvent.selected "MOUNT".toList, CliEvent.tokenizer "MOUNT,A=b".toList]) :=
  ⟨C22_callProvider_failures.1 _ _,
   C22_callProvider_failures.2.1 _ _ _ (by decide),
   C22_callProvider_failures.2.2 _ _ _ (by decide) (by decide)⟩

/-- C23 does not hold as stated: the command `{STOR=`, 2048 characters `z`,
`}` has the provider keyword `STOR` and a remainder that is tokenized
successfully, and `processCmd` returns `rdkssaBadLength`, the command being
longer than 2048 characters. -/
theorem C23_counterexample :
    parseProvCmds (some (zName 2048 ++ [COMMAND_TAIL])) = some [zName 2048] ∧
    processCmd (fun _ => rdkssaOK)
        (some (COMMAND_HEAD :: ("STOR".toList ++ VALUE_DELIM :: (zName 2048 ++ [COMMAND_TAIL])))) =
      (rdkssaBadLength, []) ∧
    rdkssaBadLength ≠ rdkssaNYIError := by
  have hz : ∀ c : Char, c ≠ 'z' → c ∉ zName 2048 := by
    intro c hc hm
    unfold zName at hm
    exact hc (List.mem_replicate.1 hm).2
  refine ⟨parseProvCmds_single _ (hz _ (by decide)) (hz _ (by decide)) (hz _ (by decide)),
    ?_, by decide⟩
  apply processCmd_too_long
  simp only [List.length_cons, List.length_append, zName_length]
  decide

/-- C23, amended: for every command of at most 2048 characters whose provider
keyword is `STOR`, `CA` or `IDENT` and whose remainder tokenizes successfully,
`processCmd` returns `rdkssaNYIError`, a status different from `rdkssaOK`,
whatever the verb and the attributes are; `rdkssaMount` is not called. -/
theorem C23_not_yet_implemented (rdkssaMount : List Str → rdkssaStatus_t)
    (keyword rest : Str) (toks : List Str)
    (hk : keyword ∈ ["STOR".toList, "CA".toList, "IDENT".toList])
    (hlen : (COMMAND_HEAD :: (keyword ++ VALUE_DELIM :: rest)).length ≤ 2048)
    (hparse : parseProvCmds (some rest) = some toks) :
    (processCmd rdkssaMount (some (COMMAND_HEAD :: (keyword ++ VALUE_DELIM :: rest)))).1 =
      rdkssaNYIError ∧
    rdkssaNYIError ≠ rdkssaOK ∧
    (∀ a, CliEvent.mount a ∉
      (processCmd rdkssaMount (some (COMMAND_HEAD :: (keyword ++ VALUE_DELIM :: rest)))).2) := by
  obtain ⟨_, hne, _⟩ := parseProvCmds_shape hparse
  obtain ⟨verb, attrs, rfl⟩ := List.exists_cons_of_ne_nil hne
  have hrest : rest.length ≤ 2048 := by
    simp only [List.length_cons, List.length_append] at hlen
    omega
  simp only [List.mem_cons, List.mem_singleton, List.not_mem_nil, or_false] at hk
  have hkd : VALUE_DELIM ∉ keyword := by
    rcases hk with rfl | rfl | rfl <;> decide
  rw [processCmd_keyword rdkssaMount keyword rest hkd hlen]
  rcases hk with rfl | rfl | rfl
  · rw [callProvider_selected rdkssaMount "STOR".toList rest verb attrs callStorProvider rfl hparse hrest]
    exact ⟨rfl, by decide, by intro a; simp [callStorProvider]⟩
  · rw [callProvider_selected rdkssaMount "CA".toList rest verb attrs callCAProvider rfl hparse hrest]
    exact ⟨rfl, by decide, by intro a; simp [callCAProvider]⟩
  · rw [callProvider_selected rdkssaMount "IDENT".toList rest verb attrs callIdentProvider rfl hparse hrest]
    exact ⟨rfl, by decide, by intro a; simp [callIdentProvider]⟩

/-- C23 on the commands `{IDENT=MACADDR}` and `{CA=CREATE=my/path,EXPIR=3y}`
of the documentation. -/
theorem C23_not_yet_implemented_witness :
    ((processCmd (fun _ => rdkssaOK)
        (some (COMMAND_HEAD :: ("IDENT".toList ++ VALUE_DELIM :: "MACADDR\x7d".toList)))).1 =
      rdkssaNYIError ∧
    rdkssaNYIError ≠ rdkssaOK ∧
    (∀ a, CliEvent.mount a ∉
      (processCmd (fun _ => rdkssaOK)
        (some (COMMAND_HEAD :: ("IDENT".toList ++ VALUE_DELIM :: "MACADDR\x7d".toList)))).2)) ∧
    ((processCmd (fun _ => rdkssaOK)
        (some (COMMAND_HEAD ::
          ("CA".toList ++ VALUE_DELIM :: "CREATE=my/path,EXPIR=3y\x7d".toList)))).1 =
      rdkssaNYIError ∧
    rdkssaNYIError ≠ rdkssaOK ∧
    (∀ a, CliEvent.mount a ∉
      (processCmd (fun _ => rdkssaOK)
        (some (COMMAND_HEAD ::
          ("CA".toList ++ VALUE_DELIM :: "CREATE=my/path,EXPIR=3y\x7d".toList)))).2)) :=
  ⟨C23_not_yet_implemented _ "IDENT".toList "MACADDR\x7d".toList ["MACADDR".toList]
      (by decide) (by decide) (by decide),
   C23_not_yet_implemented _ "CA".toList "CREATE=my/path,EXPIR=3y\x7d".toList
      ["CREATE=my/path".toList, "EXPIR=3y".toList] (by decide) (by decide) (by decide)⟩

/-! ## The claims on the child-process channel -/

/-- C29 fails in the code: `rdkssaExecvPipeOutput` calls the callback and drops
what it returns. With a `write` that accepts no byte, `mountWriteKeyCallback`
returns `rdkssaFileError` for the three key bytes, the child then exits
normally with code 0, and `rdkssaExecvPipeOutput` returns `rdkssaOK`, as does
`rdkssaMount` on the attribute list of the end-to-end scenario; in general the
status returned does not depend on the callback at all. -/
theorem C29_callback_status_dropped :
    (mountWriteKeyCallback shortWriteExec.write keyedParams).2 = rdkssaFileError ∧
    rdkssaExecvPipeOutput shortWriteExec (some (mountArgv keyedParams)) keyedParams
        (some mountWriteKeyCallback) =
      ⟨rdkssaOK, true, some [1, 2, 3], some rdkssaFileError⟩ ∧
    (rdkssaMount shortWriteEnv none (some scenarioAttributes)).status = rdkssaOK ∧
    (rdkssaMount shortWriteEnv none (some scenarioAttributes)).channel =
      [(mountArgv keyedParams, ⟨rdkssaOK, true, some [1, 2, 3], some rdkssaFileError⟩)] ∧
    (∀ (β : Type) (env : ExecEnv) (exargv : Option (List Str)) (callerBlob : β)
      (cb1 cb2 : rdkssaIOCallback β),
      (rdkssaExecvPipeOutput env exargv callerBlob (some cb1)).status =
        (rdkssaExecvPipeOutput env exargv callerBlob (some cb2)).status) := by
  refine ⟨by decide, by decide, by decide, by decide, ?_⟩
  intro β env exargv callerBlob cb1 cb2
  unfold rdkssaExecvPipeOutput
  rcases exargv with _ | ⟨_ | ⟨a, l⟩⟩
  · rfl
  · rfl
  · simp only
    by_cases hp : env.pipeOk = false
    · simp only [hp, if_true]
    · simp only [hp, if_false]
      cases env.fork with
      | none => rfl
      | some p =>
        simp only
        split_ifs <;> rfl

/-- C30: with a non-empty argument vector, a callback, a pipe and a child of
process id `p + 1`, `rdkssaExecvPipeOutput` returns the exit code of the child
when `waitpid` returns the child and the child has exited normally, so it
returns `rdkssaOK` exactly when that exit code is 0; it returns a status other
than `rdkssaOK` when `waitpid` fails (-1), returns anything else than the
child (1), or the child has terminated abnormally (the process id). -/
theorem C30_exit_status {β : Type} (env : ExecEnv) (arg0 : Str) (args : List Str)
    (callerBlob : β) (callback : rdkssaIOCallback β) (p : Nat)
    (hpipe : env.pipeOk = true) (hfork : env.fork = some p) :
    (∀ code, env.waitRet = ((p + 1 : Nat) : Int) → env.waitStatus = WaitStatus.exited code →
      (rdkssaExecvPipeOutput env (some (arg0 :: args)) callerBlob (some callback)).status =
        WEXITSTATUS (WaitStatus.exited code) ∧
      ((rdkssaExecvPipeOutput env (some (arg0 :: args)) callerBlob (some callback)).status =
        rdkssaOK ↔ WEXITSTATUS (WaitStatus.exited code) = 0)) ∧
    (env.waitRet = -1 →
      (rdkssaExecvPipeOutput env (some (arg0 :: args)) callerBlob (some callback)).status = -1) ∧
    (env.waitRet ≠ -1 → env.waitRet ≠ ((p + 1 : Nat) : Int) →
      (rdkssaExecvPipeOutput env (some (arg0 :: args)) callerBlob (some callback)).status = 1) ∧
    (env.waitRet = ((p + 1 : Nat) : Int) → env.waitStatus = WaitStatus.other →
      (rdkssaExecvPipeOutput env (some (arg0 :: args)) callerBlob (some callback)).status =
        ((p + 1 : Nat) : Int)) ∧
    ((rdkssaExecvPipeOutput env (some (arg0 :: args)) callerBlob (some callback)).status =
        rdkssaOK ↔
      env.waitRet = ((p + 1 : Nat) : Int) ∧
        ∃ code, env.waitStatus = WaitStatus.exited code ∧ code % 256 = 0) := by
  have hpos : ((p + 1 : Nat) : Int) ≠ -1 := by omega
  have hpos0 : ((p + 1 : Nat) : Int) ≠ 0 := by omega
  have hshape : (rdkssaExecvPipeOutput env (some (arg0 :: args)) callerBlob (some callback)).status =
      if env.waitRet = -1 then env.waitRet
      else if env.waitRet ≠ ((p + 1 : Nat) : Int) then 1
      else if WIFEXITED env.waitStatus then WEXITSTATUS env.waitStatus
      else env.waitRet := by
    unfold rdkssaExecvPipeOutput
    simp only [hpipe, hfork, Bool.true_eq_false, if_false]
    split_ifs <;> rfl
  rw [hshape]
  refine ⟨?_, ?_, ?_, ?_, ?_⟩
  · intro code hw hs
    rw [hw, hs]
    simp only [hpos, if_false, ne_eq, not_true_eq_false, WIFEXITED, if_true]
    exact ⟨trivial, Iff.rfl⟩
  · intro hw
    rw [if_pos hw, hw]
  · intro h1 h2
    rw [if_neg h1, if_pos h2]
  · intro hw hs
    rw [hw, hs]
    simp only [hpos, if_false, ne_eq, not_true_eq_false, WIFEXITED, Bool.false_eq_true]
  · by_cases h1 : env.waitRet = -1
    · rw [if_pos h1, h1]
      constructor
      · intro h
        exact absurd h (by decide)
      · rintro ⟨h, _⟩
        exact absurd h.symm hpos
    · rw [if_neg h1]
      by_cases h2 : env.waitRet = ((p + 1 : Nat) : Int)
      · rw [if_neg (not_not.2 h2)]
        cases hs : env.waitStatus with
        | exited code =>
          simp only [WIFEXITED, if_true, WEXITSTATUS, rdkssaOK, h2, true_and,
            WaitStatus.exited.injEq, exists_eq_left']
          exact Int.natCast_eq_zero
        | other =>
          simp only [WIFEXITED, Bool.false_eq_true, if_false, h2, rdkssaOK, true_and]
          constructor
          · intro h
            exact absurd h hpos0
          · rintro ⟨code, hc, _⟩
            cases hc
      · rw [if_pos h2]
        constructor
        · intro h
          exact absurd h (by decide)
        · rintro ⟨h, _⟩
          exact absurd h h2

/-- C30 on a child of process id 42 that exits normally with code 3. -/
theorem C30_exit_status_witness :
    (rdkssaExecvPipeOutput (sampleEnv 3).exec (some (mountArgv keyedParams)) keyedParams
        (some mountWriteKeyCallback)).status = WEXITSTATUS (WaitStatus.exited 3) ∧
    ((rdkssaExecvPipeOutput (sampleEnv 3).exec (some (mountArgv keyedParams)) keyedParams
        (some mountWriteKeyCallback)).status = rdkssaOK ↔
      WEXITSTATUS (WaitStatus.exited 3) = 0) :=
  (C30_exit_status (sampleEnv 3).exec "/usr/bin/ecfsMount".toList
    [keyedParams.mountPoint, keyedParams.mountPath] keyedParams mountWriteKeyCallback 41
    rfl rfl).1 3 (by decide) rfl

/-! ## The Mount provider: one token, then the list -/

/-- What the dispatch of one token over the table of the Mount provider is,
by the screens of `attributeHandlerHelper` and the name portion of the
token. -/
theorem mount_dispatch (files : FileSystem) (w : MountWorld) (t : Str) :
    attributeHandlerHelper w (some t) (some (mountHandlers files)) =
      if ¬ validLength t then ⟨w, rdkssaGeneralFailure, []⟩
      else if nameOf t = [] then ⟨w, rdkssaSyntaxError, []⟩
      else if nameOf t = "MOUNTPOINT".toList then
        ⟨(rdkssaMountMountpoint w (valueOf t)).1, (rdkssaMountMountpoint w (valueOf t)).2,
          [(0, valueOf t)]⟩
      else if nameOf t = "PATH".toList then
        ⟨(rdkssaMountPath w (valueOf t)).1, (rdkssaMountPath w (valueOf t)).2,
          [(1, valueOf t)]⟩
      else if nameOf t = "KEY".toList then
        ⟨(rdkssaMountKey files w (valueOf t)).1, (rdkssaMountKey files w (valueOf t)).2,
          [(2, valueOf t)]⟩
      else if nameOf t = "PARTITION".toList then
        ⟨(rdkssaMountPartition w (valueOf t)).1, (rdkssaMountPartition w (valueOf t)).2,
          [(3, valueOf t)]⟩
      else ⟨w, rdkssaAttributeNotFound, []⟩ := by
  by_cases hlen : validLength t
  · rw [if_neg (not_not.2 hlen)]
    by_cases hempty : nameOf t = []
    · rw [if_pos hempty]
      exact attributeHandlerHelper_leading_eq w t _ hlen hempty
    · rw [if_neg hempty, attributeHandlerHelper_eq_loop w t _ hlen hempty]
      have harg := handler_argument t
      have hshort : (nameOf t).length ≤ MAX_ATTRIBUTE_NAME_LENGTH :=
        Nat.le_trans (nameOf_length_le t) hlen.2
      by_cases h0 : nameOf t = "MOUNTPOINT".toList
      · rw [if_pos h0]
        have := attributeLoop_first_match w t (strchr t VALUE_DELIM) (nameOf t)
          ⟨some "MOUNTPOINT".toList, some rdkssaMountMountpoint⟩ "MOUNTPOINT".toList
          rdkssaMountMountpoint
          [⟨some "PATH".toList, some rdkssaMountPath⟩,
           ⟨some "KEY".toList, some (rdkssaMountKey files)⟩,
           ⟨some "PARTITION".toList, some rdkssaMountPartition⟩, ⟨none, none⟩]
          rfl (by rw [h0]; exact namesMatch_refl _) rfl [] 0
          (by intro x hx; cases hx) (by decide)
        rw [harg] at this
        exact this
      · rw [if_neg h0]
        by_cases h1 : nameOf t = "PATH".toList
        · rw [if_pos h1]
          have := attributeLoop_first_match w t (strchr t VALUE_DELIM) (nameOf t)
            ⟨some "PATH".toList, some rdkssaMountPath⟩ "PATH".toList
            rdkssaMountPath
            [⟨some "KEY".toList, some (rdkssaMountKey files)⟩,
             ⟨some "PARTITION".toList, some rdkssaMountPartition⟩, ⟨none, none⟩]
            rfl (by rw [h1]; exact namesMatch_refl _) rfl
            [⟨some "MOUNTPOINT".toList, some rdkssaMountMountpoint⟩] 0
            (by
              intro x hx
              simp only [List.mem_singleton] at hx
              subst hx
              exact ⟨_, rfl, Or.inr (by rw [h1]; decide)⟩)
            (by decide)
          rw [harg] at this
          exact this
        · rw [if_neg h1]
          by_cases h2 : nameOf t = "KEY".toList
          · rw [if_pos h2]
            have := attributeLoop_first_match w t (strchr t VALUE_DELIM) (nameOf t)
              ⟨some "KEY".toList, some (rdkssaMountKey files)⟩ "KEY".toList
              (rdkssaMountKey files)
              [⟨some "PARTITION".toList, some rdkssaMountPartition⟩, ⟨none, none⟩]
              rfl (by rw [h2]; exact namesMatch_refl _) rfl
              [⟨some "MOUNTPOINT".toList, some rdkssaMountMountpoint⟩,
               ⟨some "PATH".toList, some rdkssaMountPath⟩] 0
              (by
                intro x hx
                simp only [List.mem_cons, List.mem_singleton, List.not_mem_nil, or_false] at hx
                rcases hx with rfl | rfl
                · exact ⟨_, rfl, Or.inr (by rw [h2]; decide)⟩
                · exact ⟨_, rfl, Or.inr (by rw [h2]; decide)⟩)
              (by decide)
            rw [harg] at this
            exact this
          · rw [if_neg h2]
            by_cases h3 : nameOf t = "PARTITION".toList
            · rw [if_pos h3]
              have := attributeLoop_first_match w t (strchr t VALUE_DELIM) (nameOf t)
                ⟨some "PARTITION".toList, some rdkssaMountPartition⟩ "PARTITION".toList
                rdkssaMountPartition [⟨none, none⟩]
                rfl (by rw [h3]; exact namesMatch_refl _) rfl
                [⟨some "MOUNTPOINT".toList, some rdkssaMountMountpoint⟩,
                 ⟨some "PATH".toList, some rdkssaMountPath⟩,
                 ⟨some "KEY".toList, some (rdkssaMountKey files)⟩] 0
                (by
                  intro x hx
                  simp only [List.mem_cons, List.mem_singleton, List.not_mem_nil,
                    or_false] at hx
                  rcases hx with rfl | rfl | rfl
                  · exact ⟨_, rfl, Or.inr (by rw [h3]; decide)⟩
                  · exact ⟨_, rfl, Or.inr (by rw [h3]; decide)⟩
                  · exact ⟨_, rfl, Or.inr (by rw [h3]; decide)⟩)
                (by simp [MAX_SUPPORTED_ATTRIBUTES])
              rw [harg] at this
              exact this
            · rw [if_neg h3]
              apply attributeLoop_no_match
              intro x hx nm hnm _ hm
              have hx2 : x ∈ [(⟨some "MOUNTPOINT".toList, some rdkssaMountMountpoint⟩ :
                    AttributeHandlerStruct MountWorld),
                  ⟨some "PATH".toList, some rdkssaMountPath⟩,
                  ⟨some "KEY".toList, some (rdkssaMountKey files)⟩,
                  ⟨some "PARTITION".toList, some rdkssaMountPartition⟩] := by
                have : tableEntries (mountHandlers files) =
                    [(⟨some "MOUNTPOINT".toList, some rdkssaMountMountpoint⟩ :
                      AttributeHandlerStruct MountWorld),
                    ⟨some "PATH".toList, some rdkssaMountPath⟩,
                    ⟨some "KEY".toList, some (rdkssaMountKey files)⟩,
                    ⟨some "PARTITION".toList, some rdkssaMountPartition⟩] := rfl
                rw [this] at hx
                exact hx
              simp only [List.mem_cons, List.mem_singleton, List.not_mem_nil, or_false] at hx2
              rcases hx2 with rfl | rfl | rfl | rfl
              · cases hnm
                exact h0 (namesMatch_eq hm hshort (Or.inl (by decide))).symm
              · cases hnm
                exact h1 (namesMatch_eq hm hshort (Or.inl (by decide))).symm
              · cases hnm
                exact h2 (namesMatch_eq hm hshort (Or.inl (by decide))).symm
              · cases hnm
                exact h3 (namesMatch_eq hm hshort (Or.inl (by decide))).symm
  · rw [if_pos hlen]
    apply attributeHandlerHelper_screen
    unfold validLength at hlen
    omega

/-- A property of the state that every dispatch of a token of the list
keeps, holds of the state that `rdkssaHandleAPIHelper` leaves. -/
theorem handleLoop_invariant {β : Type} (table : List (AttributeHandlerStruct β))
    (P : β → Prop) :
    ∀ (attrs : List Str),
    (∀ t ∈ attrs, ∀ b, P b → P (attributeHandlerHelper b (some t) (some table)).blob) →
    ∀ (i : Nat) (blob : β) (st : rdkssaStatus_t), P blob →
    P (handleLoop (some table) i blob st attrs).blob := by
  intro attrs
  induction attrs with
  | nil =>
    intro _ i blob st hP
    simpa [handleLoop] using hP
  | cons a rest ih =>
    intro hstep i blob st hP
    have ha := hstep a (List.mem_cons_self _ _) blob hP
    have hrest := ih (fun t ht b hb => hstep t (List.mem_cons_of_mem _ ht) b hb)
    by_cases hi : i < MAX_SUPPORTED_ATTRIBUTES
    · by_cases hs : (attributeHandlerHelper blob (some a) (some table)).status = rdkssaOK
      · simp only [handleLoop, hi, if_true, hs, ne_eq, not_true_eq_false, if_false]
        exact hrest (i + 1) _ rdkssaOK ha
      · simp only [handleLoop, hi, if_true, hs, ne_eq, not_false_eq_true]
        exact ha
    · simp only [handleLoop, hi, if_false]
      exact hP

/-- Two runs of `rdkssaHandleAPIHelper` over the same list, whose states are
related and whose single dispatches keep the relation and agree on status and
calls, agree on status and calls and end in related states. -/
theorem handleLoop_related {β : Type} (table1 table2 : List (AttributeHandlerStruct β))
    (R : β → β → Prop)
    (hstep : ∀ (t : Str) (b1 b2 : β), R b1 b2 →
      (attributeHandlerHelper b1 (some t) (some table1)).status =
        (attributeHandlerHelper b2 (some t) (some table2)).status ∧
      (attributeHandlerHelper b1 (some t) (some table1)).calls =
        (attributeHandlerHelper b2 (some t) (some table2)).calls ∧
      R (attributeHandlerHelper b1 (some t) (some table1)).blob
        (attributeHandlerHelper b2 (some t) (some table2)).blob) :
    ∀ (attrs : List Str) (i : Nat) (b1 b2 : β) (st : rdkssaStatus_t), R b1 b2 →
    (handleLoop (some table1) i b1 st attrs).status =
      (handleLoop (some table2) i b2 st attrs).status ∧
    (handleLoop (some table1) i b1 st attrs).calls =
      (handleLoop (some table2) i b2 st attrs).calls ∧
    R (handleLoop (some table1) i b1 st attrs).blob
      (handleLoop (some table2) i b2 st attrs).blob := by
  intro attrs
  induction attrs with
  | nil =>
    intro i b1 b2 st hR
    simp only [handleLoop]
    exact ⟨trivial, trivial, hR⟩
  | cons a rest ih =>
    intro i b1 b2 st hR
    obtain ⟨h1, h2, h3⟩ := hstep a b1 b2 hR
    by_cases hi : i < MAX_SUPPORTED_ATTRIBUTES
    · by_cases hs : (attributeHandlerHelper b2 (some a) (some table2)).status = rdkssaOK
      · have hs1 := h1.trans hs
        obtain ⟨k1, k2, k3⟩ := ih (i + 1) _ _ rdkssaOK h3
        simp only [handleLoop, hi, if_true, hs, hs1, ne_eq, not_true_eq_false, if_false]
        exact ⟨k1, by rw [h2, k2], k3⟩
      · have hs1 : ¬ (attributeHandlerHelper b1 (some a) (some table1)).status = rdkssaOK := by
          rw [h1]
          exact hs
        simp only [handleLoop, hi, if_true, hs, hs1, ne_eq, not_false_eq_true]
        exact ⟨h1, h2, h3⟩
    · simp only [handleLoop, hi, if_false]
      exact ⟨trivial, trivial, hR⟩

/-- The handler of `MOUNTPOINT` changes the mount point only. -/
theorem rdkssaMountMountpoint_frame (w : MountWorld) (v : Str) :
    (rdkssaMountMountpoint w v).1.pp.mountPath = w.pp.mountPath ∧
    (rdkssaMountMountpoint w v).1.pp.mountKeyActualSize = w.pp.mountKeyActualSize ∧
    (rdkssaMountMountpoint w v).1.pp.mountKey = w.pp.mountKey ∧
    (rdkssaMountMountpoint w v).1.stdin = w.stdin := by
  unfold rdkssaMountMountpoint
  split_ifs <;> exact ⟨rfl, rfl, rfl, rfl⟩

/-- The handler of `PATH` changes the mount path only. -/
theorem rdkssaMountPath_frame (w : MountWorld) (v : Str) :
    (rdkssaMountPath w v).1.pp.mountPoint = w.pp.mountPoint ∧
    (rdkssaMountPath w v).1.pp.mountKeyActualSize = w.pp.mountKeyActualSize ∧
    (rdkssaMountPath w v).1.pp.mountKey = w.pp.mountKey ∧
    (rdkssaMountPath w v).1.stdin = w.stdin := by
  unfold rdkssaMountPath
  split_ifs <;> exact ⟨rfl, rfl, rfl, rfl⟩

/-- The key handler leaves the mount point and the mount path as they are. -/
theorem rdkssaMountKey_paths (files : FileSystem) (w : MountWorld) (v : Str) :
    (rdkssaMountKey files w v).1.pp.mountPoint = w.pp.mountPoint ∧
    (rdkssaMountKey files w v).1.pp.mountPath = w.pp.mountPath := by
  unfold rdkssaMountKey
  split_ifs
  · exact ⟨rfl, rfl⟩
  · exact ⟨rfl, rfl⟩
  · simp only
    split
    · exact ⟨rfl, rfl⟩
    · split_ifs <;> exact ⟨rfl, rfl⟩

/-- A token whose name is not `MOUNTPOINT` leaves the mount point as it is. -/
theorem mount_step_mountPoint (files : FileSystem) (w : MountWorld) (t : Str)
    (h : nameOf t ≠ "MOUNTPOINT".toList) :
    (attributeHandlerHelper w (some t) (some (mountHandlers files))).blob.pp.mountPoint =
      w.pp.mountPoint := by
  rw [mount_dispatch]
  split_ifs <;>
    first
    | rfl
    | exact (rdkssaMountPath_frame w _).1
    | exact (rdkssaMountKey_paths files w _).1

/-- A token whose name is not `PATH` leaves the mount path as it is. -/
theorem mount_step_mountPath (files : FileSystem) (w : MountWorld) (t : Str)
    (h : nameOf t ≠ "PATH".toList) :
    (attributeHandlerHelper w (some t) (some (mountHandlers files))).blob.pp.mountPath =
      w.pp.mountPath := by
  rw [mount_dispatch]
  split_ifs <;>
    first
    | rfl
    | exact (rdkssaMountMountpoint_frame w _).1
    | exact (rdkssaMountKey_paths files w _).2

/-- A token whose name is not `KEY` leaves the key, its size and the standard
input as they are. -/
theorem mount_step_key (files : FileSystem) (w : MountWorld) (t : Str)
    (h : nameOf t ≠ "KEY".toList) :
    (attributeHandlerHelper w (some t) (some (mountHandlers files))).blob.pp.mountKeyActualSize =
      w.pp.mountKeyActualSize ∧
    (attributeHandlerHelper w (some t) (some (mountHandlers files))).blob.pp.mountKey =
      w.pp.mountKey ∧
    (attributeHandlerHelper w (some t) (some (mountHandlers files))).blob.stdin = w.stdin := by
  rw [mount_dispatch]
  split_ifs <;>
    first
    | exact ⟨rfl, rfl, rfl⟩
    | exact (rdkssaMountMountpoint_frame w _).2
    | exact (rdkssaMountPath_frame w _).2

theorem fread_length_le (content : List Nat) :
    (fread content).length ≤ MAX_ATTRIBUTE_VALUE_LENGTH := by
  unfold fread
  rw [List.length_take]
  exact Nat.min_le_left _ _

/-- The key handler keeps `keyWasRead`. -/
theorem rdkssaMountKey_read (files : FileSystem) (stdin0 : List Nat) (w : MountWorld) (v : Str)
    (h : keyWasRead files stdin0 w) : keyWasRead files stdin0 (rdkssaMountKey files w v).1 := by
  have h0 := h
  obtain ⟨⟨n, hn⟩, _, _⟩ := h0
  unfold rdkssaMountKey
  split_ifs with h1 h2
  · exact h
  · exact h
  · simp only
    split
    · exact h
    · rename_i content hc
      have hsrc : (∃ path, files path = some content) ∨ ∃ n, content = stdin0.drop n := by
        by_cases hs : strncmpEq v "STDIN".toList "STDIN".toList.length = true
        · rw [if_pos hs] at hc
          right
          exact ⟨n, by rw [← hn]; exact (Option.some.inj hc).symm⟩
        · rw [if_neg hs] at hc
          left
          exact ⟨v, hc⟩
      have hkey : keyWasRead files stdin0
          { pp := { w.pp with
              mountKeyActualSize := (fread content).length
              mountKey := fread content ++ w.pp.mountKey.drop (fread content).length }
            stdin := if strncmpEq v "STDIN".toList "STDIN".toList.length then
              w.stdin.drop (fread content).length else w.stdin } := by
        refine ⟨?_, ?_, ?_⟩
        · simp only
          split_ifs
          · exact ⟨n + (fread content).length, by rw [hn, List.drop_drop, Nat.add_comm]⟩
          · exact ⟨n, hn⟩
        · simp only [List.length_append]
          omega
        · right
          exact ⟨content, hsrc, by simp⟩
      by_cases hs : strncmpEq v "STDIN".toList "STDIN".toList.length = true
      · simp only [hs, if_true] at hkey ⊢
        split_ifs <;> exact hkey
      · simp only [hs, if_false, Bool.false_eq_true] at hkey ⊢
        split_ifs <;> exact hkey

/-- Every dispatch over the table of the Mount provider keeps `keyWasRead`. -/
theorem mount_step_read (files : FileSystem) (stdin0 : List Nat) (w : MountWorld) (t : Str)
    (h : keyWasRead files stdin0 w) :
    keyWasRead files stdin0
      (attributeHandlerHelper w (some t) (some (mountHandlers files))).blob := by
  by_cases hk : nameOf t = "KEY".toList
  · rw [mount_dispatch]
    split_ifs <;>
      first
      | exact h
      | exact rdkssaMountKey_read files stdin0 w _ h
      | (exfalso; rw [hk] at *; contradiction)
  · obtain ⟨e1, e2, e3⟩ := mount_step_key files w t hk
    unfold keyWasRead
    rw [e1, e2, e3]
    exact h

/-- The state that the dispatch of `rdkssaMount` leaves holds a key that was
read, if it holds one. -/
theorem mountDispatch_read (env : MountEnv) (apiBlobPtr : Option Nat)
    (apiAttributes : Option (List Str)) :
    keyWasRead env.files env.stdin (mountDispatch env apiBlobPtr apiAttributes).blob := by
  have h0 : keyWasRead env.files env.stdin ⟨initialParams apiBlobPtr, env.stdin⟩ :=
    ⟨⟨0, rfl⟩, Nat.le_refl _, Or.inl rfl⟩
  cases apiAttributes with
  | none => exact h0
  | some attrs =>
    exact handleLoop_invariant (mountHandlers env.files) (keyWasRead env.files env.stdin) attrs
      (fun t _ b hb => mount_step_read env.files env.stdin b t hb) 0 _ _ h0

/-- C24: when the dispatch of the attribute list succeeds and leaves a
non-empty mount point, a non-empty mount path and a key byte count other than
zero, `rdkssaMount` calls `rdkssaExecvPipeOutput` once, with the argument
vector `/usr/bin/ecfsMount`, mount point, mount path, the parameter record and
`mountWriteKeyCallback`, and returns its status; the callback writes the first
`mountKeyActualSize` bytes of the key, which are `mountKeyActualSize` bytes
that `fread` returned for a file or the standard input, and nothing else. In
every other case the channel is not called. -/
theorem C24_channel_invocation (env : MountEnv) (apiBlobPtr : Option Nat)
    (apiAttributes : Option (List Str)) :
    ((mountDispatch env apiBlobPtr apiAttributes).status = rdkssaOK →
      (mountDispatch env apiBlobPtr apiAttributes).blob.pp.mountPoint ≠ [] →
      (mountDispatch env apiBlobPtr apiAttributes).blob.pp.mountPath ≠ [] →
      (mountDispatch env apiBlobPtr apiAttributes).blob.pp.mountKeyActualSize ≠ 0 →
      (rdkssaMount env apiBlobPtr apiAttributes).channel =
        [(["/usr/bin/ecfsMount".toList,
            (mountDispatch env apiBlobPtr apiAttributes).blob.pp.mountPoint,
            (mountDispatch env apiBlobPtr apiAttributes).blob.pp.mountPath],
          rdkssaExecvPipeOutput env.exec
            (some ["/usr/bin/ecfsMount".toList,
              (mountDispatch env apiBlobPtr apiAttributes).blob.pp.mountPoint,
              (mountDispatch env apiBlobPtr apiAttributes).blob.pp.mountPath])
            (mountDispatch env apiBlobPtr apiAttributes).blob.pp
            (some mountWriteKeyCallback))] ∧
      (rdkssaMount env apiBlobPtr apiAttributes).status =
        (rdkssaExecvPipeOutput env.exec
          (some ["/usr/bin/ecfsMount".toList,
            (mountDispatch env apiBlobPtr apiAttributes).blob.pp.mountPoint,
            (mountDispatch env apiBlobPtr apiAttributes).blob.pp.mountPath])
          (mountDispatch env apiBlobPtr apiAttributes).blob.pp
          (some mountWriteKeyCallback)).status ∧
      (∀ write : List Nat → Int,
        (mountWriteKeyCallback write (mountDispatch env apiBlobPtr apiAttributes).blob.pp).1 =
          (mountDispatch env apiBlobPtr apiAttributes).blob.pp.mountKey.take
            (mountDispatch env apiBlobPtr apiAttributes).blob.pp.mountKeyActualSize ∧
        (mountWriteKeyCallback write
            (mountDispatch env apiBlobPtr apiAttributes).blob.pp).1.length =
          (mountDispatch env apiBlobPtr apiAttributes).blob.pp.mountKeyActualSize) ∧
      (∃ content,
        ((∃ path, env.files path = some content) ∨ ∃ n, content = env.stdin.drop n) ∧
        (mountDispatch env apiBlobPtr apiAttributes).blob.pp.mountKey.take
            (mountDispatch env apiBlobPtr apiAttributes).blob.pp.mountKeyActualSize =
          fread content)) ∧
    (¬ ((mountDispatch env apiBlobPtr apiAttributes).status = rdkssaOK ∧
        (mountDispatch env apiBlobPtr apiAttributes).blob.pp.mountPoint ≠ [] ∧
        (mountDispatch env apiBlobPtr apiAttributes).blob.pp.mountPath ≠ [] ∧
        (mountDispatch env apiBlobPtr apiAttributes).blob.pp.mountKeyActualSize ≠ 0) →
      (rdkssaMount env apiBlobPtr apiAttributes).channel = []) := by
  obtain ⟨_, hbound, hread⟩ := mountDispatch_read env apiBlobPtr apiAttributes
  constructor
  · intro hok hmp hpath hsize
    have hcond : ¬ ((mountDispatch env apiBlobPtr apiAttributes).blob.pp.mountPoint = [] ∨
        (mountDispatch env apiBlobPtr apiAttributes).blob.pp.mountPath = []) := by
      rintro (h | h)
      · exact hmp h
      · exact hpath h
    refine ⟨?_, ?_, ?_, ?_⟩
    · unfold rdkssaMount
      simp only [hok, ne_eq, not_true_eq_false, if_false, hcond, hsize]
      rfl
    · unfold rdkssaMount
      simp only [hok, ne_eq, not_true_eq_false, if_false, hcond, hsize]
      rfl
    · intro write
      have h1 : (mountWriteKeyCallback write
          (mountDispatch env apiBlobPtr apiAttributes).blob.pp).1 =
          (mountDispatch env apiBlobPtr apiAttributes).blob.pp.mountKey.take
            (mountDispatch env apiBlobPtr apiAttributes).blob.pp.mountKeyActualSize := by
        unfold mountWriteKeyCallback
        simp only
        split_ifs <;> rfl
      refine ⟨h1, ?_⟩
      rw [h1, List.length_take]
      exact Nat.min_eq_left hbound
    · rcases hread with h | h
      · exact absurd h hsize
      · exact h
  · intro hnot
    unfold rdkssaMount
    simp only
    split_ifs with h1 h2 h3
    · rfl
    · rfl
    · rfl
    · exfalso
      apply hnot
      refine ⟨not_not.1 h1, ?_, ?_, h3⟩
      · exact fun h => h2 (Or.inl h)
      · exact fun h => h2 (Or.inr h)

/-- C24 on the attribute list of the end-to-end scenario, the helper exiting
with code 0: one call of the channel, which writes the three bytes of the key
file. -/
theorem C24_channel_invocation_witness :
    (rdkssaMount (sampleEnv 0) none (some scenarioAttributes)).channel =
      [(["/usr/bin/ecfsMount".toList, "/nvram/rdkssa".toList, "/nvram/secure".toList],
        ⟨rdkssaOK, true, some [1, 2, 3], some rdkssaOK⟩)] ∧
    (rdkssaMount (sampleEnv 0) none
      (some ["PATH=/nvram/secure".toList, "KEY=/etc/key".toList])).channel = [] :=
  ⟨((C24_channel_invocation (sampleEnv 0) none (some scenarioAttributes)).1
      (by decide) (by decide) (by decide) (by decide)).1.trans (by decide),
   (C24_channel_invocation (sampleEnv 0) none
      (some ["PATH=/nvram/secure".toList, "KEY=/etc/key".toList])).2 (by decide)⟩

/-- C25: when the dispatch of the attribute list succeeds and the mount point
or the mount path is still empty, `rdkssaMount` returns
`rdkssaMissingAttribute` and does not call the channel, whatever the key and
its size are; this is so in particular when the dispatch succeeds on a list
none of whose attributes is named `MOUNTPOINT`, or none of whose attributes is
named `PATH`. -/
theorem C25_missing_attribute (env : MountEnv) (apiBlobPtr : Option Nat)
    (attrs : List Str)
    (hok : (mountDispatch env apiBlobPtr (some attrs)).status = rdkssaOK) :
    (((mountDispatch env apiBlobPtr (some attrs)).blob.pp.mountPoint = [] ∨
        (mountDispatch env apiBlobPtr (some attrs)).blob.pp.mountPath = []) →
      rdkssaMount env apiBlobPtr (some attrs) =
        ⟨rdkssaMissingAttribute, (mountDispatch env apiBlobPtr (some attrs)).calls,
          (mountDispatch env apiBlobPtr (some attrs)).blob.pp, []⟩) ∧
    (((∀ t ∈ attrs, nameOf t ≠ "MOUNTPOINT".toList) ∨
        (∀ t ∈ attrs, nameOf t ≠ "PATH".toList)) →
      (rdkssaMount env apiBlobPtr (some attrs)).status = rdkssaMissingAttribute ∧
      (rdkssaMount env apiBlobPtr (some attrs)).channel = []) := by
  have hfirst : ((mountDispatch env apiBlobPtr (some attrs)).blob.pp.mountPoint = [] ∨
        (mountDispatch env apiBlobPtr (some attrs)).blob.pp.mountPath = []) →
      rdkssaMount env apiBlobPtr (some attrs) =
        ⟨rdkssaMissingAttribute, (mountDispatch env apiBlobPtr (some attrs)).calls,
          (mountDispatch env apiBlobPtr (some attrs)).blob.pp, []⟩ := by
    intro h
    unfold rdkssaMount
    simp only [hok, ne_eq, not_true_eq_false, if_false, h, if_true]
  refine ⟨hfirst, ?_⟩
  intro h
  have hempty : (mountDispatch env apiBlobPtr (some attrs)).blob.pp.mountPoint = [] ∨
      (mountDispatch env apiBlobPtr (some attrs)).blob.pp.mountPath = [] := by
    rcases h with h | h
    · left
      exact handleLoop_invariant (mountHandlers env.files) (fun w => w.pp.mountPoint = []) attrs
        (fun t ht b hb => by
          show (attributeHandlerHelper b (some t) (some (mountHandlers env.files))).blob.pp.mountPoint = []
          rw [mount_step_mountPoint env.files b t (h t ht)]
          exact hb) 0 _ _ rfl
    · right
      exact handleLoop_invariant (mountHandlers env.files) (fun w => w.pp.mountPath = []) attrs
        (fun t ht b hb => by
          show (attributeHandlerHelper b (some t) (some (mountHandlers env.files))).blob.pp.mountPath = []
          rw [mount_step_mountPath env.files b t (h t ht)]
          exact hb) 0 _ _ rfl
  rw [hfirst hempty]
  exact ⟨rfl, rfl⟩

/-- C25 on the list `PATH=/nvram/secure`, `KEY=/etc/key`, which supplies a key
and no mount point. -/
theorem C25_missing_attribute_witness :
    (rdkssaMount (sampleEnv 0) none
        (some ["PATH=/nvram/secure".toList, "KEY=/etc/key".toList])).status =
      rdkssaMissingAttribute ∧
    (rdkssaMount (sampleEnv 0) none
        (some ["PATH=/nvram/secure".toList, "KEY=/etc/key".toList])).channel = [] :=
  (C25_missing_attribute (sampleEnv 0) none
    ["PATH=/nvram/secure".toList, "KEY=/etc/key".toList] (by decide)).2
    (Or.inl (by decide))

/-- C26 does not hold as stated: the list `MOUNTPOINT=/nvram/rdkssa`,
`PATH=/nvram/secure`, `FOO=1` sets a valid mount point and a valid mount path
and has no `KEY` attribute, and `rdkssaMount` returns
`rdkssaAttributeNotFound` for it, not `rdkssaNYIError`. -/
theorem C26_counterexample :
    (∀ t ∈ ["MOUNTPOINT=/nvram/rdkssa".toList, "PATH=/nvram/secure".toList, "FOO=1".toList],
      nameOf t ≠ "KEY".toList) ∧
    (rdkssaMount (sampleEnv 0) none
        (some ["MOUNTPOINT=/nvram/rdkssa".toList, "PATH=/nvram/secure".toList,
          "FOO=1".toList])).params.mountPoint = "/nvram/rdkssa".toList ∧
    (rdkssaMount (sampleEnv 0) none
        (some ["MOUNTPOINT=/nvram/rdkssa".toList, "PATH=/nvram/secure".toList,
          "FOO=1".toList])).params.mountPath = "/nvram/secure".toList ∧
    (rdkssaMount (sampleEnv 0) none
        (some ["MOUNTPOINT=/nvram/rdkssa".toList, "PATH=/nvram/secure".toList,
          "FOO=1".toList])).status = rdkssaAttributeNotFound ∧
    rdkssaAttributeNotFound ≠ rdkssaNYIError := by
  decide

/-- C26, amended: for every attribute list whose dispatch succeeds and leaves
a mount point and a mount path, and none of whose attributes is named `KEY`,
`rdkssaMount` returns `rdkssaNYIError` and does not call the channel. -/
theorem C26_no_key (env : MountEnv) (apiBlobPtr : Option Nat) (attrs : List Str)
    (hok : (mountDispatch env apiBlobPtr (some attrs)).status = rdkssaOK)
    (hmp : (mountDispatch env apiBlobPtr (some attrs)).blob.pp.mountPoint ≠ [])
    (hpath : (mountDispatch env apiBlobPtr (some attrs)).blob.pp.mountPath ≠ [])
    (hkey : ∀ t ∈ attrs, nameOf t ≠ "KEY".toList) :
    rdkssaMount env apiBlobPtr (some attrs) =
      ⟨rdkssaNYIError, (mountDispatch env apiBlobPtr (some attrs)).calls,
        (mountDispatch env apiBlobPtr (some attrs)).blob.pp, []⟩ := by
  have hsize : (mountDispatch env apiBlobPtr (some attrs)).blob.pp.mountKeyActualSize = 0 :=
    handleLoop_invariant (mountHandlers env.files) (fun w => w.pp.mountKeyActualSize = 0) attrs
      (fun t ht b hb => by
        show (attributeHandlerHelper b (some t)
          (some (mountHandlers env.files))).blob.pp.mountKeyActualSize = 0
        rw [(mount_step_key env.files b t (hkey t ht)).1]
        exact hb) 0 _ _ rfl
  have hcond : ¬ ((mountDispatch env apiBlobPtr (some attrs)).blob.pp.mountPoint = [] ∨
      (mountDispatch env apiBlobPtr (some attrs)).blob.pp.mountPath = []) := by
    rintro (h | h)
    · exact hmp h
    · exact hpath h
  unfold rdkssaMount
  simp only [hok, ne_eq, not_true_eq_false, if_false, hcond, hsize, if_true]

/-- C26 on the end-to-end scenario with the key attribute omitted. -/
theorem C26_no_key_witness :
    rdkssaMount (sampleEnv 0) none
        (some ["MOUNTPOINT=/nvram/rdkssa".toList, "PATH=/nvram/secure".toList]) =
      ⟨rdkssaNYIError, [(0, "/nvram/rdkssa".toList), (1, "/nvram/secure".toList)],
        { mountPoint := "/nvram/rdkssa".toList, mountPath := "/nvram/secure".toList,
          mountKeyActualSize := 0, mountKey := [], keyHandle := none }, []⟩ :=
  (C26_no_key (sampleEnv 0) none
    ["MOUNTPOINT=/nvram/rdkssa".toList, "PATH=/nvram/secure".toList]
    (by decide) (by decide) (by decide) (by decide)).trans (by decide)

/-- A value with a character of `RDKSSA_BADCHARS` is refused by
`rdkssaAttrCheck`. -/
theorem rdkssaAttrCheck_bad (v : Str) (h : ∃ c ∈ v, c ∈ RDKSSA_BADCHARS) :
    rdkssaAttrCheck (some v) = none := by
  unfold rdkssaAttrCheck
  simp only
  split_ifs with h1 h2 h3
  · rfl
  · rfl
  · rfl
  · exfalso
    obtain ⟨c, hc, hb⟩ := h
    exact (strpbrk_eq_none.1 (not_not.1 h3)) c hc hb

/-- C27 does not hold as stated. (1) In `badPathInPlace33` the dispatch of the
attribute in place 33, `PATH=/x;rm`, fails with `rdkssaValidityError` and that
of the next one, `FOO=1`, with `rdkssaAttributeNotFound`, but the loop stops
after 32 attributes: `rdkssaMount` calls 32 handlers, calls the channel and
returns its status `rdkssaOK`. (2) The attribute `x`, of an unknown name, is
refused by the length screen: `rdkssaMount` returns `rdkssaGeneralFailure`,
not `rdkssaAttributeNotFound`; and the attribute `=ab`, of the empty name,
gives `rdkssaSyntaxError`. -/
theorem C27_counterexample :
    (badPathInPlace33[32]? = some "PATH=/x;rm".toList ∧
      (attributeHandlerHelper
          (stateAfter (mountHandlers sampleFiles) ⟨initialParams none, []⟩
            (badPathInPlace33.take 32))
          (some "PATH=/x;rm".toList) (some (mountHandlers sampleFiles))).status =
        rdkssaValidityError ∧
      (attributeHandlerHelper (⟨initialParams none, []⟩ : MountWorld) (some "FOO=1".toList)
          (some (mountHandlers sampleFiles))).status = rdkssaAttributeNotFound ∧
      (rdkssaMount (sampleEnv 0) none (some badPathInPlace33)).status = rdkssaOK ∧
      (rdkssaMount (sampleEnv 0) none (some badPathInPlace33)).calls.length = 32 ∧
      (rdkssaMount (sampleEnv 0) none (some badPathInPlace33)).channel =
        [(["/usr/bin/ecfsMount".toList, "/nvram/rdkssa".toList, "/nvram/secure".toList],
          ⟨rdkssaOK, true, some [1, 2, 3], some rdkssaOK⟩)]) ∧
    (nameOf "x".toList ∉
        ["MOUNTPOINT".toList, "PATH".toList, "KEY".toList, "PARTITION".toList] ∧
      (rdkssaMount (sampleEnv 0) none (some ["x".toList])).status = rdkssaGeneralFailure ∧
      rdkssaGeneralFailure ≠ rdkssaAttributeNotFound ∧
      nameOf "=ab".toList ∉
        ["MOUNTPOINT".toList, "PATH".toList, "KEY".toList, "PARTITION".toList] ∧
      (rdkssaMount (sampleEnv 0) none (some ["=ab".toList])).status = rdkssaSyntaxError ∧
      rdkssaSyntaxError ≠ rdkssaAttributeNotFound) := by
  refine ⟨⟨by decide, by decide, by decide, by decide, by decide, by decide⟩, by decide⟩

/-- C27, amended: when the attributes before an attribute of the list, fewer
than 32, are dispatched with `rdkssaOK` and the dispatch of that attribute
fails, `rdkssaMount` returns the status of that dispatch: no handler is called
for the attributes after it and the channel is not called. The dispatch of one
attribute of 2 to 2048 characters fails with `rdkssaAttributeNotFound` when
its name is not empty and none of `MOUNTPOINT`, `PATH`, `KEY`, `PARTITION`,
with `rdkssaValidityError` when its name is `MOUNTPOINT` or `PATH` and its
value has a character of `RDKSSA_BADCHARS`, and with `rdkssaNYIError` when its
name is `PARTITION`; in each of these cases the parameter record stays as it
is. -/
theorem C27_dispatch_failure (env : MountEnv) (apiBlobPtr : Option Nat) :
    (∀ (pre : List Str) (t : Str) (post : List Str),
      pre.length < MAX_SUPPORTED_ATTRIBUTES →
      allOK (mountHandlers env.files) ⟨initialParams apiBlobPtr, env.stdin⟩ pre →
      (attributeHandlerHelper
        (stateAfter (mountHandlers env.files) ⟨initialParams apiBlobPtr, env.stdin⟩ pre)
        (some t) (some (mountHandlers env.files))).status ≠ rdkssaOK →
      rdkssaMount env apiBlobPtr (some (pre ++ t :: post)) =
        ⟨(attributeHandlerHelper
            (stateAfter (mountHandlers env.files) ⟨initialParams apiBlobPtr, env.stdin⟩ pre)
            (some t) (some (mountHandlers env.files))).status,
          callsAfter (mountHandlers env.files) ⟨initialParams apiBlobPtr, env.stdin⟩ pre ++
            (attributeHandlerHelper
              (stateAfter (mountHandlers env.files) ⟨initialParams apiBlobPtr, env.stdin⟩ pre)
              (some t) (some (mountHandlers env.files))).calls,
          (attributeHandlerHelper
            (stateAfter (mountHandlers env.files) ⟨initialParams apiBlobPtr, env.stdin⟩ pre)
            (some t) (some (mountHandlers env.files))).blob.pp, []⟩) ∧
    (∀ (w : MountWorld) (t : Str), validLength t → nameOf t ≠ [] →
      nameOf t ∉ ["MOUNTPOINT".toList, "PATH".toList, "KEY".toList, "PARTITION".toList] →
      attributeHandlerHelper w (some t) (some (mountHandlers env.files)) =
        ⟨w, rdkssaAttributeNotFound, []⟩) ∧
    (∀ (w : MountWorld) (t : Str), validLength t →
      nameOf t = "MOUNTPOINT".toList ∨ nameOf t = "PATH".toList →
      (∃ c ∈ valueOf t, c ∈ RDKSSA_BADCHARS) →
      (attributeHandlerHelper w (some t) (some (mountHandlers env.files))).status =
        rdkssaValidityError ∧
      (attributeHandlerHelper w (some t) (some (mountHandlers env.files))).blob = w) ∧
    (∀ (w : MountWorld) (t : Str), validLength t → nameOf t = "PARTITION".toList →
      (attributeHandlerHelper w (some t) (some (mountHandlers env.files))).status =
        rdkssaNYIError ∧
      (attributeHandlerHelper w (some t) (some (mountHandlers env.files))).blob = w) := by
  refine ⟨?_, ?_, ?_, ?_⟩
  · intro pre t post hpre hok hfail
    have hloop := handleLoop_stop (mountHandlers env.files) t post pre 0
      ⟨initialParams apiBlobPtr, env.stdin⟩ rdkssaAttributeNotFound
      (by rw [Nat.zero_add]; exact hpre) hok hfail
    have hd : mountDispatch env apiBlobPtr (some (pre ++ t :: post)) =
        handleLoop (some (mountHandlers env.files)) 0 ⟨initialParams apiBlobPtr, env.stdin⟩
          rdkssaAttributeNotFound (pre ++ t :: post) := rfl
    unfold rdkssaMount
    simp only [hd, hloop, ne_eq, hfail, not_false_eq_true, if_true]
  · intro w t hlen hne hnot
    simp only [List.mem_cons, List.mem_singleton, List.not_mem_nil, or_false, not_or] at hnot
    obtain ⟨h0, h1, h2, h3⟩ := hnot
    rw [mount_dispatch]
    simp only [hlen, not_true_eq_false, if_false, hne, h0, h1, h2, h3]
  · intro w t hlen hname hbad
    have hcheck := rdkssaAttrCheck_bad (valueOf t) hbad
    rw [mount_dispatch]
    rcases hname with h | h
    · have hne : nameOf t ≠ [] := by rw [h]; decide
      rw [if_neg (not_not.2 hlen), if_neg hne, if_pos h]
      simp only [rdkssaMountMountpoint, hcheck, if_true]
      exact ⟨trivial, trivial⟩
    · have hne : nameOf t ≠ [] := by rw [h]; decide
      have h0 : nameOf t ≠ "MOUNTPOINT".toList := by rw [h]; decide
      simp only [hlen, not_true_eq_false, if_false, hne, h0, if_pos h, rdkssaMountPath, hcheck,
        if_true]
      exact ⟨trivial, trivial⟩
  · intro w t hlen h
    have hne : nameOf t ≠ [] := by rw [h]; decide
    have h0 : nameOf t ≠ "MOUNTPOINT".toList := by rw [h]; decide
    have h1 : nameOf t ≠ "PATH".toList := by rw [h]; decide
    have h2 : nameOf t ≠ "KEY".toList := by rw [h]; decide
    rw [mount_dispatch]
    simp only [hlen, not_true_eq_false, if_false, hne, h0, h1, h2, if_pos h,
      rdkssaMountPartition]
    exact ⟨trivial, trivial⟩

/-- C27 on the list `MOUNTPOINT=/nvram/rdkssa`, `PATH=/nvram;rm`,
`KEY=/etc/key`: the value of `PATH` has the character `;`. -/
theorem C27_dispatch_failure_witness :
    rdkssaMount (sampleEnv 0) none
        (some (["MOUNTPOINT=/nvram/rdkssa".toList] ++
          "PATH=/nvram;rm".toList :: ["KEY=/etc/key".toList])) =
      ⟨rdkssaValidityError, [(0, "/nvram/rdkssa".toList), (1, "/nvram;rm".toList)],
        { mountPoint := "/nvram/rdkssa".toList, mountPath := [],
          mountKeyActualSize := 0, mountKey := [], keyHandle := none }, []⟩ :=
  ((C27_dispatch_failure (sampleEnv 0) none).1 ["MOUNTPOINT=/nvram/rdkssa".toList]
    "PATH=/nvram;rm".toList ["KEY=/etc/key".toList] (by decide) (by decide)
    (by decide)).trans (by decide)

theorem fread_length_eq_zero (content : List Nat) :
    (fread content).length = 0 ↔ content = [] := by
  unfold fread MAX_ATTRIBUTE_VALUE_LENGTH
  cases content with
  | nil => simp
  | cons a l => simp

theorem drop_fread (s : List Nat) (k : Nat) :
    (s.drop (fread s).length).drop (MAX_ATTRIBUTE_VALUE_LENGTH * k) = [] ↔
      s.drop (MAX_ATTRIBUTE_VALUE_LENGTH * (k + 1)) = [] := by
  unfold fread MAX_ATTRIBUTE_VALUE_LENGTH
  simp only [List.drop_drop, List.drop_eq_nil_iff, List.length_take]
  omega

/-- The key handler in two runs that may differ in the key bytes only: the
same status, and states that may differ in the key only. -/
theorem rdkssaMountKey_related (files1 files2 : FileSystem)
    (hfiles : sameFilesButBytes files1 files2) (w1 w2 : MountWorld) (h : sameButKey w1 w2)
    (v : Str) :
    (rdkssaMountKey files1 w1 v).2 = (rdkssaMountKey files2 w2 v).2 ∧
    sameButKey (rdkssaMountKey files1 w1 v).1 (rdkssaMountKey files2 w2 v).1 := by
  obtain ⟨hmp, hpath, hsize, hstdin⟩ := h
  have h0 : sameButKey w1 w2 := ⟨hmp, hpath, hsize, hstdin⟩
  unfold rdkssaMountKey
  by_cases h1 : rdkssaAttrCheck (some v) = none
  · simp only [h1, if_true]
    exact ⟨trivial, h0⟩
  · simp only [h1, if_false]
    by_cases h2 : strncmpEq v "HANDLE".toList "HANDLE".toList.length = true
    · simp only [h2, if_true]
      exact ⟨trivial, h0⟩
    · simp only [h2, if_false, Bool.false_eq_true]
      by_cases h3 : strncmpEq v "STDIN".toList "STDIN".toList.length = true
      · simp only [h3, if_true]
        have hz : (fread w1.stdin).length = 0 ↔ (fread w2.stdin).length = 0 := by
          rw [fread_length_eq_zero, fread_length_eq_zero]
          have := hstdin 0
          simpa using this
        have hrel : sameButKey
            { pp := { w1.pp with
                mountKeyActualSize := (fread w1.stdin).length
                mountKey := fread w1.stdin ++ w1.pp.mountKey.drop (fread w1.stdin).length }
              stdin := w1.stdin.drop (fread w1.stdin).length }
            { pp := { w2.pp with
                mountKeyActualSize := (fread w2.stdin).length
                mountKey := fread w2.stdin ++ w2.pp.mountKey.drop (fread w2.stdin).length }
              stdin := w2.stdin.drop (fread w2.stdin).length } := by
          refine ⟨hmp, hpath, hz, ?_⟩
          intro k
          show (w1.stdin.drop (fread w1.stdin).length).drop (MAX_ATTRIBUTE_VALUE_LENGTH * k) = [] ↔
            (w2.stdin.drop (fread w2.stdin).length).drop (MAX_ATTRIBUTE_VALUE_LENGTH * k) = []
          rw [drop_fread, drop_fread]
          exact hstdin (k + 1)
        by_cases hl : (fread w1.stdin).length = 0
        · have hl2 := hz.1 hl
          simp only [hl, hl2, if_true]
          simp only [hl, hl2] at hrel
          exact ⟨trivial, hrel⟩
        · have hl2 : ¬ (fread w2.stdin).length = 0 := fun x => hl (hz.2 x)
          simp only [hl, hl2, if_false]
          exact ⟨trivial, hrel⟩
      · simp only [h3, if_false, Bool.false_eq_true]
        cases hf1 : files1 v with
        | none =>
          have hf2 : files2 v = none := (hfiles.1 v).1 hf1
          simp only [hf2]
          exact ⟨trivial, h0⟩
        | some c1 =>
          cases hf2 : files2 v with
          | none =>
            rw [(hfiles.1 v).2 hf2] at hf1
            cases hf1
          | some c2 =>
            simp only
            have hz : (fread c1).length = 0 ↔ (fread c2).length = 0 := by
              rw [fread_length_eq_zero, fread_length_eq_zero]
              exact hfiles.2 v c1 c2 hf1 hf2
            have hrel : sameButKey
                { pp := { w1.pp with
                    mountKeyActualSize := (fread c1).length
                    mountKey := fread c1 ++ w1.pp.mountKey.drop (fread c1).length }
                  stdin := w1.stdin }
                { pp := { w2.pp with
                    mountKeyActualSize := (fread c2).length
                    mountKey := fread c2 ++ w2.pp.mountKey.drop (fread c2).length }
                  stdin := w2.stdin } := ⟨hmp, hpath, hz, hstdin⟩
            by_cases hl : (fread c1).length = 0
            · have hl2 := hz.1 hl
              simp only [hl, hl2, if_true]
              simp only [hl, hl2] at hrel
              exact ⟨trivial, hrel⟩
            · have hl2 : ¬ (fread c2).length = 0 := fun x => hl (hz.2 x)
              simp only [hl, hl2, if_false]
              exact ⟨trivial, hrel⟩

theorem rdkssaMountMountpoint_related (w1 w2 : MountWorld) (h : sameButKey w1 w2) (v : Str) :
    (rdkssaMountMountpoint w1 v).2 = (rdkssaMountMountpoint w2 v).2 ∧
    sameButKey (rdkssaMountMountpoint w1 v).1 (rdkssaMountMountpoint w2 v).1 := by
  unfold rdkssaMountMountpoint
  split_ifs
  · exact ⟨rfl, h⟩
  · exact ⟨rfl, rfl, h.2.1, h.2.2.1, h.2.2.2⟩

theorem rdkssaMountPath_related (w1 w2 : MountWorld) (h : sameButKey w1 w2) (v : Str) :
    (rdkssaMountPath w1 v).2 = (rdkssaMountPath w2 v).2 ∧
    sameButKey (rdkssaMountPath w1 v).1 (rdkssaMountPath w2 v).1 := by
  unfold rdkssaMountPath
  split_ifs
  · exact ⟨rfl, h⟩
  · exact ⟨rfl, h.1, rfl, h.2.2.1, h.2.2.2⟩

/-- What `rdkssaExecvPipeOutput` has written once the child is there is what
the callback wrote. -/
theorem rdkssaExecvPipeOutput_written {β : Type} (env : ExecEnv) (exargv : Option (List Str))
    (callerBlob : β) (callback : rdkssaIOCallback β) :
    (rdkssaExecvPipeOutput env exargv callerBlob (some callback)).spawned = true →
    (rdkssaExecvPipeOutput env exargv callerBlob (some callback)).written =
      some (callback env.write callerBlob).1 := by
  unfold rdkssaExecvPipeOutput
  rcases exargv with _ | ⟨_ | ⟨a, l⟩⟩
  · exact fun h => Bool.noConfusion h
  · exact fun h => Bool.noConfusion h
  · simp only
    cases env.pipeOk with
    | false => exact fun h => Bool.noConfusion h
    | true =>
      simp only [Bool.true_eq_false, if_false]
      cases env.fork with
      | none => exact fun h => Bool.noConfusion h
      | some p =>
        simp only
        intro _
        split_ifs <;> rfl

/-- The dispatch of one token in two runs that may differ in the key bytes
only: the same status, the same handler call, and states that may differ in
the key only. -/
theorem mount_step_related (files1 files2 : FileSystem)
    (hfiles : sameFilesButBytes files1 files2) (t : Str) (w1 w2 : MountWorld)
    (h : sameButKey w1 w2) :
    (attributeHandlerHelper w1 (some t) (some (mountHandlers files1))).status =
      (attributeHandlerHelper w2 (some t) (some (mountHandlers files2))).status ∧
    (attributeHandlerHelper w1 (some t) (some (mountHandlers files1))).calls =
      (attributeHandlerHelper w2 (some t) (some (mountHandlers files2))).calls ∧
    sameButKey (attributeHandlerHelper w1 (some t) (some (mountHandlers files1))).blob
      (attributeHandlerHelper w2 (some t) (some (mountHandlers files2))).blob := by
  rw [mount_dispatch, mount_dispatch]
  split_ifs <;>
    first
    | exact ⟨rfl, rfl, h⟩
    | exact ⟨(rdkssaMountMountpoint_related w1 w2 h _).1, rfl,
        (rdkssaMountMountpoint_related w1 w2 h _).2⟩
    | exact ⟨(rdkssaMountPath_related w1 w2 h _).1, rfl,
        (rdkssaMountPath_related w1 w2 h _).2⟩
    | exact ⟨(rdkssaMountKey_related files1 files2 hfiles w1 w2 h _).1, rfl,
        (rdkssaMountKey_related files1 files2 hfiles w1 w2 h _).2⟩

/-- The dispatch of `rdkssaMount` in two runs that may differ in the key bytes
only. -/
theorem mountDispatch_related (env1 env2 : MountEnv) (h : sameButKeyBytes env1 env2)
    (apiBlobPtr : Option Nat) (apiAttributes : Option (List Str)) :
    (mountDispatch env1 apiBlobPtr apiAttributes).status =
      (mountDispatch env2 apiBlobPtr apiAttributes).status ∧
    (mountDispatch env1 apiBlobPtr apiAttributes).calls =
      (mountDispatch env2 apiBlobPtr apiAttributes).calls ∧
    sameButKey (mountDispatch env1 apiBlobPtr apiAttributes).blob
      (mountDispatch env2 apiBlobPtr apiAttributes).blob := by
  have h0 : sameButKey ⟨initialParams apiBlobPtr, env1.stdin⟩
      ⟨initialParams apiBlobPtr, env2.stdin⟩ := ⟨rfl, rfl, Iff.rfl, h.2.1⟩
  cases apiAttributes with
  | none => exact ⟨rfl, rfl, h0⟩
  | some attrs =>
    exact handleLoop_related (mountHandlers env1.files) (mountHandlers env2.files) sameButKey
      (fun t b1 b2 hb => mount_step_related env1.files env2.files h.1 t b1 b2 hb)
      attrs 0 _ _ rdkssaAttributeNotFound h0

/-- C28: two runs of `rdkssaMount` on the same attribute list that may differ
in the non-empty key bytes read only (the same files can be opened, the same
files are empty, the standard inputs run out after the same number of reads,
the pipe, the fork and the wait go the same way) call the same handlers with
the same values, leave the same mount point and mount path, return the same
status, and call the channel both or neither, with the same argument vector
`/usr/bin/ecfsMount`, mount point, mount path; the key bytes are in what the
callback writes. -/
theorem C28_key_stays_in_the_pipe (env1 env2 : MountEnv) (h : sameButKeyBytes env1 env2)
    (apiBlobPtr : Option Nat) (apiAttributes : Option (List Str)) :
    (rdkssaMount env1 apiBlobPtr apiAttributes).calls =
      (rdkssaMount env2 apiBlobPtr apiAttributes).calls ∧
    (rdkssaMount env1 apiBlobPtr apiAttributes).params.mountPoint =
      (rdkssaMount env2 apiBlobPtr apiAttributes).params.mountPoint ∧
    (rdkssaMount env1 apiBlobPtr apiAttributes).params.mountPath =
      (rdkssaMount env2 apiBlobPtr apiAttributes).params.mountPath ∧
    (rdkssaMount env1 apiBlobPtr apiAttributes).status =
      (rdkssaMount env2 apiBlobPtr apiAttributes).status ∧
    (rdkssaMount env1 apiBlobPtr apiAttributes).channel.map Prod.fst =
      (rdkssaMount env2 apiBlobPtr apiAttributes).channel.map Prod.fst ∧
    (∀ x ∈ (rdkssaMount env1 apiBlobPtr apiAttributes).channel,
      x.1 = ["/usr/bin/ecfsMount".toList,
        (rdkssaMount env1 apiBlobPtr apiAttributes).params.mountPoint,
        (rdkssaMount env1 apiBlobPtr apiAttributes).params.mountPath] ∧
      (x.2.spawned = true → x.2.written =
        some ((rdkssaMount env1 apiBlobPtr apiAttributes).params.mountKey.take
          (rdkssaMount env1 apiBlobPtr apiAttributes).params.mountKeyActualSize))) := by
  obtain ⟨hst, hcalls, hmp, hpath, hsize, _⟩ := mountDispatch_related env1 env2 h apiBlobPtr
    apiAttributes
  obtain ⟨_, _, hpipe, hfork, hret, hwait⟩ := h
  have hexec : ∀ (argv : List Str) (pp1 pp2 : mount_param_t),
      (rdkssaExecvPipeOutput env1.exec (some argv) pp1 (some mountWriteKeyCallback)).status =
        (rdkssaExecvPipeOutput env2.exec (some argv) pp2 (some mountWriteKeyCallback)).status := by
    intro argv pp1 pp2
    unfold rdkssaExecvPipeOutput
    cases argv with
    | nil => rfl
    | cons a l =>
      simp only [← hpipe, ← hfork, ← hret, ← hwait]
      by_cases hp : env1.exec.pipeOk = false
      · simp only [hp, if_true]
      · simp only [hp, if_false]
        cases env1.exec.fork with
        | none => rfl
        | some p =>
          simp only
          split_ifs <;> rfl
  have hwritten : ∀ (argv : List Str) (pp : mount_param_t),
      (rdkssaExecvPipeOutput env1.exec (some argv) pp (some mountWriteKeyCallback)).spawned =
        true →
      (rdkssaExecvPipeOutput env1.exec (some argv) pp (some mountWriteKeyCallback)).written =
        some (pp.mountKey.take pp.mountKeyActualSize) := by
    intro argv pp hs
    have hcb : (mountWriteKeyCallback env1.exec.write pp).1 =
        pp.mountKey.take pp.mountKeyActualSize := by
      unfold mountWriteKeyCallback
      simp only
      split_ifs <;> rfl
    rw [rdkssaExecvPipeOutput_written env1.exec (some argv) pp mountWriteKeyCallback hs, hcb]
  unfold rdkssaMount
  simp only
  by_cases h1 : (mountDispatch env1 apiBlobPtr apiAttributes).status = rdkssaOK
  · have h1b : (mountDispatch env2 apiBlobPtr apiAttributes).status = rdkssaOK := hst ▸ h1
    simp only [h1, h1b, ne_eq, not_true_eq_false, if_false]
    by_cases h2 : (mountDispatch env1 apiBlobPtr apiAttributes).blob.pp.mountPoint = [] ∨
        (mountDispatch env1 apiBlobPtr apiAttributes).blob.pp.mountPath = []
    · have h2b : (mountDispatch env2 apiBlobPtr apiAttributes).blob.pp.mountPoint = [] ∨
          (mountDispatch env2 apiBlobPtr apiAttributes).blob.pp.mountPath = [] := by
        rw [← hmp, ← hpath]
        exact h2
      simp only [h2, h2b, if_true]
      exact ⟨hcalls, hmp, hpath, trivial, trivial, by intro x hx; cases hx⟩
    · have h2b : ¬ ((mountDispatch env2 apiBlobPtr apiAttributes).blob.pp.mountPoint = [] ∨
          (mountDispatch env2 apiBlobPtr apiAttributes).blob.pp.mountPath = []) := by
        rw [← hmp, ← hpath]
        exact h2
      simp only [h2, h2b, if_false]
      by_cases h3 : (mountDispatch env1 apiBlobPtr apiAttributes).blob.pp.mountKeyActualSize = 0
      · have h3b := hsize.1 h3
        simp only [h3, h3b, if_true]
        exact ⟨hcalls, hmp, hpath, trivial, trivial, by intro x hx; cases hx⟩
      · have h3b : ¬ (mountDispatch env2 apiBlobPtr apiAttributes).blob.pp.mountKeyActualSize
            = 0 := fun x => h3 (hsize.2 x)
        have hargv : mountArgv (mountDispatch env1 apiBlobPtr apiAttributes).blob.pp =
            mountArgv (mountDispatch env2 apiBlobPtr apiAttributes).blob.pp := by
          unfold mountArgv
          rw [hmp, hpath]
        simp only [h3, h3b, if_false]
        refine ⟨hcalls, hmp, hpath, ?_, ?_, ?_⟩
        · rw [hargv]
          exact hexec _ _ _
        · simp only [List.map_cons, List.map_nil, hargv]
        · intro x hx
          simp only [List.mem_singleton] at hx
          subst hx
          exact ⟨rfl, hwritten _ _⟩
  · have h1b : ¬ (mountDispatch env2 apiBlobPtr apiAttributes).status = rdkssaOK := by
      rw [← hst]
      exact h1
    simp only [h1, h1b, ne_eq, not_false_eq_true, if_true]
    exact ⟨hcalls, hmp, hpath, hst, trivial, by intro x hx; cases hx⟩

/-- C28 on the attribute list of the end-to-end scenario and two key files of
three and of four bytes. -/
theorem C28_key_stays_in_the_pipe_witness :
    (rdkssaMount (sampleEnv 0) none (some scenarioAttributes)).status =
      (rdkssaMount (otherKeyEnv 0) none (some scenarioAttributes)).status ∧
    (rdkssaMount (sampleEnv 0) none (some scenarioAttributes)).channel.map Prod.fst =
      (rdkssaMount (otherKeyEnv 0) none (some scenarioAttributes)).channel.map Prod.fst :=
  have h : sameButKeyBytes (sampleEnv 0) (otherKeyEnv 0) := by
    refine ⟨⟨?_, ?_⟩, fun _ => Iff.rfl, rfl, rfl, rfl, rfl⟩
    · intro path
      show sampleFiles path = none ↔ otherFiles path = none
      unfold sampleFiles otherFiles
      split_ifs <;> simp
    · intro path c1 c2
      show sampleFiles path = some c1 → otherFiles path = some c2 → _
      unfold sampleFiles otherFiles
      split_ifs
      · intro e1 e2
        cases e1
        cases e2
        simp
      · intro e1
        cases e1
  ⟨(C28_key_stays_in_the_pipe (sampleEnv 0) (otherKeyEnv 0) h none
      (some scenarioAttributes)).2.2.2.1,
   (C28_key_stays_in_the_pipe (sampleEnv 0) (otherKeyEnv 0) h none
      (some scenarioAttributes)).2.2.2.2.1⟩

/-! ## The claims on the statuses, `climain` and the key handler -/

/-- C31 fails in the code: `rdkssaMount` returns what `rdkssaExecvPipeOutput`
returns, which is the exit code of the helper when it exits normally. On the
attribute list of the end-to-end scenario with a helper that exits with code
3, `rdkssaMount` returns 3, a positive status that is not greater than 10000;
whatever the exit code of the helper, the status returned is that exit code, a
value from 0 to 255. -/
theorem C31_exit_code_returned :
    (rdkssaMount (sampleEnv 3) none (some scenarioAttributes)).status = 3 ∧
    ((0 : Int) < 3 ∧ (3 : Int) ≤ 10000) ∧
    (∀ code : Nat,
      (rdkssaMount (sampleEnv code) none (some scenarioAttributes)).status =
        ((code % 256 : Nat) : Int) ∧
      0 ≤ (rdkssaMount (sampleEnv code) none (some scenarioAttributes)).status ∧
      (rdkssaMount (sampleEnv code) none (some scenarioAttributes)).status ≤ 10000) := by
  have hgen : ∀ code : Nat,
      (rdkssaMount (sampleEnv code) none (some scenarioAttributes)).status =
        ((code % 256 : Nat) : Int) := by
    intro code
    rfl
  refine ⟨by decide, by decide, ?_⟩
  intro code
  rw [hgen code]
  have h2 : code % 256 ≤ 10000 := Nat.le_trans (Nat.le_of_lt (Nat.mod_lt _ (by decide))) (by decide)
  exact ⟨rfl, Int.natCast_nonneg _, by exact_mod_cast h2⟩

theorem climainLoop_stop (rdkssaMount : List Str → rdkssaStatus_t) (a : Str) (post : List Str)
    (ha : (processCmd rdkssaMount (some a)).1 ≠ rdkssaOK) :
    ∀ (pre : List Str) (stat : rdkssaStatus_t),
    (∀ c ∈ pre, (processCmd rdkssaMount (some c)).1 = rdkssaOK) →
    climainLoop rdkssaMount (pre ++ a :: post) stat =
      (CliOutcome.exited (processCmd rdkssaMount (some a)).1,
        (pre ++ [a]).map (fun c => (c, processCmd rdkssaMount (some c)))) := by
  intro pre
  induction pre with
  | nil =>
    intro stat _
    simp only [List.nil_append, climainLoop, ne_eq, ha, not_false_eq_true, if_true,
      handleErrorOutcome, if_false, List.map_cons, List.map_nil]
  | cons c pre ih =>
    intro stat hpre
    have hc := hpre c (List.mem_cons_self _ _)
    have hrest := ih (processCmd rdkssaMount (some c)).1
      (fun x hx => hpre x (List.mem_cons_of_mem _ hx))
    rw [List.cons_append]
    simp only [climainLoop, ne_eq, hc, not_true_eq_false, if_false]
    rw [hc] at hrest
    rw [hrest]
    simp only [List.cons_append, List.map_cons]

theorem climainLoop_all (rdkssaMount : List Str → rdkssaStatus_t) :
    ∀ (args : List Str) (stat : rdkssaStatus_t),
    (∀ c ∈ args, (processCmd rdkssaMount (some c)).1 = rdkssaOK) →
    climainLoop rdkssaMount args stat =
      (CliOutcome.returned (if args = [] then stat else rdkssaOK),
        args.map (fun c => (c, processCmd rdkssaMount (some c)))) := by
  intro args
  induction args with
  | nil =>
    intro stat _
    rfl
  | cons c rest ih =>
    intro stat hall
    have hc := hall c (List.mem_cons_self _ _)
    have hrest := ih (processCmd rdkssaMount (some c)).1
      (fun x hx => hall x (List.mem_cons_of_mem _ hx))
    simp only [climainLoop, ne_eq, hc, not_true_eq_false, if_false, List.map_cons]
    rw [hc] at hrest
    rw [hrest]
    by_cases hr : rest = []
    · simp [hr]
    · simp [hr]

theorem climainLoop_returned (rdkssaMount : List Str → rdkssaStatus_t) :
    ∀ (args : List Str) (stat st : rdkssaStatus_t),
    (climainLoop rdkssaMount args stat).1 = CliOutcome.returned st →
    ∀ c ∈ args, (processCmd rdkssaMount (some c)).1 = rdkssaOK := by
  intro args
  induction args with
  | nil =>
    intro _ _ _ c hc
    cases hc
  | cons a rest ih =>
    intro stat st h c hc
    by_cases ha : (processCmd rdkssaMount (some a)).1 = rdkssaOK
    · simp only [climainLoop, ne_eq, ha, not_true_eq_false, if_false] at h
      rcases List.mem_cons.1 hc with rfl | hc
      · exact ha
      · exact ih _ st h c hc
    · simp only [climainLoop, ne_eq, ha, not_false_eq_true, if_true, handleErrorOutcome,
        if_false] at h
      cases h

/-- C32: `climain` gives its command arguments to `processCmd` in order; at
the first one whose status is not `rdkssaOK` it calls `exit` with that status,
the commands after it not being given to `processCmd`; it returns only
`rdkssaOK`, and it does so exactly when there is a command and every command
returned `rdkssaOK`. -/
theorem C32_first_failure_exits (rdkssaMount : List Str → rdkssaStatus_t) (argv : List Str) :
    (∀ (pre : List Str) (a : Str) (post : List Str), argv.drop 1 = pre ++ a :: post →
      (∀ c ∈ pre, (processCmd rdkssaMount (some c)).1 = rdkssaOK) →
      (processCmd rdkssaMount (some a)).1 ≠ rdkssaOK →
      climain rdkssaMount argv =
        (CliOutcome.exited (processCmd rdkssaMount (some a)).1,
          (pre ++ [a]).map (fun c => (c, processCmd rdkssaMount (some c))))) ∧
    ((climain rdkssaMount argv).1 = CliOutcome.returned rdkssaOK ↔
      argv.drop 1 ≠ [] ∧ ∀ c ∈ argv.drop 1, (processCmd rdkssaMount (some c)).1 = rdkssaOK) ∧
    (∀ st, (climain rdkssaMount argv).1 = CliOutcome.returned st → st = rdkssaOK) := by
  have hlen : argv.length < 2 ↔ argv.drop 1 = [] := by
    rw [List.drop_eq_nil_iff]
    omega
  refine ⟨?_, ?_, ?_⟩
  · intro pre a post hargs hpre ha
    have hne : ¬ argv.length < 2 := by
      rw [hlen, hargs]
      simp
    unfold climain
    rw [if_neg hne, hargs]
    exact climainLoop_stop rdkssaMount a post ha pre rdkssaOK hpre
  · unfold climain
    by_cases h : argv.length < 2
    · rw [if_pos h]
      constructor
      · intro hc
        cases hc
      · rintro ⟨hne, _⟩
        exact absurd (hlen.1 h) hne
    · rw [if_neg h]
      have hne : argv.drop 1 ≠ [] := fun x => h (hlen.2 x)
      constructor
      · intro hr
        exact ⟨hne, climainLoop_returned rdkssaMount _ _ _ hr⟩
      · rintro ⟨_, hall⟩
        rw [climainLoop_all rdkssaMount _ _ hall, if_neg hne]
  · intro st hst
    unfold climain at hst
    by_cases h : argv.length < 2
    · rw [if_pos h] at hst
      cases hst
    · rw [if_neg h] at hst
      have hne : argv.drop 1 ≠ [] := fun x => h (hlen.2 x)
      have hall := climainLoop_returned rdkssaMount _ _ _ hst
      rw [climainLoop_all rdkssaMount _ _ hall, if_neg hne] at hst
      cases hst
      rfl

/-- C32 on three commands: the scenario command succeeds, `{STOR=x}` returns
`rdkssaNYIError`, and `{MOUNT=MOUNT}` is not processed. -/
theorem C32_first_failure_exits_witness :
    climain (rdkssaMountCli (sampleEnv 0))
        ["ssacli".toList,
          "\x7bMOUNT=MOUNT,MOUNTPOINT=/nvram/rdkssa,PATH=/nvram/secure,KEY=/etc/key\x7d".toList,
          "\x7bSTOR=x\x7d".toList, "\x7bMOUNT=MOUNT\x7d".toList] =
      (CliOutcome.exited rdkssaNYIError,
        (["\x7bMOUNT=MOUNT,MOUNTPOINT=/nvram/rdkssa,PATH=/nvram/secure,KEY=/etc/key\x7d".toList]
            ++ ["\x7bSTOR=x\x7d".toList]).map
          (fun c => (c, processCmd (rdkssaMountCli (sampleEnv 0)) (some c)))) :=
  (C32_first_failure_exits (rdkssaMountCli (sampleEnv 0))
    ["ssacli".toList,
      "\x7bMOUNT=MOUNT,MOUNTPOINT=/nvram/rdkssa,PATH=/nvram/secure,KEY=/etc/key\x7d".toList,
      "\x7bSTOR=x\x7d".toList, "\x7bMOUNT=MOUNT\x7d".toList]).1
    ["\x7bMOUNT=MOUNT,MOUNTPOINT=/nvram/rdkssa,PATH=/nvram/secure,KEY=/etc/key\x7d".toList]
    "\x7bSTOR=x\x7d".toList ["\x7bMOUNT=MOUNT\x7d".toList] rfl (by decide) (by decide)

/-- C33: given a value that passes `rdkssaAttrCheck` and does not begin with
`HANDLE`, the key handler reads from standard input when the value begins
with `STDIN` and from the file of that name otherwise. When that source can be
opened, the number of bytes stored is the smaller of 2048 and the length of
the source, the bytes stored are the first bytes of the source, the handler
returns `rdkssaOK` exactly when the number is not zero and `rdkssaFileError`
when it is zero; when the file cannot be opened the handler returns
`rdkssaFileError` and leaves the record as it is. -/
theorem C33_key_handler (files : FileSystem) (w : MountWorld) (v : Str)
    (hcheck : rdkssaAttrCheck (some v) ≠ none)
    (hhandle : strncmpEq v "HANDLE".toList "HANDLE".toList.length = false) :
    (∀ content,
      (if strncmpEq v "STDIN".toList "STDIN".toList.length then some w.stdin else files v) =
        some content →
      (rdkssaMountKey files w v).1.pp.mountKeyActualSize =
        min MAX_ATTRIBUTE_VALUE_LENGTH content.length ∧
      (rdkssaMountKey files w v).1.pp.mountKeyActualSize ≤ MAX_ATTRIBUTE_VALUE_LENGTH ∧
      (rdkssaMountKey files w v).1.pp.mountKey.take
          (rdkssaMountKey files w v).1.pp.mountKeyActualSize =
        content.take (min MAX_ATTRIBUTE_VALUE_LENGTH content.length) ∧
      ((rdkssaMountKey files w v).2 = rdkssaOK ↔
        (rdkssaMountKey files w v).1.pp.mountKeyActualSize ≠ 0) ∧
      ((rdkssaMountKey files w v).1.pp.mountKeyActualSize = 0 →
        (rdkssaMountKey files w v).2 = rdkssaFileError)) ∧
    ((if strncmpEq v "STDIN".toList "STDIN".toList.length then some w.stdin else files v) =
        none →
      rdkssaMountKey files w v = (w, rdkssaFileError)) := by
  constructor
  · intro content hsrc
    have hstep : rdkssaMountKey files w v =
        (if (fread content).length = 0 then
          (({ pp := { w.pp with
                mountKeyActualSize := (fread content).length
                mountKey := fread content ++ w.pp.mountKey.drop (fread content).length }
              stdin := if strncmpEq v "STDIN".toList "STDIN".toList.length then
                w.stdin.drop (fread content).length else w.stdin } : MountWorld),
            rdkssaFileError)
        else
          (({ pp := { w.pp with
                mountKeyActualSize := (fread content).length
                mountKey := fread content ++ w.pp.mountKey.drop (fread content).length }
              stdin := if strncmpEq v "STDIN".toList "STDIN".toList.length then
                w.stdin.drop (fread content).length else w.stdin } : MountWorld),
            rdkssaOK)) := by
      unfold rdkssaMountKey
      simp only [hcheck, if_false, hhandle, Bool.false_eq_true, hsrc]
    have hlen : (fread content).length = min MAX_ATTRIBUTE_VALUE_LENGTH content.length := by
      unfold fread
      exact List.length_take _ _
    have htake : (fread content ++ w.pp.mountKey.drop (fread content).length).take
        (fread content).length = content.take (min MAX_ATTRIBUTE_VALUE_LENGTH content.length) := by
      rw [List.take_left']
      · unfold fread
        rcases Nat.le_total MAX_ATTRIBUTE_VALUE_LENGTH content.length with h | h
        · rw [min_eq_left h]
        · rw [min_eq_right h, List.take_of_length_le h, List.take_of_length_le (Nat.le_refl _)]
      · rfl
    rw [hstep]
    by_cases hz : (fread content).length = 0
    · rw [if_pos hz]
      refine ⟨hlen, ?_, htake, ?_, fun _ => rfl⟩
      · show (fread content).length ≤ MAX_ATTRIBUTE_VALUE_LENGTH
        exact fread_length_le content
      · constructor
        · intro h
          have h2 : rdkssaFileError = rdkssaOK := h
          exact absurd h2 (by decide)
        · intro h
          exact absurd hz h
    · rw [if_neg hz]
      refine ⟨hlen, ?_, htake, ?_, fun h => absurd h hz⟩
      · show (fread content).length ≤ MAX_ATTRIBUTE_VALUE_LENGTH
        exact fread_length_le content
      · exact ⟨fun _ => hz, fun _ => rfl⟩
  · intro hsrc
    unfold rdkssaMountKey
    simp only [hcheck, if_false, hhandle, Bool.false_eq_true, hsrc]

/-- C33 on the key file `/etc/key` of three bytes. -/
theorem C33_key_handler_witness :
    (rdkssaMountKey sampleFiles ⟨initialParams none, []⟩ "/etc/key".toList).1.pp.mountKeyActualSize =
      min MAX_ATTRIBUTE_VALUE_LENGTH [1, 2, 3].length ∧
    (rdkssaMountKey sampleFiles ⟨initialParams none, []⟩ "/etc/key".toList).1.pp.mountKeyActualSize ≤
      MAX_ATTRIBUTE_VALUE_LENGTH ∧
    (rdkssaMountKey sampleFiles ⟨initialParams none, []⟩ "/etc/key".toList).1.pp.mountKey.take
        (rdkssaMountKey sampleFiles ⟨initialParams none, []⟩
          "/etc/key".toList).1.pp.mountKeyActualSize =
      [1, 2, 3].take (min MAX_ATTRIBUTE_VALUE_LENGTH [1, 2, 3].length) ∧
    ((rdkssaMountKey sampleFiles ⟨initialParams none, []⟩ "/etc/key".toList).2 = rdkssaOK ↔
      (rdkssaMountKey sampleFiles ⟨initialParams none, []⟩
        "/etc/key".toList).1.pp.mountKeyActualSize ≠ 0) ∧
    ((rdkssaMountKey sampleFiles ⟨initialParams none, []⟩
        "/etc/key".toList).1.pp.mountKeyActualSize = 0 →
      (rdkssaMountKey sampleFiles ⟨initialParams none, []⟩ "/etc/key".toList).2 =
        rdkssaFileError) :=
  (C33_key_handler sampleFiles ⟨initialParams none, []⟩ "/etc/key".toList
    (by decide) (by decide)).1 [1, 2, 3] (by decide)

/-- C36: every token sequence `parseProvCmds` returns has at least 1 and at
most 31 tokens, so `callProvider` never finds the first token missing: it
returns `rdkssaBadPointer` for a null command remainder, and for a remainder
that is not null only when `rdkssaMount` was called and returned it. -/
theorem C36_token_count :
    (∀ (s : Str) (toks : List Str), parseProvCmds (some s) = some toks →
      1 ≤ toks.length ∧ toks.length ≤ 31) ∧
    (∀ (s : Str), parseProvCmds (some s) ≠ some []) ∧
    (∀ (rdkssaMount : List Str → rdkssaStatus_t) (theProv : Str),
      callProvider rdkssaMount theProv none = (rdkssaBadPointer, [])) ∧
    (∀ (rdkssaMount : List Str → rdkssaStatus_t) (theProv provCmds : Str),
      (callProvider rdkssaMount theProv (some provCmds)).1 = rdkssaBadPointer →
      ∃ attrs, CliEvent.mount attrs ∈ (callProvider rdkssaMount theProv (some provCmds)).2 ∧
        rdkssaMount attrs = rdkssaBadPointer) := by
  have hcount : ∀ (s : Str) (toks : List Str), parseProvCmds (some s) = some toks →
      1 ≤ toks.length ∧ toks.length ≤ 31 := by
    intro s toks h
    obtain ⟨_, hne, hlt, _⟩ := parseProvCmds_shape h
    have : toks.length ≠ 0 := fun x => hne (List.length_eq_zero.1 x)
    unfold MAX_SUPPORTED_ATTRIBUTES at hlt
    omega
  refine ⟨hcount, ?_, fun _ _ => rfl, ?_⟩
  · intro s h
    have := (hcount s [] h).1
    simp at this
  · intro rdkssaMount theProv provCmds hbad
    unfold callProvider at hbad ⊢
    simp only at hbad ⊢
    cases hfind : (providerWrapperTable rdkssaMount).find? (fun p => p.1 = theProv) with
    | none =>
      rw [hfind] at hbad
      have h2 : rdkssaProviderNotFound = rdkssaBadPointer := hbad
      exact absurd h2 (by decide)
    | some pw =>
      obtain ⟨provname, wrapper⟩ := pw
      rw [hfind] at hbad
      have hmem := List.mem_of_find?_eq_some hfind
      simp only at hbad ⊢
      cases hparse : parseProvCmds (some provCmds) with
      | none =>
        rw [hparse] at hbad
        have h2 : rdkssaSyntaxError = rdkssaBadPointer := hbad
        exact absurd h2 (by decide)
      | some toks =>
        cases toks with
        | nil =>
          have := (hcount provCmds [] hparse).1
          simp at this
        | cons cmd attrs =>
          rw [hparse] at hbad
          simp only at hbad ⊢
          by_cases hl : strnlen cmd (MAX_ATTRIBUTE_NAME_LENGTH + 1) > MAX_ATTRIBUTE_NAME_LENGTH
          · rw [if_pos hl] at hbad
            have h2 : rdkssaSyntaxError = rdkssaBadPointer := hbad
            exact absurd h2 (by decide)
          · rw [if_neg hl] at hbad ⊢
            simp only at hbad ⊢
            simp only [providerWrapperTable, List.mem_cons, Prod.mk.injEq, List.mem_singleton,
              List.not_mem_nil, or_false] at hmem
            rcases hmem with ⟨_, rfl⟩ | ⟨_, rfl⟩ | ⟨_, rfl⟩ | ⟨_, rfl⟩
            · have h2 : rdkssaNYIError = rdkssaBadPointer := hbad
              exact absurd h2 (by decide)
            · have h2 : rdkssaNYIError = rdkssaBadPointer := hbad
              exact absurd h2 (by decide)
            · have h2 : rdkssaNYIError = rdkssaBadPointer := hbad
              exact absurd h2 (by decide)
            · by_cases hv : cmd = "MOUNT".toList
              · simp only [callMountProvider, if_pos hv] at hbad ⊢
                exact ⟨attrs, by simp, hbad⟩
              · simp only [callMountProvider, if_neg hv] at hbad
                have h2 : rdkssaNYIError = rdkssaBadPointer := hbad
                exact absurd h2 (by decide)

/-- C36 on the command remainder of the unit test: three tokens. -/
theorem C36_token_count_witness :
    1 ≤ utTokens.length ∧ utTokens.length ≤ 31 :=
  C36_token_count.1 utCommand utTokens (by decide)

/-- C38: for an empty attribute list `rdkssaHandleAPIHelper` calls no handler
and returns `rdkssaAttributeNotFound`, whatever the table; so `rdkssaMount`
with no attribute returns `rdkssaAttributeNotFound` without a call of the
channel, and so does `processCmd` on the command `{MOUNT=MOUNT}`. -/
theorem C38_empty_list :
    (∀ (β : Type) (blob : β) (table : List (AttributeHandlerStruct β)),
      rdkssaHandleAPIHelper blob (some []) (some table) =
        ⟨blob, rdkssaAttributeNotFound, []⟩) ∧
    rdkssaAttributeNotFound ≠ rdkssaOK ∧
    rdkssaAttributeNotFound ≠ rdkssaMissingAttribute ∧
    (∀ (env : MountEnv) (apiBlobPtr : Option Nat),
      rdkssaMount env apiBlobPtr (some []) =
        ⟨rdkssaAttributeNotFound, [], initialParams apiBlobPtr, []⟩) ∧
    (∀ (env : MountEnv),
      processCmd (rdkssaMountCli env) (some "\x7bMOUNT=MOUNT\x7d".toList) =
        (rdkssaAttributeNotFound,
          [CliEvent.selected "MOUNT".toList, CliEvent.tokenizer "MOUNT\x7d".toList,
            CliEvent.wrapper "MOUNT".toList "MOUNT".toList [], CliEvent.mount []])) := by
  refine ⟨fun _ _ _ => rfl, by decide, by decide, fun _ _ => rfl, fun _ => rfl⟩

/-- C38 on the table of the unit test, and on the sample environment. -/
theorem C38_empty_list_witness :
    rdkssaHandleAPIHelper ([] : List (Nat × Str)) (some []) (some utHndTable) =
      ⟨[], rdkssaAttributeNotFound, []⟩ ∧
    rdkssaMount (sampleEnv 0) none (some []) =
      ⟨rdkssaAttributeNotFound, [], initialParams none, []⟩ :=
  ⟨C38_empty_list.1 _ _ _, C38_empty_list.2.2.2.1 _ _⟩

/-! ## The tokenizer: when it succeeds -/

theorem strchr_mem {s : Str} {c : Char} {k : Nat} (h : strchr s c = some k) : c ∈ s := by
  by_contra hc
  rw [strchr_eq_none.2 hc] at h
  cases h

theorem strchr_ge : ∀ (a b : Str) (c : Char) (k : Nat),
    strchr (a ++ b) c = some k → c ∉ a → a.length ≤ k := by
  intro a
  induction a with
  | nil => intro b c k _ _; exact Nat.zero_le _
  | cons x xs ih =>
    intro b c k h hc
    simp only [List.mem_cons, not_or] at hc
    simp only [List.cons_append, strchr, Ne.symm hc.1, if_false, Option.map_eq_some'] at h
    obtain ⟨j, hj, rfl⟩ := h
    have := ih b c j hj hc.2
    simp only [List.length_cons]
    omega

/-- The missing-value test of the loop passes on a segment in which the first
`=` is not the final character, whatever follows the segment. -/
theorem value_check (t post : Str) (d : Char) (h : ¬ firstEqIsFinal t) :
    (strchr (t ++ d :: post) VALUE_DELIM).map (· + 1) ≠ some t.length := by
  by_cases hm : VALUE_DELIM ∈ t
  · rw [strchr_append_of_mem hm]
    exact h
  · cases hs : strchr (t ++ d :: post) VALUE_DELIM with
    | none => simp
    | some k =>
      have := strchr_ge t (d :: post) VALUE_DELIM k hs hm
      simp only [Option.map_some', ne_eq, Option.some.injEq]
      omega

/-- The missing-value test of the loop fails on a segment whose first `=` is
its final character: such a segment is never stored. -/
theorem value_check_fails (str : Str) (delim : Nat) (hd : delim < str.length)
    (h : firstEqIsFinal (str.take delim)) :
    (strchr str VALUE_DELIM).map (· + 1) = some delim := by
  unfold firstEqIsFinal at h
  have hlen : (str.take delim).length = delim := by
    rw [List.length_take]
    omega
  rw [hlen] at h
  cases hs : strchr (str.take delim) VALUE_DELIM with
  | none =>
    rw [hs] at h
    cases h
  | some k =>
    have hmem := strchr_mem hs
    have := strchr_append_of_mem (b := str.drop delim) hmem
    rw [List.take_append_drop] at this
    rw [this]
    exact h

/-- In no token that the loop stores is the first `=` the final character. -/
theorem parseLoop_values : ∀ (fuel : Nat) (str : Str) (strIx : Nat) (vec : List Str)
    (n : Nat) (out : List Str),
    parseLoop fuel str strIx vec = some (n, out) →
    ∃ toks, out = vec ++ toks ∧ ∀ t ∈ toks, ¬ firstEqIsFinal t := by
  intro fuel
  induction fuel with
  | zero => intro str strIx vec n out h; simp [parseLoop] at h
  | succ fuel ih =>
    intro str strIx vec n out h
    unfold parseLoop at h
    split at h
    · exact absurd h (by simp)
    · rename_i delim hd
      have hlt : delim < str.length := by
        have hg : str[delim]? ≠ none := by
          rcases findDelim_eq_some hd with h1 | ⟨_, h1⟩
          · rw [strchr_getElem? h1]
            simp
          · rw [strchr_getElem? h1]
            simp
        by_contra hge
        exact hg (List.getElem?_eq_none (Nat.le_of_not_lt hge))
      split at h
      · exact absurd h (by simp)
      · rename_i hv
        have htok : ¬ firstEqIsFinal (str.take delim) :=
          fun hf => hv (value_check_fails str delim hlt hf)
        simp only at h
        split at h
        · obtain ⟨toks, h1, h2⟩ := ih _ _ _ _ _ h
          refine ⟨str.take delim :: toks, by simp [h1], ?_⟩
          intro t ht
          rcases List.mem_cons.1 ht with rfl | ht
          · exact htok
          · exact h2 t ht
        · simp only [Option.some.injEq, Prod.mk.injEq] at h
          obtain ⟨_, rfl⟩ := h
          refine ⟨[str.take delim], rfl, ?_⟩
          intro t ht
          simp only [List.mem_singleton] at ht
          subst ht
          exact htok

theorem parseProvCmds_values {s : Str} {toks : List Str}
    (h : parseProvCmds (some s) = some toks) : ∀ t ∈ toks, ¬ firstEqIsFinal t := by
  unfold parseProvCmds at h
  simp only at h
  split at h
  · exact absurd h (by simp)
  · rename_i strIx newVector hl
    split at h
    · exact absurd h (by simp)
    · simp only [Option.some.injEq] at h
      subst h
      obtain ⟨tk, h1, h2⟩ := parseLoop_values _ _ _ _ _ _ hl
      simp only [List.nil_append] at h1
      subst h1
      exact h2

/-- The loop on an input made of segments: every segment is stored. -/
theorem parseLoop_complete (rest : Str) (hrest : ATTRIB_DELIM ∉ rest) :
    ∀ (toks : List Str), toks ≠ [] → (∀ t ∈ toks, ATTRIB_DELIM ∉ t) →
    (∀ t, toks.getLast? = some t → COMMAND_TAIL ∉ t) →
    (∀ t ∈ toks, ¬ firstEqIsFinal t) →
    ∀ (fuel strIx : Nat) (vec : List Str), toks.length ≤ fuel →
    strIx + toks.length ≤ MAX_SUPPORTED_ATTRIBUTES →
    parseLoop fuel (List.intercalate [ATTRIB_DELIM] toks ++ COMMAND_TAIL :: rest) strIx vec =
      some (strIx + toks.length, vec ++ toks) := by
  intro toks
  induction toks with
  | nil => intro h; exact absurd rfl h
  | cons t ts ih =>
    intro _ hcomma hlast hval fuel strIx vec hfuel hroom
    have ht : ATTRIB_DELIM ∉ t := hcomma t (List.mem_cons_self _ _)
    have hvt : ¬ firstEqIsFinal t := hval t (List.mem_cons_self _ _)
    cases fuel with
    | zero => simp at hfuel
    | succ fuel =>
      by_cases hts : ts = []
      · subst hts
        have htail : COMMAND_TAIL ∉ t := hlast t rfl
        have hstr : List.intercalate [ATTRIB_DELIM] [t] ++ COMMAND_TAIL :: rest =
            t ++ COMMAND_TAIL :: rest := by
          simp [List.intercalate]
        rw [hstr]
        have hc : strchr (t ++ COMMAND_TAIL :: rest) ATTRIB_DELIM = none := by
          rw [strchr_eq_none]
          simp only [List.mem_append, List.mem_cons, not_or]
          exact ⟨ht, by decide, hrest⟩
        have hd : findDelim (t ++ COMMAND_TAIL :: rest) = some t.length := by
          unfold findDelim
          rw [hc, strchr_append htail]
        have hg : (t ++ COMMAND_TAIL :: rest)[t.length]? = some COMMAND_TAIL :=
          strchr_getElem? (strchr_append htail)
        have hv := value_check t rest COMMAND_TAIL hvt
        rw [parseLoop]
        simp only [hd, hv, if_false, hg, ne_eq, not_true_eq_false, false_and,
          List.take_left', List.length_singleton]
      · have hstr : List.intercalate [ATTRIB_DELIM] (t :: ts) ++ COMMAND_TAIL :: rest =
            t ++ ATTRIB_DELIM :: (List.intercalate [ATTRIB_DELIM] ts ++ COMMAND_TAIL :: rest) := by
          rw [intercalate_cons_of_ne_nil _ _ hts]
          simp
        rw [hstr]
        have hd : findDelim
            (t ++ ATTRIB_DELIM :: (List.intercalate [ATTRIB_DELIM] ts ++ COMMAND_TAIL :: rest)) =
            some t.length := by
          unfold findDelim
          rw [strchr_append ht]
        have hg : (t ++ ATTRIB_DELIM ::
            (List.intercalate [ATTRIB_DELIM] ts ++ COMMAND_TAIL :: rest))[t.length]? =
            some ATTRIB_DELIM := strchr_getElem? (strchr_append ht)
        have hv := value_check t (List.intercalate [ATTRIB_DELIM] ts ++ COMMAND_TAIL :: rest)
          ATTRIB_DELIM hvt
        have hpos : 0 < ts.length := List.length_pos.2 hts
        have hroom2 : strIx + 1 < MAX_SUPPORTED_ATTRIBUTES := by
          simp only [List.length_cons] at hroom
          omega
        have hlast2 : ∀ u, ts.getLast? = some u → COMMAND_TAIL ∉ u := by
          intro u hu
          obtain ⟨x, xs, rfl⟩ := List.exists_cons_of_ne_nil hts
          exact hlast u (by rw [List.getLast?_cons_cons]; exact hu)
        have hrec := ih hts (fun u hu => hcomma u (List.mem_cons_of_mem _ hu)) hlast2
          (fun u hu => hval u (List.mem_cons_of_mem _ hu)) fuel (strIx + 1) (vec ++ [t])
          (by simp only [List.length_cons] at hfuel; omega)
          (by simp only [List.length_cons] at hroom; omega)
        have hdrop : (t ++ ATTRIB_DELIM ::
            (List.intercalate [ATTRIB_DELIM] ts ++ COMMAND_TAIL :: rest)).drop (t.length + 1) =
            List.intercalate [ATTRIB_DELIM] ts ++ COMMAND_TAIL :: rest := by
          rw [List.drop_append_eq_append_drop]
          simp
        have hne : (some ATTRIB_DELIM : Option Char) ≠ some COMMAND_TAIL := by decide
        rw [parseLoop]
        simp only [hd, hv, if_false, hg, ne_eq, hne, not_false_eq_true, hroom2, and_self,
          if_true, List.take_left', hdrop, hrec, List.length_cons, List.append_assoc,
          List.singleton_append]
        simp only [Option.some.injEq, Prod.mk.injEq, and_true]
        omega

/-- The tokenizer succeeds on an input made of at most 31 segments without
comma, the last closed by `}`, in none of which the first `=` is the final
character, and returns the segments. -/
theorem parseProvCmds_complete (toks : List Str) (rest : Str)
    (hne : toks ≠ []) (hlen : toks.length < MAX_SUPPORTED_ATTRIBUTES)
    (hcomma : ∀ t ∈ toks, ATTRIB_DELIM ∉ t)
    (hlast : ∀ t, toks.getLast? = some t → COMMAND_TAIL ∉ t)
    (hrest : ATTRIB_DELIM ∉ rest)
    (hval : ∀ t ∈ toks, ¬ firstEqIsFinal t) :
    parseProvCmds (some (List.intercalate [ATTRIB_DELIM] toks ++ COMMAND_TAIL :: rest)) =
      some toks := by
  have h := parseLoop_complete rest hrest toks hne hcomma hlast hval MAX_SUPPORTED_ATTRIBUTES 0 []
    (Nat.le_of_lt hlen) (by omega)
  unfold parseProvCmds
  simp only [h, Nat.zero_add, List.nil_append, ge_iff_le, Nat.not_le.2 hlen, if_false]

/-! ## The pieces of an input between its commas -/

theorem commaPieces_ne_nil : ∀ (s : Str), commaPieces s ≠ [] := by
  intro s
  cases s with
  | nil => simp [commaPieces]
  | cons c cs =>
    unfold commaPieces
    split_ifs
    · simp
    · split <;> simp

theorem commaPieces_no_comma : ∀ (t : Str), ATTRIB_DELIM ∉ t → commaPieces t = [t] := by
  intro t
  induction t with
  | nil => intro _; rfl
  | cons c cs ih =>
    intro h
    simp only [List.mem_cons, not_or] at h
    have hc : ¬ c = ATTRIB_DELIM := Ne.symm h.1
    unfold commaPieces
    rw [if_neg hc, ih h.2]

theorem commaPieces_append : ∀ (t post : Str), ATTRIB_DELIM ∉ t →
    commaPieces (t ++ ATTRIB_DELIM :: post) = t :: commaPieces post := by
  intro t
  induction t with
  | nil =>
    intro post _
    simp [commaPieces]
  | cons c cs ih =>
    intro post h
    simp only [List.mem_cons, not_or] at h
    have hc : ¬ c = ATTRIB_DELIM := Ne.symm h.1
    rw [List.cons_append, commaPieces, if_neg hc, ih post h.2]

theorem commaPieces_intercalate : ∀ (toks : List Str), toks ≠ [] →
    (∀ t ∈ toks, ATTRIB_DELIM ∉ t) →
    commaPieces (List.intercalate [ATTRIB_DELIM] toks) = toks := by
  intro toks
  induction toks with
  | nil => intro h; exact absurd rfl h
  | cons t ts ih =>
    intro _ hcomma
    have ht := hcomma t (List.mem_cons_self _ _)
    by_cases hts : ts = []
    · subst hts
      have : List.intercalate [ATTRIB_DELIM] [t] = t := by simp [List.intercalate]
      rw [this]
      exact commaPieces_no_comma t ht
    · rw [intercalate_cons_of_ne_nil _ _ hts, List.append_assoc, List.singleton_append,
        commaPieces_append t _ ht, ih hts (fun u hu => hcomma u (List.mem_cons_of_mem _ hu))]

theorem commaPieces_mem : ∀ (s : Str), ∀ p ∈ commaPieces s, ATTRIB_DELIM ∉ p := by
  intro s
  induction s with
  | nil =>
    intro p hp
    simp only [commaPieces, List.mem_singleton] at hp
    subst hp
    simp
  | cons c cs ih =>
    intro p hp
    unfold commaPieces at hp
    by_cases hc : c = ATTRIB_DELIM
    · rw [if_pos hc] at hp
      rcases List.mem_cons.1 hp with rfl | hp
      · simp
      · exact ih p hp
    · rw [if_neg hc] at hp
      cases hq : commaPieces cs with
      | nil => exact absurd hq (commaPieces_ne_nil cs)
      | cons q qs =>
        rw [hq] at hp ih
        simp only at hp
        rcases List.mem_cons.1 hp with rfl | hp
        · simp only [List.mem_cons, not_or]
          exact ⟨Ne.symm hc, ih q (List.mem_cons_self _ _)⟩
        · exact ih p (List.mem_cons_of_mem _ hp)

theorem intercalate_cons_cons (sep : Str) (c : Char) (p : Str) (ps : List Str) :
    List.intercalate sep ((c :: p) :: ps) = c :: List.intercalate sep (p :: ps) := by
  cases ps with
  | nil => simp [List.intercalate]
  | cons q qs =>
    rw [intercalate_cons_of_ne_nil sep (c :: p) (List.cons_ne_nil q qs),
      intercalate_cons_of_ne_nil sep p (List.cons_ne_nil q qs)]
    simp

theorem intercalate_commaPieces : ∀ (s : Str),
    List.intercalate [ATTRIB_DELIM] (commaPieces s) = s := by
  intro s
  induction s with
  | nil => simp [commaPieces, List.intercalate]
  | cons c cs ih =>
    unfold commaPieces
    by_cases hc : c = ATTRIB_DELIM
    · rw [if_pos hc, intercalate_cons_of_ne_nil _ _ (commaPieces_ne_nil cs), ih, hc]
      simp
    · rw [if_neg hc]
      cases hq : commaPieces cs with
      | nil => exact absurd hq (commaPieces_ne_nil cs)
      | cons q qs =>
        rw [hq] at ih
        simp only
        rw [intercalate_cons_cons, ih]

theorem intercalate_append_last (sep : Str) : ∀ (init : List Str) (l x : Str),
    List.intercalate sep (init ++ [l]) ++ x = List.intercalate sep (init ++ [l ++ x]) := by
  intro init
  induction init with
  | nil =>
    intro l x
    simp [List.intercalate]
  | cons a init ih =>
    intro l x
    rw [List.cons_append, List.cons_append,
      intercalate_cons_of_ne_nil sep a (by simp : init ++ [l] ≠ []),
      intercalate_cons_of_ne_nil sep a (by simp : init ++ [l ++ x] ≠ []),
      List.append_assoc, ih]

theorem cutAtTail_append : ∀ (a b : Str), COMMAND_TAIL ∉ a →
    cutAtTail (a ++ COMMAND_TAIL :: b) = a := by
  intro a
  induction a with
  | nil =>
    intro b _
    simp [cutAtTail, List.takeWhile]
  | cons c cs ih =>
    intro b h
    simp only [List.mem_cons, not_or] at h
    have hc : (c != COMMAND_TAIL) = true := by
      simp only [bne_iff_ne, ne_eq]
      exact Ne.symm h.1
    have := ih b h.2
    unfold cutAtTail at this ⊢
    rw [List.cons_append, List.takeWhile_cons, hc]
    simp only [if_true]
    rw [this]

/-- What the pieces, the text after the last comma and the segments of an
input `t1,...,tn}rest` are. -/
theorem specSegments_of_shape (toks : List Str) (rest : Str)
    (hne : toks ≠ []) (hcomma : ∀ t ∈ toks, ATTRIB_DELIM ∉ t)
    (hlast : ∀ t, toks.getLast? = some t → COMMAND_TAIL ∉ t)
    (hrest : ATTRIB_DELIM ∉ rest) :
    (commaPieces (List.intercalate [ATTRIB_DELIM] toks ++ COMMAND_TAIL :: rest)).length =
      toks.length ∧
    COMMAND_TAIL ∈ afterLastComma (List.intercalate [ATTRIB_DELIM] toks ++ COMMAND_TAIL :: rest) ∧
    specSegments (List.intercalate [ATTRIB_DELIM] toks ++ COMMAND_TAIL :: rest) = toks := by
  obtain ⟨last, hl⟩ : ∃ last, toks.getLast? = some last := by
    cases h : toks.getLast? with
    | none => exact absurd (List.getLast?_eq_none_iff.1 h) hne
    | some l => exact ⟨l, rfl⟩
  have hsplit : toks.dropLast ++ [last] = toks := List.dropLast_append_getLast? last hl
  have hlc : ATTRIB_DELIM ∉ last := hcomma last (List.mem_of_getLast?_eq_some hl)
  have hlt : COMMAND_TAIL ∉ last := hlast last hl
  have hpieces : commaPieces (List.intercalate [ATTRIB_DELIM] toks ++ COMMAND_TAIL :: rest) =
      toks.dropLast ++ [last ++ COMMAND_TAIL :: rest] := by
    conv_lhs => rw [← hsplit]
    rw [intercalate_append_last]
    apply commaPieces_intercalate
    · simp
    · intro t ht
      rcases List.mem_append.1 ht with ht | ht
      · exact hcomma t (List.mem_of_mem_dropLast ht)
      · simp only [List.mem_singleton] at ht
        subst ht
        simp only [List.mem_append, List.mem_cons, not_or]
        exact ⟨hlc, by decide, hrest⟩
  have hafter : afterLastComma (List.intercalate [ATTRIB_DELIM] toks ++ COMMAND_TAIL :: rest) =
      last ++ COMMAND_TAIL :: rest := by
    unfold afterLastComma
    rw [hpieces]
    simp
  refine ⟨?_, ?_, ?_⟩
  · rw [hpieces]
    conv_rhs => rw [← hsplit]
    simp
  · rw [hafter]
    simp
  · unfold specSegments
    rw [hafter, hpieces, cutAtTail_append last rest hlt]
    simp only [List.dropLast_concat]
    exact hsplit

/-- An input that the three conditions accept is made of its segments. -/
theorem shape_of_specAccepts (s : Str) (h : COMMAND_TAIL ∈ afterLastComma s) :
    ∃ rest, s = List.intercalate [ATTRIB_DELIM] (specSegments s) ++ COMMAND_TAIL :: rest ∧
      (specSegments s).length = (commaPieces s).length ∧
      (∀ t ∈ specSegments s, ATTRIB_DELIM ∉ t) ∧
      (∀ t, (specSegments s).getLast? = some t → COMMAND_TAIL ∉ t) ∧
      ATTRIB_DELIM ∉ rest := by
  have hne := commaPieces_ne_nil s
  have hl : (commaPieces s).getLast? = some (afterLastComma s) := by
    unfold afterLastComma
    cases hq : (commaPieces s).getLast? with
    | none => exact absurd (List.getLast?_eq_none_iff.1 hq) hne
    | some l => rfl
  have hsplit : (commaPieces s).dropLast ++ [afterLastComma s] = commaPieces s :=
    List.dropLast_append_getLast? _ hl
  have hLc : ATTRIB_DELIM ∉ afterLastComma s :=
    commaPieces_mem s _ (List.mem_of_getLast?_eq_some hl)
  obtain ⟨k, hk⟩ : ∃ k, strchr (afterLastComma s) COMMAND_TAIL = some k := by
    cases hq : strchr (afterLastComma s) COMMAND_TAIL with
    | none => exact absurd h (strchr_eq_none.1 hq)
    | some k => exact ⟨k, rfl⟩
  obtain ⟨e1, e2⟩ := strchr_eq_some hk
  have hcut : cutAtTail (afterLastComma s) = (afterLastComma s).take k := by
    conv_lhs => rw [e1]
    exact cutAtTail_append _ _ e2
  refine ⟨(afterLastComma s).drop (k + 1), ?_, ?_, ?_, ?_, ?_⟩
  · unfold specSegments
    rw [hcut, intercalate_append_last, ← e1, hsplit, intercalate_commaPieces]
  · unfold specSegments
    conv_rhs => rw [← hsplit]
    simp
  · intro t ht
    unfold specSegments at ht
    rcases List.mem_append.1 ht with ht | ht
    · exact commaPieces_mem s t (List.mem_of_mem_dropLast ht)
    · simp only [List.mem_singleton] at ht
      subst ht
      rw [hcut]
      exact fun hm => hLc (List.mem_of_mem_take hm)
  · intro t ht
    unfold specSegments at ht
    simp only [List.getLast?_append, List.getLast?_singleton] at ht
    have ht2 : some (cutAtTail (afterLastComma s)) = some t := ht
    simp only [Option.some.injEq] at ht2
    subst ht2
    rw [hcut]
    exact e2
  · exact fun hm => hLc (List.mem_of_mem_drop hm)

/-! ## The claims on what the tokenizer accepts -/

/-- C34 fails in the code: the loop looks for the next `,` before it looks
for `}`, so a `}` that a comma follows does not stop it. On the input
`a}b,c}`, whose first `}` is at offset 1, `parseProvCmds` succeeds with the
tokens `a}b` and `c`: the first token contains a `}`, and both tokens contain
text located after the first `}`. -/
theorem C34_tail_inside_token :
    parseProvCmds (some "a\x7db,c\x7d".toList) = some ["a\x7db".toList, "c".toList] ∧
    strchr "a\x7db,c\x7d".toList COMMAND_TAIL = some 1 ∧
    COMMAND_TAIL ∈ "a\x7db".toList ∧
    ("a\x7db,c\x7d".toList.drop 2).take 1 = "b".toList ∧
    ("a\x7db,c\x7d".toList.drop 4).take 1 = "c".toList := by
  decide

/-- C35: `parseProvCmds` succeeds on an input exactly when (1) the text after
its last `,` contains a `}`, (2) it splits at its commas into at most 31
segments, and (3) in no segment, the last one cut at its first `}`, is the
first `=` the final character; it then returns these segments. The input
`A=b=}` is accepted, with the token `A=b=`. -/
theorem C35_acceptance (s : Str) :
    parseProvCmds (some s) = (if specAccepts s then some (specSegments s) else none) ∧
    (parseProvCmds (some s) ≠ none ↔ specAccepts s) ∧
    parseProvCmds (some "A=b=\x7d".toList) = some ["A=b=".toList] := by
  have hfirst : parseProvCmds (some s) =
      (if specAccepts s then some (specSegments s) else none) := by
    by_cases hacc : specAccepts s
    · rw [if_pos hacc]
      obtain ⟨h1, h2, h3⟩ := hacc
      obtain ⟨rest, e, hlen, hcomma, hlast, hrest⟩ := shape_of_specAccepts s h1
      have hne : specSegments s ≠ [] := by
        unfold specSegments
        simp
      have := parseProvCmds_complete (specSegments s) rest hne
        (by rw [hlen]; unfold MAX_SUPPORTED_ATTRIBUTES; omega) hcomma hlast hrest h3
      rw [← e] at this
      exact this
    · rw [if_neg hacc]
      cases hp : parseProvCmds (some s) with
      | none => rfl
      | some toks =>
        exfalso
        apply hacc
        obtain ⟨rest, hne, hlt, e, hcomma, hlast, hrest⟩ := parseProvCmds_shape hp
        obtain ⟨c1, c2, c3⟩ := specSegments_of_shape toks rest hne hcomma hlast hrest
        rw [← e] at c1 c2 c3
        refine ⟨c2, ?_, ?_⟩
        · rw [c1]
          unfold MAX_SUPPORTED_ATTRIBUTES at hlt
          omega
        · rw [c3]
          exact parseProvCmds_values hp
  refine ⟨hfirst, ?_, by decide⟩
  rw [hfirst]
  by_cases hacc : specAccepts s
  · simp [hacc]
  · simp [hacc]

/-- C35 on the command of the unit test, and on an input whose last segment
is `A=`. -/
theorem C35_acceptance_witness :
    parseProvCmds (some utCommand) = some (specSegments utCommand) ∧
    parseProvCmds (some "A=b,A=\x7d".toList) = none :=
  ⟨(C35_acceptance utCommand).1.trans (by decide),
   (C35_acceptance "A=b,A=\x7d".toList).1.trans (by decide)⟩

/-- C37 does not hold as stated: `x}` is tokenized, the 2048 characters `z`
have no comma, and the command `{STOR=x}` followed by them is not executed
like `{STOR=x}`: the first returns `rdkssaBadLength`, the second
`rdkssaNYIError`. -/
theorem C37_counterexample :
    parseProvCmds (some "x\x7d".toList) = some ["x".toList] ∧
    ATTRIB_DELIM ∉ zName 2048 ∧
    (processCmd (fun _ => rdkssaOK) (some "\x7bSTOR=x\x7d".toList)).1 = rdkssaNYIError ∧
    (processCmd (fun _ => rdkssaOK) (some ("\x7bSTOR=x\x7d".toList ++ zName 2048))).1 =
      rdkssaBadLength ∧
    rdkssaBadLength ≠ rdkssaNYIError := by
  refine ⟨by decide, ?_, by decide, ?_, by decide⟩
  · intro hm
    unfold zName at hm
    exact absurd (List.mem_replicate.1 hm).2 (by decide)
  · rw [processCmd_too_long]
    simp only [List.length_append, zName_length]
    decide

/-- C37, amended: for every input `s` on which `parseProvCmds` succeeds and
every string `j` without `,`, `parseProvCmds` returns the same tokens on
`s ++ j`; so a command `{keyword=s` followed by `j`, when it is still at most
2048 characters long, returns the status of the command without `j`, with the
same calls of `rdkssaMount`. -/
theorem C37_trailing_text_ignored (s j : Str) (toks : List Str)
    (hparse : parseProvCmds (some s) = some toks) (hj : ATTRIB_DELIM ∉ j) :
    parseProvCmds (some (s ++ j)) = some toks ∧
    (∀ (rdkssaMount : List Str → rdkssaStatus_t) (keyword : Str), VALUE_DELIM ∉ keyword →
      (COMMAND_HEAD :: (keyword ++ VALUE_DELIM :: (s ++ j))).length ≤ 2048 →
      (processCmd rdkssaMount (some (COMMAND_HEAD :: (keyword ++ VALUE_DELIM :: (s ++ j))))).1 =
        (processCmd rdkssaMount (some (COMMAND_HEAD :: (keyword ++ VALUE_DELIM :: s)))).1 ∧
      (∀ a, CliEvent.mount a ∈
          (processCmd rdkssaMount
            (some (COMMAND_HEAD :: (keyword ++ VALUE_DELIM :: (s ++ j))))).2 ↔
        CliEvent.mount a ∈
          (processCmd rdkssaMount (some (COMMAND_HEAD :: (keyword ++ VALUE_DELIM :: s)))).2)) := by
  obtain ⟨rest, hne, hlt, e, hcomma, hlast, hrest⟩ := parseProvCmds_shape hparse
  have hparse2 : parseProvCmds (some (s ++ j)) = some toks := by
    have hrj : ATTRIB_DELIM ∉ rest ++ j := by
      simp only [List.mem_append, not_or]
      exact ⟨hrest, hj⟩
    have := parseProvCmds_complete toks (rest ++ j) hne hlt hcomma hlast hrj
      (parseProvCmds_values hparse)
    rw [e, List.append_assoc, List.cons_append]
    exact this
  refine ⟨hparse2, ?_⟩
  intro rdkssaMount keyword hk hlen
  have hlen2 : (COMMAND_HEAD :: (keyword ++ VALUE_DELIM :: s)).length ≤ 2048 := by
    simp only [List.length_cons, List.length_append] at hlen ⊢
    omega
  rw [processCmd_keyword rdkssaMount keyword (s ++ j) hk hlen,
    processCmd_keyword rdkssaMount keyword s hk hlen2]
  unfold callProvider
  simp only [hparse, hparse2]
  cases (providerWrapperTable rdkssaMount).find? (fun p => p.1 = keyword) with
  | none => exact ⟨rfl, fun _ => Iff.rfl⟩
  | some pw =>
    obtain ⟨provname, wrapper⟩ := pw
    obtain ⟨cmd, attrs, rfl⟩ := List.exists_cons_of_ne_nil hne
    simp only
    split_ifs
    · refine ⟨rfl, fun a => ?_⟩
      simp
    · refine ⟨rfl, fun a => ?_⟩
      simp

/-- C37 on the command of the end-to-end scenario without its key, followed by
the text `junk`. -/
theorem C37_trailing_text_ignored_witness :
    parseProvCmds (some ("MOUNT,MOUNTPOINT=/nvram/rdkssa,PATH=/nvram/secure\x7d".toList ++
        "junk".toList)) =
      some ["MOUNT".toList, "MOUNTPOINT=/nvram/rdkssa".toList, "PATH=/nvram/secure".toList] :=
  (C37_trailing_text_ignored "MOUNT,MOUNTPOINT=/nvram/rdkssa,PATH=/nvram/secure\x7d".toList
    "junk".toList
    ["MOUNT".toList, "MOUNTPOINT=/nvram/rdkssa".toList, "PATH=/nvram/secure".toList]
    (by decide) (by decide)).1

/-! ## The claims on repeated attributes and on the length of the values -/

/-- C39 does not hold as stated: in the list of 33 tokens of name `A4` the
handler of `A4` is called 32 times, and its slot holds `ghi`, not the value
`mno` of the last occurrence; in the list `A4=ghi`, `A9=zzz`, `A4=mno` the
dispatch stops at the unknown `A9`, the handler of `A4` is called once and its
slot holds `ghi`. -/
theorem C39_counterexample :
    ((thirtyThreeTimesA4.map nameOf).count "A4".toList = 33 ∧
      thirtyThreeTimesA4.getLast? = some "A4=mno".toList ∧
      callCount (rdkssaHandleAPIHelper (fun _ => none) (some thirtyThreeTimesA4)
        (some (slotTable utHndlNames2))).calls 3 = 32 ∧
      (rdkssaHandleAPIHelper (fun _ => none) (some thirtyThreeTimesA4)
        (some (slotTable utHndlNames2))).blob 3 = some "ghi".toList) ∧
    ((twiceA4AroundUnknown.map nameOf).count "A4".toList = 2 ∧
      (rdkssaHandleAPIHelper (fun _ => none) (some twiceA4AroundUnknown)
        (some (slotTable utHndlNames2))).calls = [(3, "ghi".toList)] ∧
      (rdkssaHandleAPIHelper (fun _ => none) (some twiceA4AroundUnknown)
        (some (slotTable utHndlNames2))).blob 3 = some "ghi".toList) := by
  decide

theorem foldl_update_other (names : List Str) (k : Nat) :
    ∀ (post : List Str) (ctx : SlotCtx),
    (∀ u ∈ post, slotOf names (nameOf u) ≠ k) →
    (post.foldl (fun c t => Function.update c (slotOf names (nameOf t)) (some (valueOf t)))
      ctx) k = ctx k := by
  intro post
  induction post with
  | nil => intro ctx _; rfl
  | cons u us ih =>
    intro ctx h
    rw [List.foldl_cons, ih _ (fun x hx => h x (List.mem_cons_of_mem _ hx))]
    exact Function.update_noteq (Ne.symm (h u (List.mem_cons_self _ _))) _ _

theorem callCount_slots (names : List Str) (n : Str) (hn : n ∈ names) :
    ∀ (attrs : List Str), (∀ t ∈ attrs, nameOf t ∈ names) →
    callCount (attrs.map (fun t => (slotOf names (nameOf t), valueOf t))) (slotOf names n) =
      (attrs.map nameOf).count n := by
  intro attrs
  induction attrs with
  | nil => intro _; rfl
  | cons t ts ih =>
    intro h
    have iht := ih (fun x hx => h x (List.mem_cons_of_mem _ hx))
    unfold callCount at iht ⊢
    simp only [List.map_cons, List.count_cons, iht]
    by_cases e : nameOf t = n
    · simp [e]
    · have : slotOf names (nameOf t) ≠ slotOf names n :=
        fun x => e (slotOf_inj names _ _ (h t (List.mem_cons_self _ _)) hn x)
      simp [e, this]

/-- C39, amended: with a table of at most 32 names whose handlers each record
their value in their own slot, and a list of at most 32 tokens of valid length
whose names are in the table, `rdkssaHandleAPIHelper` calls one handler for
each token, in list order, each with the value of its token: the handler of a
name is called once per occurrence of the name, and its slot is left with the
value of the last occurrence. -/
theorem C39_once_per_occurrence (names attrs : List Str) (ctx : SlotCtx)
    (hnames : ∀ n ∈ names, n.length ≤ MAX_ATTRIBUTE_NAME_LENGTH)
    (hroom : names.length ≤ MAX_SUPPORTED_ATTRIBUTES)
    (hlen : attrs.length ≤ MAX_SUPPORTED_ATTRIBUTES)
    (hvalid : ∀ t ∈ attrs, validLength t ∧ nameOf t ≠ [] ∧ nameOf t ∈ names) :
    (rdkssaHandleAPIHelper ctx (some attrs) (some (slotTable names))).calls =
      attrs.map (fun t => (slotOf names (nameOf t), valueOf t)) ∧
    (∀ n ∈ names,
      callCount (rdkssaHandleAPIHelper ctx (some attrs) (some (slotTable names))).calls
        (slotOf names n) = (attrs.map nameOf).count n) ∧
    (∀ (pre : List Str) (t : Str) (post : List Str), attrs = pre ++ t :: post →
      (∀ u ∈ post, nameOf u ≠ nameOf t) →
      (rdkssaHandleAPIHelper ctx (some attrs) (some (slotTable names))).blob
        (slotOf names (nameOf t)) = some (valueOf t)) := by
  have hres : rdkssaHandleAPIHelper ctx (some attrs) (some (slotTable names)) =
      ⟨attrs.foldl (fun c t => Function.update c (slotOf names (nameOf t)) (some (valueOf t))) ctx,
        if attrs = [] then rdkssaAttributeNotFound else rdkssaOK,
        attrs.map (fun t => (slotOf names (nameOf t), valueOf t))⟩ :=
    handleLoop_slotTable names hnames hroom attrs 0 ctx rdkssaAttributeNotFound
      (by rw [Nat.zero_add]; exact hlen) hvalid
  rw [hres]
  refine ⟨rfl, ?_, ?_⟩
  · intro n hn
    exact callCount_slots names n hn attrs (fun t ht => (hvalid t ht).2.2)
  · intro pre t post e hpost
    subst e
    simp only [List.foldl_append, List.foldl_cons]
    rw [foldl_update_other names (slotOf names (nameOf t)) post _ ?_]
    · exact Function.update_same _ _ _
    · intro u hu x
      have hu2 := (hvalid u (by simp [hu])).2.2
      have ht2 := (hvalid t (by simp)).2.2
      exact hpost u hu (slotOf_inj names _ _ hu2 ht2 x)

/-- C39 on the list `attArray2` of the unit test: five calls in list order,
two of them of the handler of `A4`, whose slot holds `mno`. -/
theorem C39_once_per_occurrence_witness :
    (rdkssaHandleAPIHelper (fun _ => none) (some attArray2)
        (some (slotTable utHndlNames2))).calls =
      [(2, "abc".toList), (1, "def".toList), (3, "ghi".toList), (0, "jkl".toList),
        (3, "mno".toList)] ∧
    callCount (rdkssaHandleAPIHelper (fun _ => none) (some attArray2)
        (some (slotTable utHndlNames2))).calls 3 = 2 ∧
    (rdkssaHandleAPIHelper (fun _ => none) (some attArray2)
        (some (slotTable utHndlNames2))).blob 3 = some "mno".toList :=
  ⟨(C39_once_per_occurrence utHndlNames2 attArray2 (fun _ => none) (by decide) (by decide)
      (by decide) (by decide)).1.trans (by decide),
   ((C39_once_per_occurrence utHndlNames2 attArray2 (fun _ => none) (by decide) (by decide)
      (by decide) (by decide)).2.1 "A4".toList (by decide)).trans (by decide),
   (C39_once_per_occurrence utHndlNames2 attArray2 (fun _ => none) (by decide) (by decide)
      (by decide) (by decide)).2.2
      ["A3=abc".toList, "A2=def".toList, "A4=ghi".toList, "A1=jkl".toList] "A4=mno".toList []
      rfl (by intro u hu; cases hu)⟩


theorem rdkssaAttrCheck_ok (v : Str) (hne : v ≠ []) (hlen : v.length ≤ MAX_ATTRIBUTE_VALUE_LENGTH)
    (hchars : ∀ c ∈ v, c ∉ RDKSSA_BADCHARS) : rdkssaAttrCheck (some v) = some v := by
  have h2 : ¬ (strnlen v (MAX_ATTRIBUTE_VALUE_LENGTH + 1) > MAX_ATTRIBUTE_VALUE_LENGTH) := by
    unfold strnlen
    omega
  have h3 : strpbrk v RDKSSA_BADCHARS = none := strpbrk_eq_none.2 hchars
  unfold rdkssaAttrCheck
  simp only [hne, if_false, h2, h3, ne_eq, not_true_eq_false]

theorem nameOf_valueOf_append (name v : Str) (h : VALUE_DELIM ∉ name) :
    nameOf (name ++ VALUE_DELIM :: v) = name ∧ valueOf (name ++ VALUE_DELIM :: v) = v := by
  obtain ⟨e1, e2⟩ := nameOf_valueOf_of_strchr _ _ (strchr_append (b := v) h)
  rw [List.take_left'] at e1
  · refine ⟨e1.symm, ?_⟩
    rw [← e2, List.drop_append_eq_append_drop]
    simp
  · rfl

/-- The length of a token is that of its name and its value, with the `=`
between them if it has one. -/
theorem token_length (t : Str) :
    (VALUE_DELIM ∈ t ∧ t.length = (nameOf t).length + 1 + (valueOf t).length) ∨
    (VALUE_DELIM ∉ t ∧ nameOf t = t ∧ valueOf t = t) := by
  cases hs : strchr t VALUE_DELIM with
  | none =>
    right
    exact ⟨strchr_eq_none.1 hs, nameOf_valueOf_of_strchr_none t hs⟩
  | some k =>
    left
    obtain ⟨e1, e2⟩ := nameOf_valueOf_of_strchr t k hs
    obtain ⟨e3, _⟩ := strchr_eq_some hs
    refine ⟨strchr_mem hs, ?_⟩
    have := congrArg List.length e3
    rw [e1, e2] at this
    simp only [List.length_append, List.length_cons] at this
    omega

theorem handleLoop_calls_mem {β : Type} (table : List (AttributeHandlerStruct β)) :
    ∀ (attrs : List Str) (i : Nat) (blob : β) (st : rdkssaStatus_t),
    ∀ c ∈ (handleLoop (some table) i blob st attrs).calls,
    ∃ b t, t ∈ attrs ∧ c ∈ (attributeHandlerHelper b (some t) (some table)).calls := by
  intro attrs
  induction attrs with
  | nil =>
    intro i blob st c hc
    simp [handleLoop] at hc
  | cons a rest ih =>
    intro i blob st c hc
    by_cases hi : i < MAX_SUPPORTED_ATTRIBUTES
    · by_cases hs : (attributeHandlerHelper blob (some a) (some table)).status = rdkssaOK
      · simp only [handleLoop, hi, if_true, hs, ne_eq, not_true_eq_false, if_false,
          List.mem_append] at hc
        rcases hc with hc | hc
        · exact ⟨blob, a, List.mem_cons_self _ _, hc⟩
        · obtain ⟨b, t, ht, hm⟩ := ih _ _ _ c hc
          exact ⟨b, t, List.mem_cons_of_mem _ ht, hm⟩
      · simp only [handleLoop, hi, if_true, hs, ne_eq, not_false_eq_true] at hc
        exact ⟨blob, a, List.mem_cons_self _ _, hc⟩
    · simp only [handleLoop, hi, if_false] at hc
      cases hc

theorem rdkssaMount_calls (env : MountEnv) (apiBlobPtr : Option Nat)
    (apiAttributes : Option (List Str)) :
    (rdkssaMount env apiBlobPtr apiAttributes).calls =
      (mountDispatch env apiBlobPtr apiAttributes).calls := by
  unfold rdkssaMount
  simp only
  split_ifs <;> rfl

/-- A call of the handler of `MOUNTPOINT` (table entry 0) or of `PATH` (table
entry 1) in a dispatch over the table of the Mount provider comes from a token
of valid length of that name, and its argument is the value of the token. -/
theorem mount_call (files : FileSystem) (w : MountWorld) (t : Str) (j : Nat) (v : Str)
    (h : (j, v) ∈ (attributeHandlerHelper w (some t) (some (mountHandlers files))).calls) :
    validLength t ∧ v = valueOf t ∧
    (j = 0 → nameOf t = "MOUNTPOINT".toList) ∧ (j = 1 → nameOf t = "PATH".toList) := by
  rw [mount_dispatch] at h
  by_cases hv : validLength t
  · rw [if_neg (not_not.2 hv)] at h
    by_cases he : nameOf t = []
    · rw [if_pos he] at h
      simp at h
    · rw [if_neg he] at h
      by_cases h0 : nameOf t = "MOUNTPOINT".toList
      · rw [if_pos h0] at h
        simp only [List.mem_singleton, Prod.mk.injEq] at h
        obtain ⟨rfl, rfl⟩ := h
        exact ⟨hv, rfl, fun _ => h0, fun x => absurd x (by decide)⟩
      · rw [if_neg h0] at h
        by_cases h1 : nameOf t = "PATH".toList
        · rw [if_pos h1] at h
          simp only [List.mem_singleton, Prod.mk.injEq] at h
          obtain ⟨rfl, rfl⟩ := h
          exact ⟨hv, rfl, fun x => absurd x (by decide), fun _ => h1⟩
        · rw [if_neg h1] at h
          by_cases h2 : nameOf t = "KEY".toList
          · rw [if_pos h2] at h
            simp only [List.mem_singleton, Prod.mk.injEq] at h
            obtain ⟨rfl, rfl⟩ := h
            exact ⟨hv, rfl, fun x => absurd x (by decide), fun x => absurd x (by decide)⟩
          · rw [if_neg h2] at h
            by_cases h3 : nameOf t = "PARTITION".toList
            · rw [if_pos h3] at h
              simp only [List.mem_singleton, Prod.mk.injEq] at h
              obtain ⟨rfl, rfl⟩ := h
              exact ⟨hv, rfl, fun x => absurd x (by decide), fun x => absurd x (by decide)⟩
            · rw [if_neg h3] at h
              simp at h
  · rw [if_pos hv] at h
    simp at h

theorem longPathToken_length : longPathToken.length = 2048 := by
  unfold longPathToken
  simp only [List.length_append, List.length_cons, zName_length]
  rfl

theorem zName_check (n : Nat) (h0 : 0 < n) (hn : n ≤ MAX_ATTRIBUTE_VALUE_LENGTH) :
    rdkssaAttrCheck (some (zName n)) = some (zName n) := by
  apply rdkssaAttrCheck_ok
  · intro e
    have := congrArg List.length e
    rw [zName_length] at this
    simp only [List.length_nil] at this
    omega
  · rw [zName_length]
    exact hn
  · intro c hc
    unfold zName at hc
    rw [(List.mem_replicate.1 hc).2]
    decide

theorem rdkssaMountPath_zName (w : MountWorld) :
    (rdkssaMountPath w (zName 2043)).2 = rdkssaOK ∧
    (rdkssaMountPath w (zName 2043)).1.pp.mountPath = zName 2043 := by
  have hcheck := zName_check 2043 (by decide) (by decide)
  have hcopy : strcpy_s MAX_ATTRIBUTE_VALUE_LENGTH (zName 2043) = zName 2043 := by
    unfold strcpy_s MAX_ATTRIBUTE_VALUE_LENGTH
    rw [zName_length, if_pos (by decide)]
  unfold rdkssaMountPath
  simp only [hcheck, reduceCtorEq, if_false, hcopy]
  exact ⟨trivial, trivial⟩

theorem longPathToken_dispatch (files : FileSystem) (w : MountWorld) :
    attributeHandlerHelper w (some longPathToken) (some (mountHandlers files)) =
      ⟨(rdkssaMountPath w (zName 2043)).1, rdkssaOK, [(1, zName 2043)]⟩ := by
  obtain ⟨hn, hv⟩ := nameOf_valueOf_append "PATH".toList (zName 2043) (by decide)
  have hvalid : validLength longPathToken := by
    unfold validLength MIN_ATTRIBUTE_NAME_LENGTH MAX_ATTRIBUTE_NAME_LENGTH
    rw [longPathToken_length]
    omega
  have hne : ¬ "PATH".toList = [] := by decide
  have h0 : ¬ "PATH".toList = "MOUNTPOINT".toList := by decide
  rw [mount_dispatch, if_neg (not_not.2 hvalid)]
  unfold longPathToken
  rw [hn, hv, if_neg hne, if_neg h0, if_pos rfl, (rdkssaMountPath_zName w).1]

/-- C40 does not hold as stated: the token `PATH=` followed by 2043 characters
`z` has 2048 characters, and through `rdkssaMount` the handler of `PATH` is
called with its value of 2043 characters, more than 2037; the handler returns
`rdkssaOK` and stores the value. -/
theorem C40_counterexample :
    longPathToken.length = 2048 ∧
    (∀ (env : MountEnv),
      (rdkssaMount env none (some [longPathToken])).calls = [(1, zName 2043)]) ∧
    (zName 2043).length = 2043 ∧ ¬ (2043 ≤ 2037) ∧
    (∀ (w : MountWorld),
      (rdkssaMountPath w (zName 2043)).2 = rdkssaOK ∧
      (rdkssaMountPath w (zName 2043)).1.pp.mountPath = zName 2043) := by
  refine ⟨longPathToken_length, ?_, zName_length 2043, by decide, rdkssaMountPath_zName⟩
  intro env
  have hall : allOK (mountHandlers env.files) (⟨initialParams none, env.stdin⟩ : MountWorld)
      [longPathToken] := by
    unfold allOK
    rw [longPathToken_dispatch]
    exact ⟨rfl, trivial⟩
  have hloop := handleLoop_all (mountHandlers env.files) [longPathToken] 0
    (⟨initialParams none, env.stdin⟩ : MountWorld) rdkssaAttributeNotFound
    (by simp [MAX_SUPPORTED_ATTRIBUTES]) hall
  have hd : mountDispatch env none (some [longPathToken]) =
      handleLoop (some (mountHandlers env.files)) 0 ⟨initialParams none, env.stdin⟩
        rdkssaAttributeNotFound [longPathToken] := rfl
  rw [rdkssaMount_calls, hd, hloop]
  simp only [callsAfter, longPathToken_dispatch, List.append_nil]

/-- C40, amended: every value with which the handler of `MOUNTPOINT` is called
through `rdkssaMount` has at most 2037 characters, and every value with which
the handler of `PATH` is called at most 2043 (the 2048 characters of a token
less the name and the `=`); such a value fits into the field of 2048 bytes
with its terminator, and whenever the dispatch of a token of one of these names
returns `rdkssaOK` the field holds the value of the token. -/
theorem C40_value_fits (env : MountEnv) (apiBlobPtr : Option Nat)
    (apiAttributes : Option (List Str)) :
    (∀ v, (0, v) ∈ (rdkssaMount env apiBlobPtr apiAttributes).calls →
      v.length ≤ 2037 ∧ strcpy_s MAX_ATTRIBUTE_VALUE_LENGTH v = v) ∧
    (∀ v, (1, v) ∈ (rdkssaMount env apiBlobPtr apiAttributes).calls →
      v.length ≤ 2043 ∧ strcpy_s MAX_ATTRIBUTE_VALUE_LENGTH v = v) ∧
    (∀ (w : MountWorld) (t : Str),
      (attributeHandlerHelper w (some t) (some (mountHandlers env.files))).status = rdkssaOK →
      (nameOf t = "MOUNTPOINT".toList →
        (attributeHandlerHelper w (some t) (some (mountHandlers env.files))).blob.pp.mountPoint =
          valueOf t) ∧
      (nameOf t = "PATH".toList →
        (attributeHandlerHelper w (some t) (some (mountHandlers env.files))).blob.pp.mountPath =
          valueOf t)) := by
  have hbound : ∀ (t name : Str), validLength t → nameOf t = name →
      (valueOf t).length ≤ 2048 - (name.length + 1) ∨ (valueOf t).length = name.length := by
    intro t name hv hn
    rcases token_length t with ⟨_, h⟩ | ⟨_, h1, h2⟩
    · left
      rw [hn] at h
      have := hv.2
      unfold MAX_ATTRIBUTE_NAME_LENGTH at this
      omega
    · right
      rw [h2, ← hn, h1]
  have hcopy : ∀ v : Str, v.length ≤ 2043 → strcpy_s MAX_ATTRIBUTE_VALUE_LENGTH v = v := by
    intro v hv
    unfold strcpy_s MAX_ATTRIBUTE_VALUE_LENGTH
    rw [if_pos (by omega)]
  have hcalls : ∀ (j : Nat) (v : Str), (j, v) ∈ (rdkssaMount env apiBlobPtr apiAttributes).calls →
      ∃ t, validLength t ∧ v = valueOf t ∧
        (j = 0 → nameOf t = "MOUNTPOINT".toList) ∧ (j = 1 → nameOf t = "PATH".toList) := by
    intro j v h
    rw [rdkssaMount_calls] at h
    cases apiAttributes with
    | none => cases h
    | some attrs =>
      obtain ⟨b, t, _, hm⟩ := handleLoop_calls_mem (mountHandlers env.files) attrs 0 _ _ _ h
      exact ⟨t, mount_call env.files b t j v hm⟩
  refine ⟨?_, ?_, ?_⟩
  · intro v h
    obtain ⟨t, hv, rfl, hn, _⟩ := hcalls 0 v h
    have hb : (valueOf t).length ≤ 2037 := by
      rcases hbound t _ hv (hn rfl) with hb | hb
      · exact hb
      · rw [hb]
        decide
    exact ⟨hb, hcopy _ (by omega)⟩
  · intro v h
    obtain ⟨t, hv, rfl, _, hn⟩ := hcalls 1 v h
    have hb : (valueOf t).length ≤ 2043 := by
      rcases hbound t _ hv (hn rfl) with hb | hb
      · exact hb
      · rw [hb]
        decide
    exact ⟨hb, hcopy _ hb⟩
  · intro w t hok
    have hvalid : validLength t := by
      by_contra hc
      rw [mount_dispatch, if_pos hc] at hok
      have h2 : rdkssaGeneralFailure = rdkssaOK := hok
      exact absurd h2 (by decide)
    constructor
    · intro hn
      have hb : (valueOf t).length ≤ 2043 := by
        rcases hbound t _ hvalid hn with hb | hb
        · exact Nat.le_trans hb (by decide)
        · rw [hb]
          decide
      have hne : nameOf t ≠ [] := by rw [hn]; decide
      rw [mount_dispatch, if_neg (not_not.2 hvalid), if_neg hne, if_pos hn] at hok ⊢
      simp only [rdkssaMountMountpoint] at hok ⊢
      split_ifs at hok ⊢ with hc
      · have h2 : rdkssaValidityError = rdkssaOK := hok
        exact absurd h2 (by decide)
      · exact hcopy _ hb
    · intro hn
      have hb : (valueOf t).length ≤ 2043 := by
        rcases hbound t _ hvalid hn with hb | hb
        · exact hb
        · rw [hb]
          decide
      have hne : nameOf t ≠ [] := by rw [hn]; decide
      have h0 : nameOf t ≠ "MOUNTPOINT".toList := by rw [hn]; decide
      rw [mount_dispatch, if_neg (not_not.2 hvalid), if_neg hne, if_neg h0, if_pos hn] at hok ⊢
      simp only [rdkssaMountPath] at hok ⊢
      split_ifs at hok ⊢ with hc
      · have h2 : rdkssaValidityError = rdkssaOK := hok
        exact absurd h2 (by decide)
      · exact hcopy _ hb

/-- C40 on the attribute list of the end-to-end scenario: the value of
`MOUNTPOINT`. -/
theorem C40_value_fits_witness :
    "/nvram/rdkssa".toList.length ≤ 2037 ∧
    strcpy_s MAX_ATTRIBUTE_VALUE_LENGTH "/nvram/rdkssa".toList = "/nvram/rdkssa".toList :=
  (C40_value_fits (sampleEnv 0) none (some scenarioAttributes)).1 "/nvram/rdkssa".toList
    (by decide)

end Rdkssa
